import Mathlib

/-!
# Verification of `vector2d` (jlturner/golang-vector2d)

A shallow embedding of `vector2d.go`, in two readings of `float64`.

## Part I: the exact reading

`float64` is an arbitrary linearly ordered field `F`; `+ - * /` and `== <= >=` are the
field operations, and the functions of Go's `math` package come as a parameter
`MathPkg F`. This reading is used only for the claims whose content is the branch
structure of the code, an exact comparison, or an identity that `float64` arithmetic
keeps exactly (`Normalize` on its guard, `clampFloat`, the formula of `Reflect`, the
commutativity of `Dot`, `x + 0`, `x * 1`, `Copy`, the symmetry of `Distance`, the
formula of `Rotate`).

## Part II: the binary64 reading

`F64` is IEEE-754 binary64, bit for bit: a finite value is a sign and an integer
multiple `k` of `2^-1074`, every operation computes the exact result and rounds it to
nearest, ties to even, to 53 significant bits (`rnd`), overflows to an infinity
(`pack`), underflows gradually, and produces `NaN` where IEEE-754 does. Each operation
of the source rounds on its own (no fused multiply-add, as on amd64). The library
functions are modelled as Go implements them:

* `math.Sqrt` is the correctly rounded square root (`F64.sqrt`);
* `math.Pow(x, 2)` squares the fraction of `x` and scales it back with `Ldexp`, which
  rounds a second time when the result is subnormal (`F64.pow2`);
* `math.Cos` and `math.Sin` reduce the argument to an octant (Cody-Waite, constants
  `PI4A`, `PI4B`, `PI4C`) and evaluate the polynomials with the coefficients `_sin`
  and `_cos` (`F64.Cos`, `F64.Sin`); for arguments from `2^29` on the library switches
  to another reduction (`trigReduce`), which is left as the parameter `tr`.

The statements about values "up to rounding" are stated over `ℚ` through `F64.toRat`.

## The source

Four lines of the source do not compile as written: `func New(x, y, float64)`, the body
of `Magnitude` without the keyword `return`, `v.Magnitude90` in `Normalize`, and
`math.PI` in `AngleBetween`. They are read as `New(x, y float64)`,
`return math.Sqrt(v.MagnitudeSquared())`, `v.Magnitude()` and `math.Pi`.
-/

namespace vector2d

/-! ## Part I: definitions of the exact reading -/

/-- The functions and the constant of Go's `math` package used by `vector2d.go`. -/
structure MathPkg (F : Type) where
  Sqrt : F → F
  Cos : F → F
  Sin : F → F
  Atan2 : F → F → F
  Floor : F → F
  Pi : F

/-- Source: `type Vector2D struct { X float64; Y float64 }` -/
structure Vector2D (F : Type) where
  X : F
  Y : F
deriving DecidableEq, Repr

section Code

variable {F : Type} [LinearOrderedField F]

/-- Source: `func New(x, y float64) Vector2D` -/
def New (x y : F) : Vector2D F := ⟨x, y⟩

/-- Source: `func FromScalar(v float64) Vector2D` -/
def FromScalar (v : F) : Vector2D F := ⟨v, v⟩

/-- Source: `func Zero() Vector2D` -/
def Zero : Vector2D F := ⟨0, 0⟩

/-- Source: `func Unit() Vector2D` -/
def Unit : Vector2D F := ⟨1, 1⟩

/-- Source: `func clampFloat(value, min, max float64) float64`: the `switch` tries
`value <= min` first, then `value >= max`, and falls through to `value`. -/
def clampFloat (value min max : F) : F :=
  if value ≤ min then min
  else if value ≥ max then max
  else value

namespace Vector2D

/-- Source: `func (v Vector2D) Copy() Vector2D` -/
def Copy (v : Vector2D F) : Vector2D F := ⟨v.X, v.Y⟩

/-- Source: `func (v Vector2D) MagnitudeSquared() float64` -/
def MagnitudeSquared (v : Vector2D F) : F := v.X ^ 2 + v.Y ^ 2

/-- Source: `func (v Vector2D) Magnitude() float64` -/
def Magnitude (m : MathPkg F) (v : Vector2D F) : F := m.Sqrt v.MagnitudeSquared

/-- Source: `func (v Vector2D) AddVector(v2 Vector2D) Vector2D` -/
def AddVector (v v2 : Vector2D F) : Vector2D F := ⟨v.X + v2.X, v.Y + v2.Y⟩

/-- Source: `func (v Vector2D) SubtractVector(v2 Vector2D) Vector2D` -/
def SubtractVector (v v2 : Vector2D F) : Vector2D F := ⟨v.X - v2.X, v.Y - v2.Y⟩

/-- Source: `func (v Vector2D) MultiplyVector(v2 Vector2D) Vector2D` -/
def MultiplyVector (v v2 : Vector2D F) : Vector2D F := ⟨v.X * v2.X, v.Y * v2.Y⟩

/-- Source: `func (v Vector2D) DivideVector(v2 Vector2D) Vector2D` -/
def DivideVector (v v2 : Vector2D F) : Vector2D F := ⟨v.X / v2.X, v.Y / v2.Y⟩

/-- Source: `func (v Vector2D) MultiplyScalar(s float64) Vector2D` -/
def MultiplyScalar (v : Vector2D F) (s : F) : Vector2D F := ⟨v.X * s, v.Y * s⟩

/-- Source: `func (v Vector2D) DivideScalar(s float64) Vector2D` -/
def DivideScalar (v : Vector2D F) (s : F) : Vector2D F := ⟨v.X / s, v.Y / s⟩

/-- Source: `func (v Vector2D) Distance(v2 Vector2D) float64` -/
def Distance (m : MathPkg F) (v v2 : Vector2D F) : F :=
  m.Sqrt (((v.X - v2.X) + (v.Y - v2.Y)) ^ 2)

/-- Source: `func (v Vector2D) Dot(v2 Vector2D) float64` -/
def Dot (v v2 : Vector2D F) : F := v.X * v2.X + v.Y * v2.Y

/-- Source: `func (v Vector2D) Reflect(normal Vector2D) Vector2D` -/
def Reflect (v normal : Vector2D F) : Vector2D F :=
  let dotProduct := v.Dot normal
  ⟨v.X - (2 * dotProduct * normal.X), v.Y - (2 * dotProduct * normal.Y)⟩

/-- Source: `func (v Vector2D) Normalize() Vector2D` -/
def Normalize (m : MathPkg F) (v : Vector2D F) : Vector2D F :=
  let mag := v.Magnitude m
  if mag = 0 ∨ mag = 1 then v.Copy
  else v.DivideScalar mag

/-- Source: `func (v Vector2D) Angle() float64` -/
def Angle (m : MathPkg F) (v : Vector2D F) : F := -1 * m.Atan2 (v.Y * -1) v.X

/-- Source: `func (v Vector2D) Rotate(angle float64) Vector2D` -/
def Rotate (m : MathPkg F) (v : Vector2D F) (angle : F) : Vector2D F :=
  ⟨v.X * m.Cos angle - v.Y * m.Sin angle,
   v.X * m.Sin angle - v.Y * m.Cos angle⟩

/-- Source: `func (v Vector2D) ClampToScalars(min, max float64) Vector2D` -/
def ClampToScalars (v : Vector2D F) (min max : F) : Vector2D F :=
  ⟨clampFloat v.X min max, clampFloat v.Y min max⟩

/-- Source: `func (v Vector2D) ClampToVectors(minV, maxV Vector2D) Vector2D` -/
def ClampToVectors (v minV maxV : Vector2D F) : Vector2D F :=
  ⟨clampFloat v.X minV.X maxV.X, clampFloat v.Y minV.Y maxV.Y⟩

/-- Source: `func (v Vector2D) Floor() Vector2D` -/
def Floor (m : MathPkg F) (v : Vector2D F) : Vector2D F := ⟨m.Floor v.X, m.Floor v.Y⟩

/-- Source: `func (v Vector2D) Negate() Vector2D` -/
def Negate (v : Vector2D F) : Vector2D F := v.MultiplyScalar (-1)

end Vector2D

/-- `math.Sqrt` is the exact non-negative square root on non-negative arguments. -/
structure ExactSqrt (m : MathPkg F) : Prop where
  sqrt_nonneg : ∀ x : F, 0 ≤ x → 0 ≤ m.Sqrt x
  sqrt_mul_self : ∀ x : F, 0 ≤ x → m.Sqrt x * m.Sqrt x = x

end Code

/-- The `math` package over the real numbers. -/
noncomputable def realMath : MathPkg ℝ where
  Sqrt := Real.sqrt
  Cos := Real.cos
  Sin := Real.sin
  Atan2 := fun y x => Complex.arg ⟨x, y⟩
  Floor := fun x => (⌊x⌋ : ℝ)
  Pi := Real.pi

/-! ## Part II: definitions of the binary64 reading -/

/-! ### The arithmetic of binary64 -/

/-- An IEEE-754 binary64 value, the `float64` of Go. `fin s k` is the finite number
`(-1)^s · k · 2^-1074` (the sign bit `s`, and the magnitude `k` counted in units of the
smallest subnormal, so `fin true 0` is `-0`); `inf s` is the infinity of sign `s`. A
value produced by an operation has `k < 2^2098` with at most 53 significant bits. -/
inductive F64 where
  | fin (s : Bool) (k : Nat)
  | inf (s : Bool)
  | nan
deriving DecidableEq, Repr

namespace F64

/-- Binary search for the position of the leading bit of `n`, in `s` halving steps. -/
def blogSearch : Nat → Nat → Nat → Nat
  | 0, lo, _ => lo
  | s + 1, lo, n =>
    if 2 ^ (lo + 2 ^ s) ≤ n then blogSearch s (lo + 2 ^ s) n else blogSearch s lo n

/-- The position of the leading bit of `n`, `Nat.log2 n`, computed by binary search. -/
@[irreducible] def blog (n : Nat) : Nat :=
  let l := blogSearch 13 0 n
  if 2 ^ l ≤ n ∧ n < 2 ^ (l + 1) then l else Nat.log2 n

/-- Newton iteration for the integer square root, with fuel. -/
def isqrtIter : Nat → Nat → Nat → Nat
  | 0, _, x => x
  | f + 1, n, x =>
    let y := (x + n / x) / 2
    if y < x then isqrtIter f n y else x

/-- The integer square root of `n`, `Nat.sqrt n`, computed by Newton iteration. -/
@[irreducible] def isqrt (n : Nat) : Nat :=
  let r := isqrtIter 64 n (2 ^ (blog n / 2 + 1))
  if r * r ≤ n ∧ n < (r + 1) * (r + 1) then r else Nat.sqrt n

/-- Rounding to nearest, ties to even, of the quotient `n / d` to an integer with at
most 53 significant bits: the rounding of every binary64 operation, in units of
`2^-1074` (in these units the subnormal numbers are the integers below `2^52`, so the
same rule covers gradual underflow). -/
@[irreducible] def rnd (n d : Nat) : Nat :=
  let sh := blog (n / d) + 1 - 53
  let D := d * 2 ^ sh
  let m := n / D
  let r := n % D
  let m' := if 2 * r < D then m else if D < 2 * r then m + 1 else if m % 2 = 0 then m else m + 1
  m' * 2 ^ sh

/-- The `float64` of sign `s` and rounded magnitude `j`: overflow to the infinity from
`2^1024` on. -/
@[irreducible] def pack (s : Bool) (j : Nat) : F64 := if j < 2 ^ 2098 then fin s j else inf s

/-- The `float64` nearest to the non-negative rational `n / d`; a decimal literal of the
source such as `0.5` is `ofDec 5 10`. -/
def ofDec (n d : Nat) : F64 := pack false (rnd (n * 2 ^ 1074) d)

/-- The `float64` negation `-a`. -/
def neg : F64 → F64
  | fin s k => fin (!s) k
  | inf s => inf (!s)
  | nan => nan

/-- The signed integer `(-1)^s · k`. -/
def toInt (s : Bool) (k : Nat) : Int := if s then -(k : Int) else (k : Int)

/-- The `float64` sum `a + b`: exact sum, then rounding; an exact zero sum is `+0`
unless both operands are `-0`. -/
def add : F64 → F64 → F64
  | fin s1 k1, fin s2 k2 =>
    let i := toInt s1 k1 + toInt s2 k2
    if i = 0 then fin (s1 && s2) 0 else pack (decide (i < 0)) (rnd i.natAbs 1)
  | fin _ _, inf s => inf s
  | inf s, fin _ _ => inf s
  | inf s1, inf s2 => if s1 = s2 then inf s1 else nan
  | _, _ => nan

/-- The `float64` difference `a - b`. -/
def sub (a b : F64) : F64 := add a (neg b)

/-- The `float64` product `a * b`: exact product, then rounding (no fused
multiply-add: every operation of the source rounds on its own). -/
def mul : F64 → F64 → F64
  | fin s1 k1, fin s2 k2 => pack (xor s1 s2) (rnd (k1 * k2) (2 ^ 1074))
  | fin s1 k1, inf s2 => if k1 = 0 then nan else inf (xor s1 s2)
  | inf s1, fin s2 k2 => if k2 = 0 then nan else inf (xor s1 s2)
  | inf s1, inf s2 => inf (xor s1 s2)
  | _, _ => nan

/-- The `float64` quotient `a / b`, with `x / 0 = ±Inf` and `0 / 0 = NaN`. -/
def div : F64 → F64 → F64
  | fin s1 k1, fin s2 k2 =>
    if k2 = 0 then (if k1 = 0 then nan else inf (xor s1 s2))
    else pack (xor s1 s2) (rnd (k1 * 2 ^ 1074) k2)
  | fin s1 _, inf s2 => fin (xor s1 s2) 0
  | inf s1, fin s2 _ => inf (xor s1 s2)
  | _, _ => nan

/-- Go's `math.Sqrt`: the correctly rounded square root; `NaN` for a negative
argument. -/
def sqrt : F64 → F64
  | fin s k =>
    if k = 0 then fin s 0
    else if s then nan
    else
      let r := isqrt (k * 2 ^ 1074)
      fin false (rnd (2 * r + (if r * r = k * 2 ^ 1074 then 0 else 1)) 2)
  | inf s => if s then nan else inf false
  | nan => nan

/-- Go's `math.Pow(x, 2)`. The library squares the fraction of `x` (one rounding to 53
bits, without exponent limits) and scales the result back with `Ldexp` (a second
rounding when the result is subnormal, overflow to `+Inf`). -/
def pow2 : F64 → F64
  | fin _ k => pack false (rnd (rnd (k * k) 1) (2 ^ 1074))
  | inf _ => inf false
  | nan => nan

/-- The `float64` comparison `a <= b`; false when either side is `NaN`. -/
def le : F64 → F64 → Bool
  | fin s1 k1, fin s2 k2 => decide (toInt s1 k1 ≤ toInt s2 k2)
  | fin _ _, inf s => !s
  | inf s, fin _ _ => s
  | inf s1, inf s2 => s1 || !s2
  | _, _ => false

/-- The `float64` comparison `a >= b`. -/
def ge (a b : F64) : Bool := le b a

/-- The `float64` comparison `a == b`: `-0 == +0`, and `NaN` equals nothing. -/
def eq : F64 → F64 → Bool
  | fin s1 k1, fin s2 k2 => decide (toInt s1 k1 = toInt s2 k2)
  | inf s1, inf s2 => s1 == s2
  | _, _ => false

instance : Add F64 := ⟨add⟩

instance : Sub F64 := ⟨sub⟩

instance : Mul F64 := ⟨mul⟩

instance : Div F64 := ⟨div⟩

instance : Neg F64 := ⟨neg⟩

instance : BEq F64 := ⟨eq⟩

instance : LE F64 := ⟨fun a b => le a b = true⟩

instance (a b : F64) : Decidable (a ≤ b) := inferInstanceAs (Decidable (le a b = true))

/-- An integer literal of the source, rounded to `float64`. -/
instance (n : Nat) : OfNat F64 n := ⟨pack false (rnd (n * 2 ^ 1074) 1)⟩

/-- Go's `math.Pi` as a `float64`, `3.141592653589793`. -/
def Pi : F64 := ofDec 3141592653589793 1000000000000000

/-! ### The library functions `math.Cos` and `math.Sin` -/

/-- Go's conversion `uint64(x)` of a non-negative finite `float64`: truncation. -/
def toUint64 : F64 → Nat
  | fin _ k => k / 2 ^ 1074
  | _ => 0

/-- Go's conversion `float64(j)` of an unsigned integer. -/
def ofUint64 (j : Nat) : F64 := pack false (rnd (j * 2 ^ 1074) 1)

/-- The constant `4 / Pi` of Go's `math` package as a `float64`; `Pi` is the untyped
constant `3.14159265358979323846264338327950288419716939937510582097494459`. -/
def M4PI : F64 :=
  ofDec (4 * 10 ^ 62) 314159265358979323846264338327950288419716939937510582097494459

/-- The constant `PI4A = 7.85398125648498535156e-1` of Go's `math.Cos` and `math.Sin`. -/
def PI4A : F64 := ofDec 785398125648498535156 (10 ^ 21)

/-- The constant `PI4B = 3.77489470793079817668e-8`. -/
def PI4B : F64 := ofDec 377489470793079817668 (10 ^ 28)

/-- The constant `PI4C = 2.69515142907905952645e-15`. -/
def PI4C : F64 := ofDec 269515142907905952645 (10 ^ 35)

/-- The constant `reduceThreshold = 1 << 29` of Go's `math` package. -/
def reduceThreshold : F64 := ofUint64 (2 ^ 29)

/-- The argument reduction of Go's `math.Cos` and `math.Sin` below `reduceThreshold`
(Cody-Waite): the octant `j` modulo `8` and the remainder `z`. -/
def reduce (x : F64) : Nat × F64 :=
  let j := toUint64 (x * M4PI)
  let y := ofUint64 j
  let j1 := if j % 2 = 1 then j + 1 else j
  let y1 := if j % 2 = 1 then y + 1 else y
  (j1 % 8, ((x - y1 * PI4A) - y1 * PI4B) - y1 * PI4C)

/-- The polynomial of Go's `math` package for the sine on the reduced argument, with
the coefficients `_sin`. -/
def polySin (z : F64) : F64 :=
  let zz := z * z
  z + z * zz * ((((((ofDec 158962301576546568060 (10 ^ 30) * zz)
    + -(ofDec 250507477628578072866 (10 ^ 28))) * zz
    + ofDec 275573136213857245213 (10 ^ 26)) * zz
    + -(ofDec 198412698295895385996 (10 ^ 24))) * zz
    + ofDec 833333333332211858878 (10 ^ 23)) * zz
    + -(ofDec 166666666666666307295 (10 ^ 21)))

/-- The polynomial of Go's `math` package for the cosine on the reduced argument, with
the coefficients `_cos`. -/
def polyCos (z : F64) : F64 :=
  let zz := z * z
  1 - ofDec 5 10 * zz + zz * zz * ((((((-(ofDec 113585365213876817300 (10 ^ 31)) * zz)
    + ofDec 208757008419747316778 (10 ^ 29)) * zz
    + -(ofDec 275573141792967388112 (10 ^ 27))) * zz
    + ofDec 248015872888517045348 (10 ^ 25)) * zz
    + -(ofDec 138888888888730564116 (10 ^ 23))) * zz
    + ofDec 416666666666665929218 (10 ^ 22))

/-- The cosine from the octant and the reduced argument, as in Go's `math.Cos`. -/
def cosOf (p : Nat × F64) : F64 :=
  let j := if p.1 > 3 then p.1 - 4 else p.1
  let sign := xor (decide (p.1 > 3)) (decide (j > 1))
  let y := if j = 1 ∨ j = 2 then polySin p.2 else polyCos p.2
  if sign then -y else y

/-- The sine from the sign of the argument, the octant and the reduced argument, as in
Go's `math.Sin`. -/
def sinOf (s : Bool) (p : Nat × F64) : F64 :=
  let j := if p.1 > 3 then p.1 - 4 else p.1
  let sign := xor s (decide (p.1 > 3))
  let y := if j = 1 ∨ j = 2 then polyCos p.2 else polySin p.2
  if sign then -y else y

/-- A reduction that returns `NaN`. It stands for `trigReduce` where a closed term is
needed and every argument is below `reduceThreshold`, so that it is never called. -/
def trNaN : F64 → Nat × F64 := fun _ => (0, nan)

/-- Go's `math.Cos`. Below `reduceThreshold` the argument is reduced by `reduce`; from
`reduceThreshold` on the library uses the reduction `trigReduce` (Payne-Hanek), which
is the parameter `tr`. -/
def Cos (tr : F64 → Nat × F64) : F64 → F64
  | fin _ k =>
    cosOf (if le reduceThreshold (fin false k) then tr (fin false k) else reduce (fin false k))
  | _ => nan

/-- Go's `math.Sin`; `Sin(±0) = ±0`. -/
def Sin (tr : F64 → Nat × F64) : F64 → F64
  | fin s k =>
    if k = 0 then fin s k
    else sinOf s
      (if le reduceThreshold (fin false k) then tr (fin false k) else reduce (fin false k))
  | _ => nan

/-! ### The functions of `vector2d.go` -/

/-- Source: `func linearInterpolate(start, end, amount float64) float64` -/
def linearInterpolate (start stop amount : F64) : F64 :=
  start + (stop - start) * amount

/-- Source: `func mapFloat(value, oldMin, oldMax, newMin, newMax float64) float64` -/
def mapFloat (value oldMin oldMax newMin newMax : F64) : F64 :=
  newMin + (newMax - newMin) * ((value - oldMin) / (oldMax - oldMin))

/-- Source: `type Vector2D struct { X float64; Y float64 }` -/
structure Vector2D where
  X : F64
  Y : F64
deriving DecidableEq, Repr

namespace Vector2D

/-- Source: `func (v Vector2D) Copy() Vector2D` -/
def Copy (v : Vector2D) : Vector2D := ⟨v.X, v.Y⟩

/-- Source: `func (v Vector2D) MagnitudeSquared() float64` -/
def MagnitudeSquared (v : Vector2D) : F64 := pow2 v.X + pow2 v.Y

/-- Source: `func (v Vector2D) Magnitude() float64` -/
def Magnitude (v : Vector2D) : F64 := sqrt v.MagnitudeSquared

/-- Source: `func (v Vector2D) MultiplyScalar(s float64) Vector2D` -/
def MultiplyScalar (v : Vector2D) (s : F64) : Vector2D := ⟨v.X * s, v.Y * s⟩

/-- Source: `func (v Vector2D) DivideScalar(s float64) Vector2D` -/
def DivideScalar (v : Vector2D) (s : F64) : Vector2D := ⟨v.X / s, v.Y / s⟩

/-- Source: `func (v Vector2D) Distance(v2 Vector2D) float64` -/
def Distance (v v2 : Vector2D) : F64 := sqrt (pow2 ((v.X - v2.X) + (v.Y - v2.Y)))

/-- Source: `func (v Vector2D) Dot(v2 Vector2D) float64` -/
def Dot (v v2 : Vector2D) : F64 := v.X * v2.X + v.Y * v2.Y

/-- Source: `func (v Vector2D) Reflect(normal Vector2D) Vector2D` -/
def Reflect (v normal : Vector2D) : Vector2D :=
  let dotProduct := v.Dot normal
  ⟨v.X - (2 * dotProduct * normal.X), v.Y - (2 * dotProduct * normal.Y)⟩

/-- Source: `func (v Vector2D) Normalize() Vector2D` -/
def Normalize (v : Vector2D) : Vector2D :=
  let mag := v.Magnitude
  if (mag == 0 || mag == 1) = true then v.Copy
  else v.DivideScalar mag

/-- Source: `func (v Vector2D) Limit(max float64) Vector2D` -/
def Limit (v : Vector2D) (max : F64) : Vector2D :=
  let magSq := v.MagnitudeSquared
  if magSq ≤ pow2 max then v.Copy
  else v.Normalize.MultiplyScalar max

/-- Source: `func (v Vector2D) LinearInterpolateToVector(v2 Vector2D, amount float64) Vector2D` -/
def LinearInterpolateToVector (v v2 : Vector2D) (amount : F64) : Vector2D :=
  ⟨linearInterpolate v.X v2.X amount, linearInterpolate v.Y v2.Y amount⟩

/-- Source: `func (v Vector2D) MapToScalars(oldMin, oldMax, newMin, newMax float64) Vector2D` -/
def MapToScalars (v : Vector2D) (oldMin oldMax newMin newMax : F64) : Vector2D :=
  ⟨mapFloat v.X oldMin oldMax newMin newMax, mapFloat v.Y oldMin oldMax newMin newMax⟩

/-- Source: `func (v Vector2D) AngleBetween(v2 Vector2D) float64`; the `switch` tries
`angle <= -1` first, then `angle >= 0`, and falls through to `angle`. -/
def AngleBetween (v v2 : Vector2D) : F64 :=
  let angle := v.Dot v2 / v.Magnitude * v2.Magnitude
  if angle ≤ -1 then Pi
  else if 0 ≤ angle then 0
  else angle

end Vector2D

/-- Source: `func FromRadians(r float64) Vector2D` -/
def FromRadians (tr : F64 → Nat × F64) (r : F64) : Vector2D := ⟨Cos tr r, Sin tr r⟩

/-! ### Vocabulary of the statements and proofs -/

/-- The value of the magnitude `k` of a finite `float64`: `k * 2^-1074`. -/
def val (k : Nat) : ℚ := (k : ℚ) / 2 ^ 1074

/-- The computed `a` is the exact `b` up to the relative error `e`. -/
def Near (e a b : ℚ) : Prop := b * (1 - e) ≤ a ∧ a ≤ b * (1 + e)

/-- The unit roundoff `2^-53`. -/
def U : ℚ := 1 / 2 ^ 53

/-- The magnitude `k` is `0` or lies between `2^-100` and `2^100` in value. -/
def Moderate (k : Nat) : Prop := k = 0 ∨ (2 ^ 974 ≤ k ∧ k ≤ 2 ^ 1174)

instance (k : Nat) : Decidable (Moderate k) := by unfold Moderate; infer_instance

/-- The rounded quotient at a fixed spacing `D`, as computed inside `rnd`. -/
def rndCore (n D : Nat) : Nat :=
  if 2 * (n % D) < D then n / D else if D < 2 * (n % D) then n / D + 1
  else if (n / D) % 2 = 0 then n / D else n / D + 1

/-- The `float64` comparison `a < b`; false when either side is `NaN`. -/
def lt : F64 → F64 → Bool
  | fin s1 k1, fin s2 k2 => decide (toInt s1 k1 < toInt s2 k2)
  | fin _ _, inf s => !s
  | inf s, fin _ _ => s
  | inf s1, inf s2 => s1 && !s2
  | _, _ => false

/-- The rational value of a finite `float64` (`0` for the infinities and `NaN`). -/
def toRat : F64 → ℚ
  | fin s k => if s then -val k else val k
  | _ => 0

/-- The value is finite. -/
def isFin : F64 → Bool
  | fin _ _ => true
  | _ => false

/-- A genuine finite `float64`: below `2^1024` and with at most 53 significant bits. -/
def Valid : F64 → Prop
  | fin _ k => k < 2 ^ 2098 ∧ rnd k 1 = k
  | _ => False

instance (a : F64) : Decidable (Valid a) := by
  cases a <;> unfold Valid <;> infer_instance

/-- A finite `float64` that is `0` or of absolute value between `2^-100` and `2^100`. -/
def IsModerate : F64 → Prop
  | fin _ k => Moderate k
  | _ => False

instance (a : F64) : Decidable (IsModerate a) := by
  cases a <;> unfold IsModerate <;> infer_instance

/-- A finite `float64` that is `0` or of absolute value between `2^-510` and `2^510`:
its square neither overflows nor is subnormal. -/
def SquareSafe : F64 → Prop
  | fin _ k => k = 0 ∨ (2 ^ 564 ≤ k ∧ k ≤ 2 ^ 1584)
  | _ => False

instance (a : F64) : Decidable (SquareSafe a) := by
  cases a <;> unfold SquareSafe <;> infer_instance

/-- A `float64` whose square is not subnormal: not finite, `0`, or of absolute value at
least `2^-511`. -/
def SquareNormal : F64 → Prop
  | fin _ k => k = 0 ∨ 2 ^ 563 ≤ k
  | _ => True

instance (a : F64) : Decidable (SquareNormal a) := by
  cases a <;> unfold SquareNormal <;> infer_instance

/-- A finite `float64` of absolute value at most `2^1016`. -/
def NotHuge : F64 → Prop
  | fin _ k => k ≤ 2 ^ 2090
  | _ => False

instance (a : F64) : Decidable (NotHuge a) := by
  cases a <;> unfold NotHuge <;> infer_instance

/-- Half the smallest subnormal, `2^-1075`: the largest absolute rounding error of an
operation whose result is subnormal. -/
def Eta : ℚ := 1 / 2 ^ 1075

/-- The rounding errors of one `Reflect`: `X`, `Y` are the values of the components of
`Reflect((x, y), (a, b))`, where each of the eleven operations of the source (four
products and a sum for `Dot`, the doubling, two products and two differences) is exact
up to the relative error `U`, plus `Eta` for a product. -/
def ReflectErr (x y a b X Y : ℚ) : Prop :=
  ∃ p1 p2 d t q1 q2 : ℚ,
    |p1 - x * a| ≤ U * |x * a| + Eta ∧ |p2 - y * b| ≤ U * |y * b| + Eta ∧
    |d - (p1 + p2)| ≤ U * |p1 + p2| ∧ |t - 2 * d| ≤ U * |2 * d| + Eta ∧
    |q1 - t * a| ≤ U * |t * a| + Eta ∧ |q2 - t * b| ≤ U * |t * b| + Eta ∧
    |X - (x - q1)| ≤ U * |x - q1| ∧ |Y - (y - q2)| ≤ U * |y - q2|

end F64

/-! ## Lemmas of the exact reading -/

theorem realMath_exactSqrt : ExactSqrt realMath :=
  ⟨fun x _ => Real.sqrt_nonneg x, fun _ hx => Real.mul_self_sqrt hx⟩

section Lemmas

variable {F : Type} [LinearOrderedField F]

open Vector2D

omit [LinearOrderedField F] in
theorem copy_eq (v : Vector2D F) : v.Copy = v := rfl

theorem ExactSqrt.sqrt_sq_eq_abs {m : MathPkg F} (hm : ExactSqrt m) (a : F) :
    m.Sqrt (a ^ 2) = |a| := by
  have ha : (0 : F) ≤ a ^ 2 := by positivity
  have h := hm.sqrt_mul_self _ ha
  have h0 := hm.sqrt_nonneg _ ha
  have h1 : m.Sqrt (a ^ 2) * m.Sqrt (a ^ 2) = |a| * |a| := by
    rw [h, abs_mul_abs_self]; ring
  exact (mul_self_inj h0 (abs_nonneg a)).mp h1

/-- With ordered bounds `clampFloat` is `max(min, min(value, max))`. -/
theorem clampFloat_eq_max_min (value lo hi : F) (h : lo ≤ hi) :
    clampFloat value lo hi = Max.max lo (Min.min value hi) := by
  unfold clampFloat
  by_cases h1 : value ≤ lo
  · rw [if_pos h1, min_eq_left (le_trans h1 h), max_eq_left h1]
  · rw [if_neg h1]
    by_cases h2 : value ≥ hi
    · rw [if_pos h2, min_eq_right h2, max_eq_right h]
    · rw [if_neg h2, min_eq_left (le_of_lt (not_le.mp h2)),
        max_eq_right (le_of_lt (not_le.mp h1))]

/-- With ordered bounds the clamped value lies between them. -/
theorem clampFloat_mem (value lo hi : F) (h : lo ≤ hi) :
    lo ≤ clampFloat value lo hi ∧ clampFloat value lo hi ≤ hi := by
  rw [clampFloat_eq_max_min value lo hi h]
  exact ⟨le_max_left _ _, max_le h (min_le_right _ _)⟩

/-- A value between the bounds is returned as it is. -/
theorem clampFloat_of_mem (value lo hi : F) (h1 : lo ≤ value) (h2 : value ≤ hi) :
    clampFloat value lo hi = value := by
  rw [clampFloat_eq_max_min value lo hi (le_trans h1 h2), min_eq_left h2, max_eq_right h1]

/-- With `min > max` the result is `min` up to `min` and `max` above it. -/
theorem clampFloat_swapped (value lo hi : F) (h : lo > hi) :
    (value ≤ lo → clampFloat value lo hi = lo) ∧
      (value > lo → clampFloat value lo hi = hi) ∧
      (clampFloat value lo hi = value → value = lo) := by
  have a : value ≤ lo → clampFloat value lo hi = lo := fun h1 => by
    unfold clampFloat; rw [if_pos h1]
  have b : value > lo → clampFloat value lo hi = hi := fun h1 => by
    unfold clampFloat
    rw [if_neg (not_le.mpr h1), if_pos (le_of_lt (lt_trans h h1))]
  refine ⟨a, b, fun e => ?_⟩
  rcases le_or_lt value lo with h1 | h1
  · rw [a h1] at e; exact e.symm
  · rw [b h1] at e
    exact absurd (lt_trans h h1) (by rw [e]; exact lt_irrefl _)

end Lemmas

/-! ## Lemmas of the binary64 reading -/

namespace F64

theorem blog_eq (n : Nat) : blog n = Nat.log2 n := by
  unfold blog
  simp only
  split
  · rename_i h
    have hn : n ≠ 0 := by
      intro h0
      have := h.1
      rw [h0] at this
      exact absurd this (not_le.mpr (pow_pos (by norm_num) _))
    apply le_antisymm
    · exact (Nat.le_log2 hn).2 h.1
    · exact Nat.lt_succ_iff.mp ((Nat.log2_lt hn).2 h.2)
  · rfl

theorem pow_blog_le {n : Nat} (hn : n ≠ 0) : 2 ^ blog n ≤ n := by
  rw [blog_eq]; exact Nat.log2_self_le hn

theorem lt_pow_blog (n : Nat) : n < 2 ^ (blog n + 1) := by
  rw [blog_eq]; exact Nat.lt_log2_self

theorem isqrt_eq (n : Nat) : isqrt n = Nat.sqrt n := by
  unfold isqrt
  simp only
  split
  · rename_i h
    exact Nat.eq_sqrt.2 h
  · rfl

theorem rnd_cases (n d : Nat) (hd : 0 < d) :
    ∃ D m r, D = d * 2 ^ (blog (n / d) + 1 - 53) ∧ n = D * m + r ∧ r < D ∧
      ((rnd n d * d = m * D ∧ 2 * r ≤ D) ∨ (rnd n d * d = (m + 1) * D ∧ D ≤ 2 * r)) := by
  have hD : 0 < d * 2 ^ (blog (n / d) + 1 - 53) := Nat.mul_pos hd (pow_pos (by norm_num) _)
  refine ⟨d * 2 ^ (blog (n / d) + 1 - 53), n / (d * 2 ^ (blog (n / d) + 1 - 53)),
    n % (d * 2 ^ (blog (n / d) + 1 - 53)), rfl, (Nat.div_add_mod _ _).symm, Nat.mod_lt _ hD, ?_⟩
  unfold rnd
  simp only
  split_ifs with h1 h2 h3
  · left; exact ⟨by ring, le_of_lt h1⟩
  · right; exact ⟨by ring, le_of_lt h2⟩
  · left; exact ⟨by ring, not_lt.mp h2⟩
  · right; exact ⟨by ring, not_lt.mp h1⟩

theorem rnd_key (n d : Nat) (_hd : 0 < d) (h : 2 ^ 52 * d ≤ n ∨ d ∣ n) :
    (d * 2 ^ (blog (n / d) + 1 - 53)) * 2 ^ 52 ≤ n ∨
      n % (d * 2 ^ (blog (n / d) + 1 - 53)) = 0 := by
  by_cases hs : blog (n / d) + 1 - 53 = 0
  · rw [hs, pow_zero, mul_one]
    rcases h with h | h
    · left; rw [mul_comm]; exact h
    · right; exact Nat.mod_eq_zero_of_dvd h
  · left
    have hq : n / d ≠ 0 := by
      intro h0
      rw [h0, blog_eq] at hs
      exact hs (by simp [Nat.log2])
    have h1 := pow_blog_le hq
    have h2 : blog (n / d) + 1 - 53 + 52 = blog (n / d) := by omega
    calc d * 2 ^ (blog (n / d) + 1 - 53) * 2 ^ 52
        = d * 2 ^ (blog (n / d) + 1 - 53 + 52) := by rw [pow_add]; ring
      _ = d * 2 ^ blog (n / d) := by rw [h2]
      _ ≤ d * (n / d) := Nat.mul_le_mul_left _ h1
      _ ≤ n := Nat.mul_div_le n d

/-- The relative error of `rnd` is at most `2^-53`. -/
theorem rnd_bounds (n d : Nat) (hd : 0 < d) (h : 2 ^ 52 * d ≤ n ∨ d ∣ n) :
    (2 ^ 53 - 1) * n ≤ 2 ^ 53 * (rnd n d * d) ∧ 2 ^ 53 * (rnd n d * d) ≤ (2 ^ 53 + 1) * n := by
  obtain ⟨D, m, r, hD, hn, hr, hc⟩ := rnd_cases n d hd
  have hk := rnd_key n d hd h
  rw [← hD] at hk
  have hr0 : D * 2 ^ 52 ≤ n ∨ r = 0 := by
    rcases hk with hk | hk
    · left; exact hk
    · right
      have : n % D = r := by
        rw [hn, Nat.mul_add_mod, Nat.mod_eq_of_lt hr]
      rw [← this]; exact hk
  rcases hc with ⟨e, h2⟩ | ⟨e, h2⟩
  · rw [e]
    rcases hr0 with h3 | h3
    · constructor
      · have : (2 ^ 53 : Nat) * r ≤ n := by
          calc (2 ^ 53 : Nat) * r = 2 ^ 52 * (2 * r) := by ring
            _ ≤ 2 ^ 52 * D := Nat.mul_le_mul_left _ h2
            _ ≤ n := by rw [mul_comm]; exact h3
        have e2 : m * D = n - r := by rw [hn, mul_comm D m, Nat.add_sub_cancel]
        rw [e2]
        omega
      · have e2 : m * D ≤ n := by rw [hn, mul_comm]; exact Nat.le_add_right _ _
        calc 2 ^ 53 * (m * D) ≤ 2 ^ 53 * n := Nat.mul_le_mul_left _ e2
          _ ≤ (2 ^ 53 + 1) * n := Nat.mul_le_mul_right _ (by norm_num)
    · have e2 : m * D = n := by rw [hn, h3, mul_comm]; rfl
      rw [e2]
      constructor
      · exact Nat.mul_le_mul_right _ (by norm_num)
      · exact Nat.mul_le_mul_right _ (by norm_num)
  · rw [e]
    rcases hr0 with h3 | h3
    · have e2 : (m + 1) * D = n + (D - r) := by
        rw [hn]; ring_nf; omega
      have : (2 ^ 53 : Nat) * (D - r) ≤ n := by
        calc (2 ^ 53 : Nat) * (D - r) = 2 ^ 52 * (2 * (D - r)) := by ring
          _ ≤ 2 ^ 52 * D := Nat.mul_le_mul_left _ (by omega)
          _ ≤ n := by rw [mul_comm]; exact h3
      rw [e2]
      constructor
      · omega
      · omega
    · rw [h3] at h2
      omega

theorem U_pos : 0 < U := by unfold U; positivity

theorem val_nonneg (k : Nat) : 0 ≤ val k := by unfold val; positivity

theorem val_pos {k : Nat} (h : k ≠ 0) : 0 < val k := by
  unfold val
  have : (0 : ℚ) < k := by exact_mod_cast Nat.pos_of_ne_zero h
  positivity

theorem val_zero : val 0 = 0 := by simp [val]

theorem Near.nonneg {e a b : ℚ} (h : Near e a b) (hb : 0 ≤ b) (he : e ≤ 1) : 0 ≤ a :=
  le_trans (mul_nonneg hb (by linarith)) h.1

theorem Near.trans {e1 e2 a b c : ℚ} (e3 : ℚ) (h1 : Near e1 a b) (h2 : Near e2 b c) (hc : 0 ≤ c)
    (he1 : 0 ≤ e1) (_he1' : e1 ≤ 1)
    (hlo : 1 - e3 ≤ (1 - e1) * (1 - e2)) (hhi : (1 + e1) * (1 + e2) ≤ 1 + e3) :
    Near e3 a c := by
  constructor
  · calc c * (1 - e3) ≤ c * ((1 - e1) * (1 - e2)) := mul_le_mul_of_nonneg_left hlo hc
      _ = c * (1 - e2) * (1 - e1) := by ring
      _ ≤ b * (1 - e1) := mul_le_mul_of_nonneg_right h2.1 (by linarith)
      _ ≤ a := h1.1
  · calc a ≤ b * (1 + e1) := h1.2
      _ ≤ c * (1 + e2) * (1 + e1) := mul_le_mul_of_nonneg_right h2.2 (by linarith)
      _ = c * ((1 + e1) * (1 + e2)) := by ring
      _ ≤ c * (1 + e3) := mul_le_mul_of_nonneg_left hhi hc

theorem Near.mono {e e' a b : ℚ} (h : Near e a b) (hb : 0 ≤ b) (he : e ≤ e') : Near e' a b :=
  ⟨le_trans (mul_le_mul_of_nonneg_left (by linarith) hb) h.1,
   le_trans h.2 (mul_le_mul_of_nonneg_left (by linarith) hb)⟩

theorem Near.add {e a b c d : ℚ} (h1 : Near e a b) (h2 : Near e c d) : Near e (a + c) (b + d) :=
  ⟨by have := h1.1; have := h2.1; linarith, by have := h1.2; have := h2.2; linarith⟩

theorem Near.mul {e1 e2 a b c d : ℚ} (e3 : ℚ) (h1 : Near e1 a b) (h2 : Near e2 c d)
    (hb : 0 ≤ b) (hd : 0 ≤ d) (he1 : 0 ≤ e1) (he1' : e1 ≤ 1) (he2' : e2 ≤ 1)
    (hlo : 1 - e3 ≤ (1 - e1) * (1 - e2)) (hhi : (1 + e1) * (1 + e2) ≤ 1 + e3) :
    Near e3 (a * c) (b * d) := by
  have ha := h1.nonneg hb he1'
  have hc := h2.nonneg hd he2'
  constructor
  · calc b * d * (1 - e3) ≤ b * d * ((1 - e1) * (1 - e2)) :=
        mul_le_mul_of_nonneg_left hlo (mul_nonneg hb hd)
      _ = (b * (1 - e1)) * (d * (1 - e2)) := by ring
      _ ≤ a * c := mul_le_mul h1.1 h2.1 (mul_nonneg hd (by linarith)) ha
  · calc a * c ≤ (b * (1 + e1)) * (d * (1 + e2)) :=
        mul_le_mul h1.2 h2.2 hc (mul_nonneg hb (by linarith))
      _ = b * d * ((1 + e1) * (1 + e2)) := by ring
      _ ≤ b * d * (1 + e3) := mul_le_mul_of_nonneg_left hhi (mul_nonneg hb hd)

theorem Near.div {e1 e2 a b c d : ℚ} (e3 : ℚ) (h1 : Near e1 a b) (h2 : Near e2 c d)
    (hb : 0 ≤ b) (hd : 0 < d) (_he1' : e1 ≤ 1) (he2' : e2 < 1)
    (he3 : 0 ≤ e3) (he3' : e3 ≤ 1)
    (hlo : (1 - e3) * (1 + e2) ≤ 1 - e1) (hhi : 1 + e1 ≤ (1 + e3) * (1 - e2)) :
    Near e3 (a / c) (b / d) := by
  have hc : 0 < c := lt_of_lt_of_le (mul_pos hd (by linarith)) h2.1
  constructor
  · rw [le_div_iff₀ hc]
    calc b / d * (1 - e3) * c ≤ b / d * (1 - e3) * (d * (1 + e2)) :=
          mul_le_mul_of_nonneg_left h2.2 (mul_nonneg (div_nonneg hb hd.le) (by linarith))
      _ = b * ((1 - e3) * (1 + e2)) := by field_simp; ring
      _ ≤ b * (1 - e1) := mul_le_mul_of_nonneg_left hlo hb
      _ ≤ a := h1.1
  · rw [div_le_iff₀ hc]
    calc a ≤ b * (1 + e1) := h1.2
      _ ≤ b * ((1 + e3) * (1 - e2)) := mul_le_mul_of_nonneg_left hhi hb
      _ = b / d * (1 + e3) * (d * (1 - e2)) := by field_simp; ring
      _ ≤ b / d * (1 + e3) * c :=
          mul_le_mul_of_nonneg_left h2.1 (mul_nonneg (div_nonneg hb hd.le) (by linarith))

/-- From squares to the numbers themselves. -/
theorem Near.of_sq {e a b : ℚ} (h : Near e (a ^ 2) (b ^ 2)) (ha : 0 ≤ a) (hb : 0 ≤ b)
    (he : 0 ≤ e) (he' : e ≤ 1) : Near e a b := by
  constructor
  · have h1 : (b * (1 - e)) ^ 2 ≤ a ^ 2 := by
      calc (b * (1 - e)) ^ 2 = b ^ 2 * ((1 - e) * (1 - e)) := by ring
        _ ≤ b ^ 2 * (1 - e) := by
            apply mul_le_mul_of_nonneg_left _ (by positivity)
            nlinarith
        _ ≤ a ^ 2 := h.1
    exact (abs_le_of_sq_le_sq' h1 ha).2
  · have h1 : a ^ 2 ≤ (b * (1 + e)) ^ 2 := by
      calc a ^ 2 ≤ b ^ 2 * (1 + e) := h.2
        _ ≤ b ^ 2 * ((1 + e) * (1 + e)) := by
            apply mul_le_mul_of_nonneg_left _ (by positivity)
            nlinarith
        _ = (b * (1 + e)) ^ 2 := by ring
    exact (abs_le_of_sq_le_sq' h1 (mul_nonneg hb (by linarith))).2

theorem Near.abs_sub_le {e a : ℚ} (h : Near e a 1) : |a - 1| ≤ e := by
  rw [abs_le]
  have := h.1; have := h.2
  constructor <;> linarith

theorem rnd_near (n d : Nat) (hd : 0 < d) (h : 2 ^ 52 * d ≤ n ∨ d ∣ n) :
    Near U (rnd n d : ℚ) ((n : ℚ) / d) := by
  obtain ⟨h1, h2⟩ := rnd_bounds n d hd h
  have hdq : (0 : ℚ) < d := by exact_mod_cast hd
  have q1 : ((2 ^ 53 - 1 : ℚ)) * n ≤ 2 ^ 53 * ((rnd n d : ℚ) * d) := by
    have : (((2 ^ 53 - 1 : Nat) * n : Nat) : ℚ) ≤ ((2 ^ 53 * (rnd n d * d) : Nat) : ℚ) := by
      exact_mod_cast h1
    push_cast at this
    linarith
  have q2 : (2 ^ 53 : ℚ) * ((rnd n d : ℚ) * d) ≤ (2 ^ 53 + 1) * n := by
    have : ((2 ^ 53 * (rnd n d * d) : Nat) : ℚ) ≤ (((2 ^ 53 + 1) * n : Nat) : ℚ) := by
      exact_mod_cast h2
    push_cast at this
    linarith
  unfold Near U
  constructor
  · rw [div_mul_eq_mul_div, div_le_iff₀ hdq]
    have : (n : ℚ) * (1 - 1 / 2 ^ 53) = ((2 ^ 53 - 1) * n) / 2 ^ 53 := by field_simp; ring
    rw [this, div_le_iff₀ (by positivity)]
    linarith
  · rw [div_mul_eq_mul_div, le_div_iff₀ hdq]
    have : (n : ℚ) * (1 + 1 / 2 ^ 53) = ((2 ^ 53 + 1) * n) / 2 ^ 53 := by field_simp; ring
    rw [this, le_div_iff₀ (by positivity)]
    linarith

theorem rnd_zero (d : Nat) (hd : 0 < d) : rnd 0 d = 0 := by
  have h := (rnd_bounds 0 d hd (Or.inr (dvd_zero d))).2
  simp only [mul_zero] at h
  have : rnd 0 d * d = 0 := by omega
  rcases Nat.mul_eq_zero.mp this with h1 | h1
  · exact h1
  · omega

theorem pack_of_lt {s : Bool} {j : Nat} (h : j < 2 ^ 2098) : pack s j = fin s j := by
  unfold pack; rw [if_pos h]

theorem near_scale {e a b c : ℚ} (h : Near e a b) (hc : 0 < c) : Near e (a / c) (b / c) := by
  constructor
  · rw [div_mul_eq_mul_div]; exact div_le_div_of_nonneg_right h.1 hc.le
  · rw [div_mul_eq_mul_div]; exact div_le_div_of_nonneg_right h.2 hc.le

theorem U_le_one : U ≤ 1 := by unfold U; norm_num

theorem rnd_mul_le (n d : Nat) (hd : 0 < d) (h : 2 ^ 52 * d ≤ n ∨ d ∣ n) :
    rnd n d * d ≤ 2 * n := by
  have h2 := (rnd_bounds n d hd h).2
  have h3 : (2 ^ 53 + 1) * n ≤ 2 ^ 53 * (2 * n) := by
    have : (2 ^ 53 + 1) * n ≤ (2 ^ 53 * 2) * n := Nat.mul_le_mul_right _ (by norm_num)
    rw [Nat.mul_assoc] at this
    exact this
  exact Nat.le_of_mul_le_mul_left (le_trans h2 h3) (by norm_num)

theorem rnd_lt (n d e : Nat) (hd : 0 < d) (h : 2 ^ 52 * d ≤ n ∨ d ∣ n)
    (hn : n ≤ 2 ^ e * d) (he : e + 1 < 2098) : rnd n d < 2 ^ 2098 := by
  have h1 := rnd_mul_le n d hd h
  have h2 : rnd n d * d ≤ 2 ^ (e + 1) * d := by
    calc rnd n d * d ≤ 2 * n := h1
      _ ≤ 2 * (2 ^ e * d) := Nat.mul_le_mul_left _ hn
      _ = 2 ^ (e + 1) * d := by rw [pow_succ']; exact (Nat.mul_assoc _ _ _).symm
  have h3 : rnd n d ≤ 2 ^ (e + 1) := Nat.le_of_mul_le_mul_right h2 hd
  exact lt_of_le_of_lt h3 (Nat.pow_lt_pow_right (by norm_num) he)

theorem pow_pos' (a : Nat) : 0 < 2 ^ a := pow_pos (by norm_num) a

theorem mul_near (s1 s2 : Bool) (k1 k2 : Nat) (h1 : 2 ^ 52 * 2 ^ 1074 ≤ k1 * k2)
    (h2 : k1 * k2 ≤ 2 ^ 2096 * 2 ^ 1074) :
    ∃ j, (fin s1 k1 : F64) * fin s2 k2 = fin (xor s1 s2) j ∧
      Near U (val j) (val k1 * val k2) := by
  have hn := rnd_near (k1 * k2) (2 ^ 1074) (pow_pos' _) (Or.inl h1)
  refine ⟨rnd (k1 * k2) (2 ^ 1074), ?_, ?_⟩
  · rw [show (fin s1 k1 : F64) * fin s2 k2 = pack (xor s1 s2) (rnd (k1 * k2) (2 ^ 1074)) from rfl]
    exact pack_of_lt (rnd_lt _ _ 2096 (pow_pos' _) (Or.inl h1) h2 (by norm_num))
  · have := near_scale hn (show (0 : ℚ) < 2 ^ 1074 by positivity)
    simp only [val, Nat.cast_mul, Nat.cast_pow, Nat.cast_ofNat] at this ⊢
    have hS : (0 : ℚ) < 2 ^ 1074 := by positivity
    generalize (2 : ℚ) ^ 1074 = S at this hS ⊢
    have e : (k1 : ℚ) / S * (k2 / S) = (k1 : ℚ) * k2 / S / S := by
      field_simp
    rw [e]
    exact this

theorem div_near (s1 s2 : Bool) (k1 k2 : Nat) (hk2 : k2 ≠ 0) (h1 : 2 ^ 52 * k2 ≤ k1 * 2 ^ 1074)
    (h2 : k1 * 2 ^ 1074 ≤ 2 ^ 2096 * k2) :
    ∃ j, (fin s1 k1 : F64) / fin s2 k2 = fin (xor s1 s2) j ∧
      Near U (val j) (val k1 / val k2) := by
  have hk : 0 < k2 := Nat.pos_of_ne_zero hk2
  have hkq : (0 : ℚ) < k2 := by exact_mod_cast hk
  have hn := rnd_near (k1 * 2 ^ 1074) k2 hk (Or.inl h1)
  refine ⟨rnd (k1 * 2 ^ 1074) k2, ?_, ?_⟩
  · rw [show (fin s1 k1 : F64) / fin s2 k2 = if k2 = 0 then (if k1 = 0 then nan else inf (xor s1 s2))
      else pack (xor s1 s2) (rnd (k1 * 2 ^ 1074) k2) from rfl, if_neg hk2]
    exact pack_of_lt (rnd_lt _ _ 2096 hk (Or.inl h1) h2 (by norm_num))
  · have := near_scale hn (show (0 : ℚ) < 2 ^ 1074 by positivity)
    simp only [val, Nat.cast_mul, Nat.cast_pow, Nat.cast_ofNat] at this ⊢
    have hS : (0 : ℚ) < 2 ^ 1074 := by positivity
    generalize (2 : ℚ) ^ 1074 = S at this hS ⊢
    have e : (k1 : ℚ) / S / (k2 / S) = (k1 : ℚ) * S / k2 / S := by
      field_simp
      ring
    rw [e]
    exact this

theorem add_near (j1 j2 : Nat) (h0 : j1 + j2 ≠ 0) (h2 : j1 + j2 ≤ 2 ^ 2096) :
    ∃ j, (fin false j1 : F64) + fin false j2 = fin false j ∧
      Near U (val j) (val j1 + val j2) := by
  have hn := rnd_near (j1 + j2) 1 (by norm_num) (Or.inr (one_dvd _))
  refine ⟨rnd (j1 + j2) 1, ?_, ?_⟩
  · have hi : ((j1 : Int) + (j2 : Int)) ≠ 0 := by omega
    have hneg : decide ((j1 : Int) + (j2 : Int) < 0) = false := by
      rw [decide_eq_false_iff_not]; omega
    have habs : ((j1 : Int) + (j2 : Int)).natAbs = j1 + j2 := by omega
    rw [show (fin false j1 : F64) + fin false j2 =
      if ((j1 : Int) + (j2 : Int)) = 0 then fin (false && false) 0
      else pack (decide ((j1 : Int) + (j2 : Int) < 0)) (rnd ((j1 : Int) + (j2 : Int)).natAbs 1)
      from rfl, if_neg hi, hneg, habs]
    exact pack_of_lt (rnd_lt _ _ 2096 (by norm_num) (Or.inr (one_dvd _))
      (by rw [Nat.mul_one]; exact h2) (by norm_num))
  · have := near_scale hn (show (0 : ℚ) < 2 ^ 1074 by positivity)
    simp only [val, Nat.cast_add, Nat.cast_one, div_one] at this ⊢
    rw [← add_div]
    exact this

theorem le_two_rnd_mul (n d : Nat) (hd : 0 < d) (h : 2 ^ 52 * d ≤ n ∨ d ∣ n) :
    n ≤ 2 * (rnd n d * d) := by
  have h1 := (rnd_bounds n d hd h).1
  have h3 : 2 ^ 53 * n ≤ 2 ^ 53 * (2 * (rnd n d * d)) := by
    have e : (2 ^ 53 : Nat) * (2 * (rnd n d * d)) = 2 * (2 ^ 53 * (rnd n d * d)) := by ring
    rw [e]
    have : (2 ^ 53 : Nat) * n ≤ 2 * ((2 ^ 53 - 1) * n) := by
      rw [← Nat.mul_assoc]
      exact Nat.mul_le_mul_right _ (by norm_num)
    exact le_trans this (Nat.mul_le_mul_left _ h1)
  exact Nat.le_of_mul_le_mul_left h3 (by norm_num)

theorem pow2_zero (s : Bool) : pow2 (fin s 0) = fin false 0 := by
  rw [show pow2 (fin s 0) = pack false (rnd (rnd (0 * 0) 1) (2 ^ 1074)) from rfl,
    Nat.mul_zero, rnd_zero 1 (by norm_num), rnd_zero _ (pow_pos' _)]
  exact pack_of_lt (pow_pos' _)

theorem pow2_near (s : Bool) (k : Nat) (h1 : 2 ^ 564 ≤ k) (h2 : k ≤ 2 ^ 1584) :
    ∃ j, pow2 (fin s k) = fin false j ∧ Near (3 * U) (val j) (val k ^ 2) := by
  have hA := rnd_near (k * k) 1 (by norm_num) (Or.inr (one_dvd _))
  have hA2 := le_two_rnd_mul (k * k) 1 (by norm_num) (Or.inr (one_dvd _))
  have hA3 := rnd_mul_le (k * k) 1 (by norm_num) (Or.inr (one_dvd _))
  rw [Nat.mul_one] at hA2 hA3
  have hkk : 2 ^ 1128 ≤ k * k := by
    calc 2 ^ 1128 = 2 ^ 564 * 2 ^ 564 := by rw [← pow_add]
      _ ≤ k * k := Nat.mul_le_mul h1 h1
  have hkk2 : k * k ≤ 2 ^ 3168 := by
    calc k * k ≤ 2 ^ 1584 * 2 ^ 1584 := Nat.mul_le_mul h2 h2
      _ = 2 ^ 3168 := by rw [← pow_add]
  have hc : 2 ^ 52 * 2 ^ 1074 ≤ rnd (k * k) 1 := by
    have : 2 * (2 ^ 52 * 2 ^ 1074) ≤ 2 * rnd (k * k) 1 := by
      calc 2 * (2 ^ 52 * 2 ^ 1074) = 2 ^ 1127 := by rw [← pow_add, ← pow_succ']
        _ ≤ 2 ^ 1128 := Nat.pow_le_pow_right (by norm_num) (by norm_num)
        _ ≤ k * k := hkk
        _ ≤ 2 * rnd (k * k) 1 := hA2
    exact Nat.le_of_mul_le_mul_left this (by norm_num)
  have hub : rnd (k * k) 1 ≤ 2 ^ 2095 * 2 ^ 1074 := by
    calc rnd (k * k) 1 ≤ 2 * (k * k) := hA3
      _ ≤ 2 * 2 ^ 3168 := Nat.mul_le_mul_left _ hkk2
      _ = 2 ^ 2095 * 2 ^ 1074 := by rw [← pow_add, ← pow_succ']
  have hB := rnd_near (rnd (k * k) 1) (2 ^ 1074) (pow_pos' _) (Or.inl hc)
  refine ⟨rnd (rnd (k * k) 1) (2 ^ 1074), ?_, ?_⟩
  · rw [show pow2 (fin s k) = pack false (rnd (rnd (k * k) 1) (2 ^ 1074)) from rfl]
    exact pack_of_lt (rnd_lt _ _ 2095 (pow_pos' _) (Or.inl hc) hub (by norm_num))
  · have hS : (0 : ℚ) < 2 ^ 1074 := by positivity
    have h3 := near_scale hB hS
    have h4 := near_scale (near_scale hA hS) hS
    simp only [val, Nat.cast_mul, Nat.cast_pow, Nat.cast_ofNat, Nat.cast_one, div_one] at h3 h4 ⊢
    generalize (2 : ℚ) ^ 1074 = S at h3 h4 hS ⊢
    have e : ((k : ℚ) / S) ^ 2 = (k : ℚ) * k / S / S := by
      field_simp; ring
    rw [e]
    refine Near.trans (3 * U) h3 h4 (by positivity) U_pos.le U_le_one ?_ ?_
    · unfold U; norm_num
    · unfold U; norm_num

theorem proxy_near (N r p : ℚ) (q1 : r * r ≤ N) (q2 : N ≤ r * r + 2 * r)
    (q4 : 2 ^ 54 * r ≤ N) (hr : 1 ≤ r) (hp : (p = 2 * r ∧ r * r = N) ∨ p = 2 * r + 1) :
    Near U (p / 2 * (p / 2)) N := by
  have hU : 2 * r ≤ N * U := by
    unfold U
    rw [mul_one_div, le_div_iff₀ (by positivity)]
    calc 2 * r * 2 ^ 53 = 2 ^ 54 * r := by ring
      _ ≤ N := q4
  have hU0 := U_pos
  rcases hp with ⟨e1, e2⟩ | e1
  · rw [e1]
    have : 2 * r / 2 * (2 * r / 2) = N := by rw [← e2]; ring
    rw [this]
    constructor <;> nlinarith
  · rw [e1]
    have : (2 * r + 1) / 2 * ((2 * r + 1) / 2) = r * r + r + 1 / 4 := by ring
    rw [this]
    constructor
    · nlinarith
    · nlinarith

theorem near_sq_of_near (a b N : ℚ) (hn : Near U a b) (hA : Near U (b * b) N) (hb : 0 ≤ b)
    (hN : 0 ≤ N) : Near (5 * U) (a ^ 2) N := by
  have hsq := Near.mul (3 * U) hn hn hb hb U_pos.le U_le_one U_le_one
    (by unfold U; norm_num) (by unfold U; norm_num)
  have e : a ^ 2 = a * a := by ring
  rw [e]
  exact Near.trans (5 * U) hsq hA hN (by unfold U; norm_num) (by unfold U; norm_num)
    (by unfold U; norm_num) (by unfold U; norm_num)

theorem sqrt_near (k : Nat) (hk : k ≠ 0) :
    ∃ g, sqrt (fin false k) = fin false g ∧ g ≠ 0 ∧ Near (5 * U) (val g ^ 2) (val k) := by
  have hr1 : Nat.sqrt (k * 2 ^ 1074) * Nat.sqrt (k * 2 ^ 1074) ≤ k * 2 ^ 1074 := Nat.sqrt_le _
  have hr2 : k * 2 ^ 1074 < (Nat.sqrt (k * 2 ^ 1074) + 1) * (Nat.sqrt (k * 2 ^ 1074) + 1) :=
    Nat.lt_succ_sqrt _
  have hr3 : 2 ^ 537 ≤ Nat.sqrt (k * 2 ^ 1074) := by
    rw [Nat.le_sqrt]
    calc 2 ^ 537 * 2 ^ 537 = 1 * 2 ^ 1074 := by rw [← pow_add, Nat.one_mul]
      _ ≤ k * 2 ^ 1074 := Nat.mul_le_mul_right _ (Nat.pos_of_ne_zero hk)
  generalize hrd : Nat.sqrt (k * 2 ^ 1074) = r at hr1 hr2 hr3
  have hr4 : 2 ^ 54 ≤ r := le_trans (Nat.pow_le_pow_right (by norm_num) (by norm_num)) hr3
  have hsq : sqrt (fin false k) =
      fin false (rnd (2 * r + (if r * r = k * 2 ^ 1074 then 0 else 1)) 2) := by
    rw [show sqrt (fin false k) = if k = 0 then fin false 0 else if false = true then nan else
      fin false (rnd (2 * isqrt (k * 2 ^ 1074) +
        (if isqrt (k * 2 ^ 1074) * isqrt (k * 2 ^ 1074) = k * 2 ^ 1074 then 0 else 1)) 2)
      from rfl, if_neg hk, if_neg (by decide), isqrt_eq, hrd]
  generalize hp : 2 * r + (if r * r = k * 2 ^ 1074 then 0 else 1) = p at hsq
  have hp1 : 2 ^ 52 * 2 ≤ p := by
    rw [← hp]
    have : 2 ^ 52 * 2 ≤ 2 * r := by
      calc 2 ^ 52 * 2 = 2 ^ 53 := by rw [← pow_succ]
        _ ≤ 2 ^ 54 := Nat.pow_le_pow_right (by norm_num) (by norm_num)
        _ ≤ r := hr4
        _ ≤ 2 * r := Nat.le_mul_of_pos_left _ (by norm_num)
    exact le_trans this (Nat.le_add_right _ _)
  have hn := rnd_near p 2 (by norm_num) (Or.inl hp1)
  have hg0 : rnd p 2 ≠ 0 := by
    intro h0
    have := le_two_rnd_mul p 2 (by norm_num) (Or.inl hp1)
    rw [h0] at this
    have hp0 : 0 < p := lt_of_lt_of_le (by positivity) hp1
    omega
  refine ⟨rnd p 2, hsq, hg0, ?_⟩
  -- the proxy `p / 2` squares to `N` up to `U`
  have q1 : (r : ℚ) * r ≤ (k : ℚ) * 2 ^ 1074 := by
    have : ((r * r : Nat) : ℚ) ≤ ((k * 2 ^ 1074 : Nat) : ℚ) := Nat.cast_le.mpr hr1
    simpa only [Nat.cast_mul, Nat.cast_pow, Nat.cast_ofNat] using this
  have q2 : (k : ℚ) * 2 ^ 1074 ≤ (r : ℚ) * r + 2 * r := by
    have h : k * 2 ^ 1074 ≤ r * r + 2 * r := by
      have : (r + 1) * (r + 1) = r * r + 2 * r + 1 := by ring
      omega
    have : ((k * 2 ^ 1074 : Nat) : ℚ) ≤ ((r * r + 2 * r : Nat) : ℚ) := Nat.cast_le.mpr h
    simpa only [Nat.cast_mul, Nat.cast_pow, Nat.cast_ofNat, Nat.cast_add] using this
  have q3 : (2 : ℚ) ^ 54 ≤ r := by
    have : ((2 ^ 54 : Nat) : ℚ) ≤ (r : ℚ) := Nat.cast_le.mpr hr4
    simpa only [Nat.cast_pow, Nat.cast_ofNat] using this
  have hr0 : (0 : ℚ) ≤ r := Nat.cast_nonneg r
  have q4 : (2 : ℚ) ^ 54 * r ≤ (k : ℚ) * 2 ^ 1074 :=
    le_trans (mul_le_mul_of_nonneg_right q3 hr0) q1
  have hpq : ((p : ℚ) = 2 * r ∧ (r : ℚ) * r = (k : ℚ) * 2 ^ 1074) ∨ (p : ℚ) = 2 * r + 1 := by
    by_cases hc : r * r = k * 2 ^ 1074
    · left
      have hpn : p = 2 * r := by rw [← hp, if_pos hc]; rfl
      constructor
      · rw [hpn]; push_cast; ring
      · simpa only [Nat.cast_mul, Nat.cast_pow, Nat.cast_ofNat] using
          congrArg (Nat.cast : ℕ → ℚ) hc
    · right
      have hpn : p = 2 * r + 1 := by rw [← hp, if_neg hc]
      rw [hpn]; push_cast; ring
  have hS : (0 : ℚ) < 2 ^ 1074 := pow_pos (by norm_num) _
  have hkq : (0 : ℚ) ≤ k := Nat.cast_nonneg k
  have hN : (0 : ℚ) ≤ (k : ℚ) * 2 ^ 1074 := mul_nonneg hkq hS.le
  have hr1' : (1 : ℚ) ≤ r := le_trans (by norm_num) q3
  have hA := proxy_near _ _ _ q1 q2 q4 hr1' hpq
  simp only [Nat.cast_ofNat] at hn
  have hp0 : (0 : ℚ) ≤ (p : ℚ) / 2 := div_nonneg (Nat.cast_nonneg p) (by norm_num)
  have hfin := near_sq_of_near _ _ _ hn hA hp0 hN
  have h3 := near_scale (near_scale hfin hS) hS
  simp only [val]
  generalize (2 : ℚ) ^ 1074 = S at h3 hS ⊢
  have e1 : ((rnd p 2 : Nat) : ℚ) ^ 2 / S / S = ((rnd p 2 : ℚ) / S) ^ 2 := by
    field_simp; ring
  have e2 : (k : ℚ) * S / S / S = (k : ℚ) / S := by
    field_simp
  rw [e1, e2] at h3
  exact h3

theorem val_le_pow {k b c : Nat} (hc : 1074 + b = c) : val k ≤ 2 ^ b ↔ k ≤ 2 ^ c := by
  have hS : (0 : ℚ) < 2 ^ 1074 := pow_pos (by norm_num) _
  unfold val
  rw [div_le_iff₀ hS, ← pow_add, add_comm b 1074, hc]
  constructor
  · intro h
    have : (k : ℚ) ≤ ((2 ^ c : Nat) : ℚ) := by
      simpa only [Nat.cast_pow, Nat.cast_ofNat] using h
    exact Nat.cast_le.mp this
  · intro h
    have : (k : ℚ) ≤ ((2 ^ c : Nat) : ℚ) := Nat.cast_le.mpr h
    simpa only [Nat.cast_pow, Nat.cast_ofNat] using this

theorem inv_pow_le_val {k a b : Nat} (hab : a + b = 1074) : 1 / 2 ^ b ≤ val k ↔ 2 ^ a ≤ k := by
  have hS : (2 : ℚ) ^ 1074 = 2 ^ a * 2 ^ b := by rw [← pow_add, hab]
  have hA : (0 : ℚ) < 2 ^ a := pow_pos (by norm_num) _
  have hB : (0 : ℚ) < 2 ^ b := pow_pos (by norm_num) _
  unfold val
  rw [hS, div_le_div_iff₀ hB (mul_pos hA hB), one_mul, mul_le_mul_iff_of_pos_right hB]
  constructor
  · intro h
    have : ((2 ^ a : Nat) : ℚ) ≤ (k : ℚ) := by
      simpa only [Nat.cast_pow, Nat.cast_ofNat] using h
    exact Nat.cast_le.mp this
  · intro h
    have : ((2 ^ a : Nat) : ℚ) ≤ (k : ℚ) := Nat.cast_le.mpr h
    simpa only [Nat.cast_pow, Nat.cast_ofNat] using this

theorem val_le_val {a b : Nat} : val a ≤ val b ↔ a ≤ b := by
  have hS : (0 : ℚ) < 2 ^ 1074 := pow_pos (by norm_num) _
  unfold val
  rw [div_le_div_iff_of_pos_right hS]
  exact Nat.cast_le

theorem val_eq_zero {k : Nat} : val k = 0 ↔ k = 0 := by
  have hS : (0 : ℚ) < 2 ^ 1074 := pow_pos (by norm_num) _
  unfold val
  rw [div_eq_zero_iff]
  constructor
  · rintro (h | h)
    · exact_mod_cast h
    · exact absurd h hS.ne'
  · intro h; left; exact_mod_cast h

theorem val_one : val (2 ^ 1074) = 1 := by
  unfold val
  simp only [Nat.cast_pow, Nat.cast_ofNat]
  exact div_self (pow_pos (by norm_num) _).ne'

/-- `pow2` in the normal range, with the range given on the value. -/
theorem pow2_nearQ (s : Bool) (k : Nat) (h1 : 1 / 2 ^ 510 ≤ val k) (h2 : val k ≤ 2 ^ 510) :
    ∃ j, pow2 (fin s k) = fin false j ∧ Near (3 * U) (val j) (val k ^ 2) :=
  pow2_near s k ((inv_pow_le_val (a := 564) (b := 510) rfl).mp h1)
    ((val_le_pow (b := 510) (c := 1584) rfl).mp h2)

theorem add_nearQ (j1 j2 : Nat) (h0 : 0 < val j1 + val j2) (h2 : val j1 + val j2 ≤ 2 ^ 1022) :
    ∃ j, (fin false j1 : F64) + fin false j2 = fin false j ∧
      Near U (val j) (val j1 + val j2) := by
  apply add_near
  · intro h
    have h1 : j1 = 0 := by omega
    have h3 : j2 = 0 := by omega
    rw [h1, h3, val_zero] at h0
    exact absurd h0 (by norm_num)
  · have : val (j1 + j2) ≤ 2 ^ 1022 := by
      unfold val at h2 ⊢
      rw [Nat.cast_add, add_div]
      exact h2
    exact (val_le_pow (b := 1022) (c := 2096) rfl).mp this

theorem div_nearQ (s1 s2 : Bool) (k1 k2 : Nat) (hk2 : k2 ≠ 0)
    (h1 : val k2 ≤ 2 ^ 1022 * val k1) (h2 : val k1 ≤ 2 ^ 1022 * val k2) :
    ∃ j, (fin s1 k1 : F64) / fin s2 k2 = fin (xor s1 s2) j ∧
      Near U (val j) (val k1 / val k2) := by
  have hS : (0 : ℚ) < 2 ^ 1074 := pow_pos (by norm_num) _
  have conv : ∀ a b : Nat, val a ≤ 2 ^ 1022 * val b → a ≤ 2 ^ 1022 * b := by
    intro a b h
    unfold val at h
    rw [mul_div_assoc', div_le_div_iff_of_pos_right hS] at h
    have : (a : ℚ) ≤ ((2 ^ 1022 * b : Nat) : ℚ) := by
      simpa only [Nat.cast_mul, Nat.cast_pow, Nat.cast_ofNat] using h
    exact Nat.cast_le.mp this
  apply div_near s1 s2 k1 k2 hk2
  · calc 2 ^ 52 * k2 ≤ 2 ^ 52 * (2 ^ 1022 * k1) := Nat.mul_le_mul_left _ (conv _ _ h1)
      _ = k1 * 2 ^ 1074 := by
        rw [← Nat.mul_assoc, ← pow_add, Nat.mul_comm]
  · calc k1 * 2 ^ 1074 ≤ (2 ^ 1022 * k2) * 2 ^ 1074 := Nat.mul_le_mul_right _ (conv _ _ h2)
      _ = 2 ^ 2096 * k2 := by
        rw [Nat.mul_assoc, Nat.mul_comm k2, ← Nat.mul_assoc, ← pow_add]

theorem mul_nearQ (s1 s2 : Bool) (k1 k2 : Nat) (h1 : 1 / 2 ^ 1022 ≤ val k1 * val k2)
    (h2 : val k1 * val k2 ≤ 2 ^ 1022) :
    ∃ j, (fin s1 k1 : F64) * fin s2 k2 = fin (xor s1 s2) j ∧
      Near U (val j) (val k1 * val k2) := by
  have hS : (0 : ℚ) < 2 ^ 1074 := pow_pos (by norm_num) _
  have e : val k1 * val k2 = ((k1 * k2 : Nat) : ℚ) / 2 ^ 1074 / 2 ^ 1074 := by
    unfold val
    rw [Nat.cast_mul, div_mul_div_comm, div_div]
  rw [e] at h1 h2
  apply mul_near s1 s2 k1 k2
  · rw [le_div_iff₀ hS, le_div_iff₀ hS] at h1
    have key : (2 : ℚ) ^ 52 * 2 ^ 1074 = 1 / 2 ^ 1022 * 2 ^ 1074 * 2 ^ 1074 := by
      have hS2 : (2 : ℚ) ^ 1074 = 2 ^ 52 * 2 ^ 1022 := by rw [← pow_add]
      have hA : (0 : ℚ) < 2 ^ 52 := pow_pos (by norm_num) _
      have hB : (0 : ℚ) < 2 ^ 1022 := pow_pos (by norm_num) _
      rw [hS2]
      generalize (2 : ℚ) ^ 52 = A at hA ⊢
      generalize (2 : ℚ) ^ 1022 = B at hB ⊢
      field_simp
    rw [← key] at h1
    have : ((2 ^ 52 * 2 ^ 1074 : Nat) : ℚ) ≤ ((k1 * k2 : Nat) : ℚ) := by
      simpa only [Nat.cast_mul, Nat.cast_pow, Nat.cast_ofNat] using h1
    exact Nat.cast_le.mp this
  · rw [div_le_iff₀ hS, div_le_iff₀ hS] at h2
    have hS2 : (2 : ℚ) ^ 1022 * 2 ^ 1074 * 2 ^ 1074 = 2 ^ 2096 * 2 ^ 1074 := by
      rw [← pow_add]
    rw [hS2] at h2
    have : ((k1 * k2 : Nat) : ℚ) ≤ ((2 ^ 2096 * 2 ^ 1074 : Nat) : ℚ) := by
      simpa only [Nat.cast_mul, Nat.cast_pow, Nat.cast_ofNat] using h2
    exact Nat.cast_le.mp this

theorem near_zero (e : ℚ) : Near e 0 0 := by
  unfold Near; constructor <;> simp

theorem Near.pos {e a b : ℚ} (h : Near e a b) (hb : 0 < b) (he : e < 1) : 0 < a :=
  lt_of_lt_of_le (mul_pos hb (by linarith)) h.1

theorem Near.le_two {e a b : ℚ} (h : Near e a b) (hb : 0 ≤ b) (he : e ≤ 1) : a ≤ 2 * b := by
  have := h.2
  have : b * (1 + e) ≤ b * 2 := mul_le_mul_of_nonneg_left (by linarith) hb
  linarith

theorem Near.half_le {e a b : ℚ} (h : Near e a b) (hb : 0 ≤ b) (he : e ≤ 1 / 2) :
    b / 2 ≤ a := by
  have := h.1
  have : b * (1 / 2) ≤ b * (1 - e) := mul_le_mul_of_nonneg_left (by linarith) hb
  linarith

theorem U3_le : 3 * U ≤ 1 / 2 := by unfold U; norm_num

theorem pow2_zn (s : Bool) (k : Nat) (h : k = 0 ∨ (1 / 2 ^ 510 ≤ val k ∧ val k ≤ 2 ^ 510)) :
    ∃ j, pow2 (fin s k) = fin false j ∧ Near (3 * U) (val j) (val k ^ 2) ∧
      val j ≤ 2 ^ 1021 := by
  rcases h with h | ⟨h1, h2⟩
  · subst h
    refine ⟨0, pow2_zero s, ?_, ?_⟩
    · rw [val_zero]; simpa using near_zero (3 * U)
    · rw [val_zero]; positivity
  · obtain ⟨j, hj, hn⟩ := pow2_nearQ s k h1 h2
    refine ⟨j, hj, hn, ?_⟩
    have h3 : val k ^ 2 ≤ (2 ^ 510) ^ 2 := pow_le_pow_left₀ (val_nonneg k) h2 2
    have h4 := hn.le_two (by positivity) (by linarith [U3_le])
    calc val j ≤ 2 * val k ^ 2 := h4
      _ ≤ 2 * (2 ^ 510) ^ 2 := by linarith
      _ = 2 ^ 1021 := by rw [← pow_mul, ← pow_succ']

/-- Squared magnitude of a vector whose components are `0` or of moderate size. -/
theorem magSq_near (sx sy : Bool) (kx ky : Nat)
    (hx : kx = 0 ∨ (1 / 2 ^ 510 ≤ val kx ∧ val kx ≤ 2 ^ 510))
    (hy : ky = 0 ∨ (1 / 2 ^ 510 ≤ val ky ∧ val ky ≤ 2 ^ 510))
    (hne : kx ≠ 0 ∨ ky ≠ 0) :
    ∃ j, (⟨fin sx kx, fin sy ky⟩ : Vector2D).MagnitudeSquared = fin false j ∧ j ≠ 0 ∧
      Near (5 * U) (val j) (val kx ^ 2 + val ky ^ 2) := by
  obtain ⟨jx, hjx, nx, bx⟩ := pow2_zn sx kx hx
  obtain ⟨jy, hjy, ny, by'⟩ := pow2_zn sy ky hy
  have px : 0 ≤ val kx ^ 2 := sq_nonneg _
  have py : 0 ≤ val ky ^ 2 := sq_nonneg _
  have hpos : 0 < val kx ^ 2 + val ky ^ 2 := by
    rcases hne with h | h
    · have := pow_pos (val_pos h) 2; linarith
    · have := pow_pos (val_pos h) 2; linarith
  have hs : Near (3 * U) (val jx + val jy) (val kx ^ 2 + val ky ^ 2) := nx.add ny
  have h0 : 0 < val jx + val jy := hs.pos hpos (by linarith [U3_le])
  have h2 : val jx + val jy ≤ 2 ^ 1022 := by
    calc val jx + val jy ≤ 2 ^ 1021 + 2 ^ 1021 := add_le_add bx by'
      _ = 2 ^ 1022 := by rw [← two_mul, ← pow_succ']
  obtain ⟨j, hj, hn⟩ := add_nearQ jx jy h0 h2
  refine ⟨j, ?_, ?_, ?_⟩
  · show pow2 (fin sx kx) + pow2 (fin sy ky) = fin false j
    rw [hjx, hjy, hj]
  · intro hj0
    rw [hj0, val_zero] at hn
    have := hn.pos h0 (by linarith [U3_le, U_pos])
    exact lt_irrefl _ this
  · exact Near.trans (5 * U) hn hs hpos.le U_pos.le U_le_one
      (by unfold U; norm_num) (by unfold U; norm_num)

/-- Magnitude of a vector whose components are `0` or of moderate size. -/
theorem mag_near (sx sy : Bool) (kx ky : Nat)
    (hx : kx = 0 ∨ (1 / 2 ^ 510 ≤ val kx ∧ val kx ≤ 2 ^ 510))
    (hy : ky = 0 ∨ (1 / 2 ^ 510 ≤ val ky ∧ val ky ≤ 2 ^ 510))
    (hne : kx ≠ 0 ∨ ky ≠ 0) :
    ∃ g, (⟨fin sx kx, fin sy ky⟩ : Vector2D).Magnitude = fin false g ∧ g ≠ 0 ∧
      Near (11 * U) (val g ^ 2) (val kx ^ 2 + val ky ^ 2) := by
  obtain ⟨j, hj, hj0, hn⟩ := magSq_near sx sy kx ky hx hy hne
  obtain ⟨g, hg, hg0, hgn⟩ := sqrt_near j hj0
  refine ⟨g, ?_, hg0, ?_⟩
  · show sqrt (Vector2D.MagnitudeSquared _) = _
    rw [hj, hg]
  · exact Near.trans (11 * U) hgn hn (add_nonneg (sq_nonneg _) (sq_nonneg _)) (by unfold U; norm_num)
      (by unfold U; norm_num) (by unfold U; norm_num) (by unfold U; norm_num)

theorem zero_eq : (0 : F64) = fin false 0 := by decide!

theorem one_eq : (1 : F64) = fin false (2 ^ 1074) := by decide!

theorem beq_fin (s1 s2 : Bool) (k1 k2 : Nat) :
    ((fin s1 k1 : F64) == fin s2 k2) = decide (toInt s1 k1 = toInt s2 k2) := rfl

theorem div_zero_num (s1 s2 : Bool) (g : Nat) (hg : g ≠ 0) :
    (fin s1 0 : F64) / fin s2 g = fin (xor s1 s2) 0 := by
  rw [show (fin s1 0 : F64) / fin s2 g = if g = 0 then (if 0 = 0 then nan else inf (xor s1 s2))
    else pack (xor s1 s2) (rnd (0 * 2 ^ 1074) g) from rfl, if_neg hg, Nat.zero_mul,
    rnd_zero g (Nat.pos_of_ne_zero hg)]
  exact pack_of_lt (pow_pos' _)

/-- Quotient of a component that is `0` or moderate by a moderate divisor. -/
theorem div_zn (s1 s2 : Bool) (k g : Nat) (hg : g ≠ 0)
    (h : k = 0 ∨ (val g ≤ 2 ^ 1022 * val k ∧ val k ≤ 2 ^ 1022 * val g)) :
    ∃ j, (fin s1 k : F64) / fin s2 g = fin (xor s1 s2) j ∧ Near U (val j) (val k / val g) := by
  rcases h with h | ⟨h1, h2⟩
  · subst h
    refine ⟨0, div_zero_num s1 s2 g hg, ?_⟩
    rw [val_zero, zero_div]
    exact near_zero U
  · exact div_nearQ s1 s2 k g hg h1 h2

/-- Bounds on the magnitude `G` from `G² ≈ X² + Y²`. -/
theorem mag_bounds (X Y G : ℚ) (hX : 0 ≤ X) (hY : 0 ≤ Y) (hG : 0 ≤ G)
    (hn : Near (11 * U) (G ^ 2) (X ^ 2 + Y ^ 2)) :
    X ≤ 2 * G ∧ Y ≤ 2 * G ∧ G ≤ 2 * (X + Y) := by
  have hU : 11 * U ≤ 1 / 2 := by unfold U; norm_num
  have hQ : 0 ≤ X ^ 2 + Y ^ 2 := add_nonneg (sq_nonneg _) (sq_nonneg _)
  have h1 := hn.half_le hQ hU
  have h2 := hn.le_two hQ (by linarith)
  refine ⟨?_, ?_, ?_⟩
  · by_contra hc
    have : 2 * G < X := not_le.mp hc
    nlinarith [sq_nonneg Y]
  · by_contra hc
    have : 2 * G < Y := not_le.mp hc
    nlinarith [sq_nonneg X]
  · by_contra hc
    have : 2 * (X + Y) < G := not_le.mp hc
    nlinarith [mul_nonneg hX hY]

/-- The normalised components have squares summing to `1` up to `16 U`. -/
theorem unit_near (X Y G A B : ℚ) (hX : 0 ≤ X) (hY : 0 ≤ Y) (hG : 0 < G)
    (hQ : 0 < X ^ 2 + Y ^ 2)
    (hn : Near (11 * U) (G ^ 2) (X ^ 2 + Y ^ 2)) (hA : Near U A (X / G)) (hB : Near U B (Y / G)) :
    Near (16 * U) (A ^ 2 + B ^ 2) 1 := by
  have hA2 : Near (3 * U) (A * A) (X / G * (X / G)) :=
    Near.mul (3 * U) hA hA (div_nonneg hX hG.le) (div_nonneg hX hG.le) U_pos.le U_le_one U_le_one
      (by unfold U; norm_num) (by unfold U; norm_num)
  have hB2 : Near (3 * U) (B * B) (Y / G * (Y / G)) :=
    Near.mul (3 * U) hB hB (div_nonneg hY hG.le) (div_nonneg hY hG.le) U_pos.le U_le_one U_le_one
      (by unfold U; norm_num) (by unfold U; norm_num)
  have hs := hA2.add hB2
  have e : X / G * (X / G) + Y / G * (Y / G) = (X ^ 2 + Y ^ 2) / G ^ 2 := by
    field_simp; ring
  rw [e] at hs
  have hq : Near (12 * U) ((X ^ 2 + Y ^ 2) / G ^ 2) 1 := by
    have hG2 : 0 < G ^ 2 := pow_pos hG 2
    constructor
    · rw [le_div_iff₀ hG2]
      have h2 := hn.2
      have : (1 : ℚ) * (1 - 12 * U) * (1 + 11 * U) ≤ 1 := by unfold U; norm_num
      calc 1 * (1 - 12 * U) * G ^ 2 ≤ 1 * (1 - 12 * U) * ((X ^ 2 + Y ^ 2) * (1 + 11 * U)) :=
            mul_le_mul_of_nonneg_left h2 (by unfold U; norm_num)
        _ = (X ^ 2 + Y ^ 2) * (1 * (1 - 12 * U) * (1 + 11 * U)) := by ring
        _ ≤ (X ^ 2 + Y ^ 2) * 1 := mul_le_mul_of_nonneg_left this hQ.le
        _ = X ^ 2 + Y ^ 2 := mul_one _
    · rw [div_le_iff₀ hG2]
      have h1 := hn.1
      have : (1 : ℚ) ≤ 1 * (1 + 12 * U) * (1 - 11 * U) := by unfold U; norm_num
      calc X ^ 2 + Y ^ 2 = (X ^ 2 + Y ^ 2) * 1 := (mul_one _).symm
        _ ≤ (X ^ 2 + Y ^ 2) * (1 * (1 + 12 * U) * (1 - 11 * U)) :=
            mul_le_mul_of_nonneg_left this hQ.le
        _ = 1 * (1 + 12 * U) * ((X ^ 2 + Y ^ 2) * (1 - 11 * U)) := by ring
        _ ≤ 1 * (1 + 12 * U) * G ^ 2 :=
            mul_le_mul_of_nonneg_left h1 (by unfold U; norm_num)
  have e2 : A ^ 2 + B ^ 2 = A * A + B * B := by ring
  rw [e2]
  exact Near.trans (16 * U) hs hq (by norm_num) (by unfold U; norm_num) (by unfold U; norm_num)
    (by unfold U; norm_num) (by unfold U; norm_num)

theorem Moderate.val {k : Nat} (h : Moderate k) :
    k = 0 ∨ (1 / 2 ^ 100 ≤ val k ∧ val k ≤ 2 ^ 100) := by
  rcases h with h | ⟨h1, h2⟩
  · left; exact h
  · right
    exact ⟨(inv_pow_le_val (a := 974) (b := 100) rfl).mpr h1,
      (val_le_pow (b := 100) (c := 1174) rfl).mpr h2⟩

theorem inv_pow_mono {a b : Nat} (h : a ≤ b) : (1 : ℚ) / 2 ^ b ≤ 1 / 2 ^ a :=
  one_div_le_one_div_of_le (pow_pos (by norm_num) _) (pow_le_pow_right₀ (by norm_num) h)

theorem pow_mono {a b : Nat} (h : a ≤ b) : (2 : ℚ) ^ a ≤ 2 ^ b :=
  pow_le_pow_right₀ (by norm_num) h

/-- A range `[2^-a, 2^b]` sits inside the range `[2^-510, 2^510]` of `pow2_nearQ`. -/
theorem widen {k a b : Nat} (ha : a ≤ 510) (hb : b ≤ 510)
    (h : k = 0 ∨ (1 / 2 ^ a ≤ val k ∧ val k ≤ 2 ^ b)) :
    k = 0 ∨ (1 / 2 ^ 510 ≤ val k ∧ val k ≤ 2 ^ 510) := by
  rcases h with h | ⟨h1, h2⟩
  · left; exact h
  · right; exact ⟨le_trans (inv_pow_mono ha) h1, le_trans h2 (pow_mono hb)⟩

theorem big_ok (X G : ℚ) (a b : Nat) (hab : a + b ≤ 1022) (hX : 1 / 2 ^ a ≤ X) (hG : G ≤ 2 ^ b) :
    G ≤ 2 ^ 1022 * X := by
  have h1 : (2 : ℚ) ^ b * 2 ^ a ≤ 2 ^ 1022 := by
    rw [← pow_add, add_comm]; exact pow_mono hab
  have hA : (0 : ℚ) < 2 ^ a := pow_pos (by norm_num) _
  calc G ≤ 2 ^ b := hG
    _ = 2 ^ b * 2 ^ a * (1 / 2 ^ a) := by field_simp
    _ ≤ 2 ^ 1022 * (1 / 2 ^ a) := mul_le_mul_of_nonneg_right h1 (by positivity)
    _ ≤ 2 ^ 1022 * X := mul_le_mul_of_nonneg_left hX (by positivity)

theorem near_self (e a : ℚ) (ha : 0 ≤ a) (he : 0 ≤ e) : Near e a a :=
  ⟨by nlinarith, by nlinarith⟩

/-- Range of a quotient `A ≈ X / G`. -/
theorem quot_bounds (X G A : ℚ) (hX : 1 / 2 ^ 100 ≤ X) (hG0 : 0 < G) (hG : G ≤ 2 ^ 102)
    (hXG : X ≤ 2 * G) (hA : Near U A (X / G)) : 1 / 2 ^ 203 ≤ A ∧ A ≤ 4 := by
  have hX0 : 0 < X := lt_of_lt_of_le (by positivity) hX
  have hq0 : 0 ≤ X / G := (div_pos hX0 hG0).le
  have h1 := hA.half_le hq0 (by unfold U; norm_num)
  have h2 := hA.le_two hq0 U_le_one
  have h3 : X / G ≤ 2 := by rw [div_le_iff₀ hG0]; exact hXG
  have h4 : 1 / 2 ^ 202 ≤ X / G := by
    rw [le_div_iff₀ hG0]
    calc 1 / 2 ^ 202 * G ≤ 1 / 2 ^ 202 * 2 ^ 102 := mul_le_mul_of_nonneg_left hG (by positivity)
      _ = 1 / 2 ^ 100 := by norm_num
      _ ≤ X := hX
  constructor
  · calc (1 : ℚ) / 2 ^ 203 = 1 / 2 ^ 202 / 2 := by norm_num
      _ ≤ X / G / 2 := by linarith
      _ ≤ A := h1
  · linarith

theorem copy_self (v : Vector2D) : v.Copy = v := rfl

/-- `Normalize` of a vector with moderate components, not both `0`: the squares of the
resulting components sum to `1` up to `16 U`. -/
theorem normalize_near (sx sy : Bool) (kx ky : Nat) (hx : Moderate kx) (hy : Moderate ky)
    (hne : kx ≠ 0 ∨ ky ≠ 0) :
    ∃ sa sb ka kb, (⟨fin sx kx, fin sy ky⟩ : Vector2D).Normalize = ⟨fin sa ka, fin sb kb⟩ ∧
      (ka = 0 ∨ (1 / 2 ^ 203 ≤ val ka ∧ val ka ≤ 2 ^ 2)) ∧
      (kb = 0 ∨ (1 / 2 ^ 203 ≤ val kb ∧ val kb ≤ 2 ^ 2)) ∧
      (ka ≠ 0 ∨ kb ≠ 0) ∧
      Near (16 * U) (val ka ^ 2 + val kb ^ 2) 1 := by
  have hxv := hx.val
  have hyv := hy.val
  obtain ⟨g, hg, hg0, hn⟩ := mag_near sx sy kx ky (widen (by norm_num) (by norm_num) hxv)
    (widen (by norm_num) (by norm_num) hyv) hne
  have hX0 := val_nonneg kx
  have hY0 := val_nonneg ky
  have hG0 : 0 < val g := val_pos hg0
  obtain ⟨b1, b2, b3⟩ := mag_bounds (val kx) (val ky) (val g) hX0 hY0 hG0.le hn
  have hXle : val kx ≤ 2 ^ 100 := by
    rcases hxv with h | h
    · rw [h, val_zero]; positivity
    · exact h.2
  have hYle : val ky ≤ 2 ^ 100 := by
    rcases hyv with h | h
    · rw [h, val_zero]; positivity
    · exact h.2
  have hG102 : val g ≤ 2 ^ 102 := by
    calc val g ≤ 2 * (val kx + val ky) := b3
      _ ≤ 2 * (2 ^ 100 + 2 ^ 100) := by linarith
      _ = 2 ^ 102 := by norm_num
  have hQ : 0 < val kx ^ 2 + val ky ^ 2 := by
    rcases hne with h | h
    · have := pow_pos (val_pos h) 2; have := sq_nonneg (val ky); linarith
    · have := pow_pos (val_pos h) 2; have := sq_nonneg (val kx); linarith
  -- the guard
  have hz : ((fin false g : F64) == 0) = false := by
    rw [zero_eq, beq_fin]
    simp only [toInt, Bool.false_eq_true, if_false, decide_eq_false_iff_not]
    exact_mod_cast hg0
  have hunf : (⟨fin sx kx, fin sy ky⟩ : Vector2D).Normalize =
      if ((fin false g : F64) == 0 || (fin false g : F64) == 1) = true
      then (⟨fin sx kx, fin sy ky⟩ : Vector2D).Copy
      else (⟨fin sx kx, fin sy ky⟩ : Vector2D).DivideScalar (fin false g) := by
    unfold Vector2D.Normalize
    simp only [hg]
  rw [hunf, hz, Bool.false_or]
  by_cases h1 : ((fin false g : F64) == 1) = true
  · -- magnitude exactly 1: the copy
    rw [if_pos h1, copy_self]
    have hg1 : g = 2 ^ 1074 := by
      rw [one_eq, beq_fin] at h1
      simp only [toInt, Bool.false_eq_true, if_false, decide_eq_true_eq] at h1
      exact_mod_cast h1
    have hG1 : val g = 1 := by rw [hg1]; exact val_one
    rw [hG1] at b1 b2 hn hG0
    have hA : Near U (val kx) (val kx / 1) := by rw [div_one]; exact near_self _ _ hX0 U_pos.le
    have hB : Near U (val ky) (val ky / 1) := by rw [div_one]; exact near_self _ _ hY0 U_pos.le
    refine ⟨sx, sy, kx, ky, rfl, ?_, ?_, hne, unit_near _ _ 1 _ _ hX0 hY0 one_pos hQ hn hA hB⟩
    · rcases hxv with h | h
      · left; exact h
      · right; exact ⟨le_trans (inv_pow_mono (by norm_num)) h.1, by linarith⟩
    · rcases hyv with h | h
      · left; exact h
      · right; exact ⟨le_trans (inv_pow_mono (by norm_num)) h.1, by linarith⟩
  · rw [if_neg h1]
    have cx : kx = 0 ∨ (val g ≤ 2 ^ 1022 * val kx ∧ val kx ≤ 2 ^ 1022 * val g) := by
      rcases hxv with h | h
      · left; exact h
      · right
        refine ⟨big_ok _ _ 100 102 (by norm_num) h.1 hG102, ?_⟩
        calc val kx ≤ 2 * val g := b1
          _ ≤ 2 ^ 1022 * val g :=
            mul_le_mul_of_nonneg_right (by
              calc (2 : ℚ) = 2 ^ 1 := (pow_one 2).symm
                _ ≤ 2 ^ 1022 := pow_mono (by norm_num)) hG0.le
    have cy : ky = 0 ∨ (val g ≤ 2 ^ 1022 * val ky ∧ val ky ≤ 2 ^ 1022 * val g) := by
      rcases hyv with h | h
      · left; exact h
      · right
        refine ⟨big_ok _ _ 100 102 (by norm_num) h.1 hG102, ?_⟩
        calc val ky ≤ 2 * val g := b2
          _ ≤ 2 ^ 1022 * val g :=
            mul_le_mul_of_nonneg_right (by
              calc (2 : ℚ) = 2 ^ 1 := (pow_one 2).symm
                _ ≤ 2 ^ 1022 := pow_mono (by norm_num)) hG0.le
    obtain ⟨ka, hka, na⟩ := div_zn sx false kx g hg0 cx
    obtain ⟨kb, hkb, nb⟩ := div_zn sy false ky g hg0 cy
    have comp : ∀ k j : Nat, (k = 0 ∨ (1 / 2 ^ 100 ≤ val k ∧ val k ≤ 2 ^ 100)) →
        val k ≤ 2 * val g → Near U (val j) (val k / val g) →
        (j = 0 ∨ (1 / 2 ^ 203 ≤ val j ∧ val j ≤ 2 ^ 2)) ∧ (k ≠ 0 → j ≠ 0) := by
      intro k j hk hkg hj
      rcases hk with h | h
      · subst h
        rw [val_zero, zero_div] at hj
        have : val j = 0 := le_antisymm (by simpa using hj.2) (val_nonneg j)
        exact ⟨Or.inl (val_eq_zero.mp this), fun h => absurd rfl h⟩
      · have := quot_bounds _ _ _ h.1 hG0 hG102 hkg hj
        refine ⟨Or.inr ⟨this.1, by norm_num; exact this.2⟩, fun _ h0 => ?_⟩
        rw [h0, val_zero] at this
        exact absurd this.1 (by norm_num)
    obtain ⟨ra, za⟩ := comp kx ka hxv b1 na
    obtain ⟨rb, zb⟩ := comp ky kb hyv b2 nb
    refine ⟨xor sx false, xor sy false, ka, kb, ?_, ra, rb, ?_,
      unit_near _ _ _ _ _ hX0 hY0 hG0 hQ hn na nb⟩
    · show (⟨fin sx kx / fin false g, fin sy ky / fin false g⟩ : Vector2D) = _
      rw [hka, hkb]
    · rcases hne with h | h
      · left; exact za h
      · right; exact zb h

theorem mul_zero_mag (s1 s2 : Bool) (k1 k2 : Nat) (h : k1 = 0 ∨ k2 = 0) :
    (fin s1 k1 : F64) * fin s2 k2 = fin (xor s1 s2) 0 := by
  have : k1 * k2 = 0 := by
    rcases h with h | h
    · rw [h, Nat.zero_mul]
    · rw [h, Nat.mul_zero]
  rw [show (fin s1 k1 : F64) * fin s2 k2 = pack (xor s1 s2) (rnd (k1 * k2) (2 ^ 1074)) from rfl,
    this, rnd_zero _ (pow_pos' _)]
  exact pack_of_lt (pow_pos' _)

theorem mul_zn (s1 s2 : Bool) (k1 k2 : Nat)
    (h : (k1 = 0 ∨ k2 = 0) ∨ (1 / 2 ^ 1022 ≤ val k1 * val k2 ∧ val k1 * val k2 ≤ 2 ^ 1022)) :
    ∃ j, (fin s1 k1 : F64) * fin s2 k2 = fin (xor s1 s2) j ∧
      Near U (val j) (val k1 * val k2) := by
  rcases h with h | ⟨h1, h2⟩
  · refine ⟨0, mul_zero_mag s1 s2 k1 k2 h, ?_⟩
    have : val k1 * val k2 = 0 := by
      rcases h with h | h
      · rw [h, val_zero, zero_mul]
      · rw [h, val_zero, mul_zero]
    rw [this, val_zero]
    exact near_zero U
  · exact mul_nearQ s1 s2 k1 k2 h1 h2

theorem Near.abs_sub_le_mul {e a b : ℚ} (h : Near e a b) : |a - b| ≤ e * b := by
  rw [abs_le]
  have := h.1; have := h.2
  constructor <;> linarith

/-- The magnitude of the normalised vector is `1` up to `28 U`. -/
theorem normalize_mag_near (sx sy : Bool) (kx ky : Nat) (hx : Moderate kx) (hy : Moderate ky)
    (hne : kx ≠ 0 ∨ ky ≠ 0) :
    ∃ r, (⟨fin sx kx, fin sy ky⟩ : Vector2D).Normalize.Magnitude = fin false r ∧
      Near (28 * U) (val r) 1 := by
  obtain ⟨sa, sb, ka, kb, hN, ra, rb, hab, hu⟩ := normalize_near sx sy kx ky hx hy hne
  obtain ⟨r, hr, _, hn⟩ := mag_near sa sb ka kb (widen (by norm_num) (by norm_num) ra)
    (widen (by norm_num) (by norm_num) rb) hab
  refine ⟨r, by rw [hN, hr], ?_⟩
  have h1 : Near (28 * U) (val r ^ 2) (1 ^ 2) := by
    rw [one_pow]
    exact Near.trans (28 * U) hn hu zero_le_one (by unfold U; norm_num) (by unfold U; norm_num)
      (by unfold U; norm_num) (by unfold U; norm_num)
  exact h1.of_sq (val_nonneg r) zero_le_one (by unfold U; norm_num) (by unfold U; norm_num)

/-- Scaling the unit-length pair `(A, B)` by `M`, with rounded products `Cx`, `Cy`. -/
theorem scaled_near (A B M Cx Cy : ℚ) (hA : 0 ≤ A) (hB : 0 ≤ B) (hM : 0 ≤ M)
    (hu : Near (16 * U) (A ^ 2 + B ^ 2) 1) (hx : Near U Cx (A * M)) (hy : Near U Cy (B * M)) :
    Near (20 * U) (Cx ^ 2 + Cy ^ 2) (M ^ 2) := by
  have hx2 : Near (3 * U) (Cx * Cx) (A * M * (A * M)) :=
    Near.mul (3 * U) hx hx (mul_nonneg hA hM) (mul_nonneg hA hM) U_pos.le U_le_one U_le_one
      (by unfold U; norm_num) (by unfold U; norm_num)
  have hy2 : Near (3 * U) (Cy * Cy) (B * M * (B * M)) :=
    Near.mul (3 * U) hy hy (mul_nonneg hB hM) (mul_nonneg hB hM) U_pos.le U_le_one U_le_one
      (by unfold U; norm_num) (by unfold U; norm_num)
  have hs := hx2.add hy2
  have hm : Near (16 * U) ((A ^ 2 + B ^ 2) * (M ^ 2)) (1 * M ^ 2) :=
    Near.mul (16 * U) hu (near_self 0 (M ^ 2) (sq_nonneg _) le_rfl) zero_le_one (sq_nonneg _)
      (by unfold U; norm_num) (by unfold U; norm_num) (by norm_num)
      (by unfold U; norm_num) (by unfold U; norm_num)
  have e1 : A * M * (A * M) + B * M * (B * M) = (A ^ 2 + B ^ 2) * M ^ 2 := by ring
  have e2 : Cx ^ 2 + Cy ^ 2 = Cx * Cx + Cy * Cy := by ring
  rw [e1] at hs
  rw [one_mul] at hm
  rw [e2]
  exact Near.trans (20 * U) hs hm (sq_nonneg _) (by unfold U; norm_num) (by unfold U; norm_num)
    (by unfold U; norm_num) (by unfold U; norm_num)

theorem le_fin (k1 k2 : Nat) : ((fin false k1 : F64) ≤ fin false k2) ↔ k1 ≤ k2 := by
  show le (fin false k1) (fin false k2) = true ↔ _
  simp only [le, toInt, Bool.false_eq_true, if_false, decide_eq_true_eq, Nat.cast_le]

/-- Squared magnitude and magnitude of a vector whose components are `0` or of moderate
size, the zero vector included. -/
theorem mag_all (sx sy : Bool) (kx ky : Nat)
    (hx : kx = 0 ∨ (1 / 2 ^ 510 ≤ val kx ∧ val kx ≤ 2 ^ 510))
    (hy : ky = 0 ∨ (1 / 2 ^ 510 ≤ val ky ∧ val ky ≤ 2 ^ 510)) :
    ∃ j g, (⟨fin sx kx, fin sy ky⟩ : Vector2D).MagnitudeSquared = fin false j ∧
      (⟨fin sx kx, fin sy ky⟩ : Vector2D).Magnitude = fin false g ∧
      Near (5 * U) (val j) (val kx ^ 2 + val ky ^ 2) ∧ Near (5 * U) (val g ^ 2) (val j) ∧
      (j = 0 ↔ (kx = 0 ∧ ky = 0)) := by
  by_cases h0 : kx = 0 ∧ ky = 0
  · obtain ⟨hx0, hy0⟩ := h0
    subst hx0; subst hy0
    have e1 : (⟨fin sx 0, fin sy 0⟩ : Vector2D).MagnitudeSquared = fin false 0 := by
      show pow2 (fin sx 0) + pow2 (fin sy 0) = fin false 0
      rw [pow2_zero, pow2_zero]; rfl
    have e2 : (⟨fin sx 0, fin sy 0⟩ : Vector2D).Magnitude = fin false 0 := by
      show sqrt (Vector2D.MagnitudeSquared _) = _
      rw [e1]; rfl
    refine ⟨0, 0, e1, e2, ?_, ?_, ?_⟩
    · rw [val_zero]; simpa using near_zero (5 * U)
    · rw [val_zero]; simpa using near_zero (5 * U)
    · simp
  · have hne : kx ≠ 0 ∨ ky ≠ 0 := by
      by_contra hc
      push_neg at hc
      exact h0 hc
    obtain ⟨j, hj, hj0, hn⟩ := magSq_near sx sy kx ky hx hy hne
    obtain ⟨g, hg, _, hgn⟩ := sqrt_near j hj0
    refine ⟨j, g, hj, ?_, hn, hgn, ?_⟩
    · show sqrt (Vector2D.MagnitudeSquared _) = _
      rw [hj, hg]
    · constructor
      · intro h; exact absurd h hj0
      · intro h; exact absurd h h0

/-- Range of a rounded product `C ≈ A * M`. -/
theorem prod_bounds (A M C : ℚ) (hA1 : 1 / 2 ^ 203 ≤ A) (hA2 : A ≤ 2 ^ 2)
    (hM1 : 1 / 2 ^ 100 ≤ M) (hM2 : M ≤ 2 ^ 100) (hC : Near U C (A * M)) :
    (1 / 2 ^ 303 ≤ A * M ∧ A * M ≤ 2 ^ 102) ∧ (1 / 2 ^ 304 ≤ C ∧ C ≤ 2 ^ 103) := by
  have hA0 : 0 < A := lt_of_lt_of_le (by positivity) hA1
  have hM0 : 0 < M := lt_of_lt_of_le (by positivity) hM1
  have h1 : 1 / 2 ^ 303 ≤ A * M := by
    calc (1 : ℚ) / 2 ^ 303 = 1 / 2 ^ 203 * (1 / 2 ^ 100) := by norm_num
      _ ≤ A * M := mul_le_mul hA1 hM1 (by positivity) hA0.le
  have h2 : A * M ≤ 2 ^ 102 := by
    calc A * M ≤ 2 ^ 2 * 2 ^ 100 := mul_le_mul hA2 hM2 hM0.le (by positivity)
      _ = 2 ^ 102 := by norm_num
  have h3 := hC.half_le (mul_pos hA0 hM0).le (by unfold U; norm_num)
  have h4 := hC.le_two (mul_pos hA0 hM0).le U_le_one
  refine ⟨⟨h1, h2⟩, ?_, ?_⟩
  · calc (1 : ℚ) / 2 ^ 304 = 1 / 2 ^ 303 / 2 := by norm_num
      _ ≤ A * M / 2 := by linarith
      _ ≤ C := h3
  · calc C ≤ 2 * (A * M) := h4
      _ ≤ 2 * 2 ^ 102 := by linarith
      _ = 2 ^ 103 := by norm_num

/-- The scaled component `a * max` of `Limit`. -/
theorem scale_comp (sa sm : Bool) (ka km : Nat)
    (ha : ka = 0 ∨ (1 / 2 ^ 203 ≤ val ka ∧ val ka ≤ 2 ^ 2))
    (hm : km = 0 ∨ (1 / 2 ^ 100 ≤ val km ∧ val km ≤ 2 ^ 100)) :
    ∃ kc, (fin sa ka : F64) * fin sm km = fin (xor sa sm) kc ∧
      Near U (val kc) (val ka * val km) ∧
      (kc = 0 ∨ (1 / 2 ^ 510 ≤ val kc ∧ val kc ≤ 2 ^ 510)) := by
  by_cases h0 : ka = 0 ∨ km = 0
  · obtain ⟨kc, hkc, hn⟩ := mul_zn sa sm ka km (Or.inl h0)
    refine ⟨kc, hkc, hn, Or.inl ?_⟩
    have : val ka * val km = 0 := by
      rcases h0 with h | h
      · rw [h, val_zero, zero_mul]
      · rw [h, val_zero, mul_zero]
    rw [this] at hn
    have : val kc = 0 := le_antisymm (by simpa using hn.2) (val_nonneg kc)
    exact val_eq_zero.mp this
  · push_neg at h0
    have ha' := ha.resolve_left h0.1
    have hm' := hm.resolve_left h0.2
    have hr : 1 / 2 ^ 1022 ≤ val ka * val km ∧ val ka * val km ≤ 2 ^ 1022 := by
      have hA0 : 0 < val ka := val_pos h0.1
      have hM0 : 0 < val km := val_pos h0.2
      constructor
      · calc (1 : ℚ) / 2 ^ 1022 ≤ 1 / 2 ^ 303 := inv_pow_mono (by norm_num)
          _ = 1 / 2 ^ 203 * (1 / 2 ^ 100) := by norm_num
          _ ≤ val ka * val km := mul_le_mul ha'.1 hm'.1 (by positivity) hA0.le
      · calc val ka * val km ≤ 2 ^ 2 * 2 ^ 100 := mul_le_mul ha'.2 hm'.2 hM0.le (by positivity)
          _ = 2 ^ 102 := by norm_num
          _ ≤ 2 ^ 1022 := pow_mono (by norm_num)
    obtain ⟨kc, hkc, hn⟩ := mul_zn sa sm ka km (Or.inr hr)
    have hb := (prod_bounds _ _ _ ha'.1 ha'.2 hm'.1 hm'.2 hn).2
    exact ⟨kc, hkc, hn, Or.inr ⟨le_trans (inv_pow_mono (by norm_num)) hb.1,
      le_trans hb.2 (pow_mono (by norm_num))⟩⟩

/-- The two branches of `Limit` on moderate inputs. -/
theorem limit_near (sx sy sm : Bool) (kx ky km : Nat) (hx : Moderate kx) (hy : Moderate ky)
    (hm : Moderate km) :
    ∃ j g jm, (⟨fin sx kx, fin sy ky⟩ : Vector2D).MagnitudeSquared = fin false j ∧
      (⟨fin sx kx, fin sy ky⟩ : Vector2D).Magnitude = fin false g ∧
      pow2 (fin sm km) = fin false jm ∧
      Near (5 * U) (val g ^ 2) (val j) ∧ Near (3 * U) (val jm) (val km ^ 2) ∧
      ((j ≤ jm ∧ (⟨fin sx kx, fin sy ky⟩ : Vector2D).Limit (fin sm km) = ⟨fin sx kx, fin sy ky⟩) ∨
       (jm < j ∧ ∃ jl r,
          ((⟨fin sx kx, fin sy ky⟩ : Vector2D).Limit (fin sm km)).MagnitudeSquared = fin false jl ∧
          ((⟨fin sx kx, fin sy ky⟩ : Vector2D).Limit (fin sm km)).Magnitude = fin false r ∧
          Near (26 * U) (val jl) (val km ^ 2) ∧ Near (32 * U) (val r ^ 2) (val km ^ 2))) := by
  have hxv := hx.val
  have hyv := hy.val
  have hmv := hm.val
  obtain ⟨j, g, hj, hg, _, hgn, hj0⟩ := mag_all sx sy kx ky (widen (by norm_num) (by norm_num) hxv)
    (widen (by norm_num) (by norm_num) hyv)
  obtain ⟨jm, hjm, njm, _⟩ := pow2_zn sm km (widen (by norm_num) (by norm_num) hmv)
  refine ⟨j, g, jm, hj, hg, hjm, hgn, njm, ?_⟩
  have hunf : (⟨fin sx kx, fin sy ky⟩ : Vector2D).Limit (fin sm km) =
      if (fin false j : F64) ≤ fin false jm then (⟨fin sx kx, fin sy ky⟩ : Vector2D).Copy
      else (⟨fin sx kx, fin sy ky⟩ : Vector2D).Normalize.MultiplyScalar (fin sm km) := by
    unfold Vector2D.Limit
    simp only [hj, hjm]
  by_cases hle : j ≤ jm
  · left
    refine ⟨hle, ?_⟩
    rw [hunf, if_pos ((le_fin j jm).mpr hle), copy_self]
  · right
    have hlt : jm < j := not_le.mp hle
    refine ⟨hlt, ?_⟩
    have hjne : j ≠ 0 := by omega
    have hne : kx ≠ 0 ∨ ky ≠ 0 := by
      by_contra hc
      push_neg at hc
      exact hjne (hj0.mpr hc)
    obtain ⟨sa, sb, ka, kb, hN, ra, rb, _, hu⟩ := normalize_near sx sy kx ky hx hy hne
    obtain ⟨kcx, hcx, ncx, rcx⟩ := scale_comp sa sm ka km ra hmv
    obtain ⟨kcy, hcy, ncy, rcy⟩ := scale_comp sb sm kb km rb hmv
    have hL : (⟨fin sx kx, fin sy ky⟩ : Vector2D).Limit (fin sm km) =
        ⟨fin (xor sa sm) kcx, fin (xor sb sm) kcy⟩ := by
      rw [hunf, if_neg (fun h => hle ((le_fin j jm).mp h)), hN]
      show (⟨fin sa ka * fin sm km, fin sb kb * fin sm km⟩ : Vector2D) = _
      rw [hcx, hcy]
    obtain ⟨jl, r, hjl, hr, njl, nr, _⟩ := mag_all (xor sa sm) (xor sb sm) kcx kcy rcx rcy
    have hs := scaled_near (val ka) (val kb) (val km) (val kcx) (val kcy) (val_nonneg _)
      (val_nonneg _) (val_nonneg _) hu ncx ncy
    have h1 : Near (26 * U) (val jl) (val km ^ 2) :=
      Near.trans (26 * U) njl hs (sq_nonneg _) (by unfold U; norm_num) (by unfold U; norm_num)
        (by unfold U; norm_num) (by unfold U; norm_num)
    have h2 : Near (32 * U) (val r ^ 2) (val km ^ 2) :=
      Near.trans (32 * U) nr h1 (sq_nonneg _) (by unfold U; norm_num) (by unfold U; norm_num)
        (by unfold U; norm_num) (by unfold U; norm_num)
    exact ⟨jl, r, by rw [hL, hjl], by rw [hL, hr], h1, h2⟩

theorem toRat_sq (s : Bool) (k : Nat) : (toRat (fin s k)) ^ 2 = val k ^ 2 := by
  show (if s then -val k else val k) ^ 2 = val k ^ 2
  cases s <;> simp

theorem mag_zero_of_zero (sx sy : Bool) :
    (⟨fin sx 0, fin sy 0⟩ : Vector2D).Magnitude = fin false 0 := by
  obtain ⟨j, g, _, hg, _, hgn, hj0⟩ := mag_all sx sy 0 0 (Or.inl rfl) (Or.inl rfl)
  have hj : j = 0 := hj0.mpr ⟨rfl, rfl⟩
  rw [hj, val_zero] at hgn
  have h1 : val g ^ 2 = 0 := le_antisymm (by simpa using hgn.2) (sq_nonneg _)
  have h2 : val g = 0 := pow_eq_zero_iff (two_ne_zero) |>.mp h1
  rw [hg, val_eq_zero.mp h2]

theorem U28 : 28 * U ≤ 1 / 2 ^ 48 := by unfold U; norm_num

theorem U32 : 32 * U = 1 / 2 ^ 48 := by unfold U; norm_num

theorem toRat_of_nonneg (sm : Bool) (km : Nat) (h0 : (0 : F64) ≤ fin sm km) :
    toRat (fin sm km) = val km ∧ toInt sm km = (km : Int) := by
  rw [zero_eq] at h0
  have h1 : toInt false 0 ≤ toInt sm km := by
    have : le (fin false 0) (fin sm km) = true := h0
    simpa [le] using this
  cases sm with
  | false => exact ⟨rfl, rfl⟩
  | true =>
    have h2 : km = 0 := by
      simp [toInt] at h1
      exact h1
    subst h2
    constructor
    · show (if true then -val 0 else val 0) = val 0
      simp [val_zero]
    · simp [toInt]

/-- Pure arithmetic of the copy branch: a magnitude above `M` whose square is within
rounding of a square not exceeding `M^2` is within `32 U` of `M`. -/
theorem copy_bound (G J Jm M : ℚ) (hM : 0 ≤ M)
    (h1 : G ^ 2 ≤ J * (1 + 5 * U)) (h2 : J ≤ Jm) (h3 : Jm ≤ M ^ 2 * (1 + 3 * U))
    (h4 : M < G) : |G - M| ≤ M / 2 ^ 48 := by
  have hU : U = 1 / 2 ^ 53 := rfl
  have h5 : G ^ 2 ≤ (M * (1 + 1 / 2 ^ 48)) ^ 2 := by
    have hM2 : 0 ≤ M ^ 2 := sq_nonneg M
    have a1 : J * (1 + 5 * U) ≤ M ^ 2 * (1 + 3 * U) * (1 + 5 * U) := by
      apply mul_le_mul_of_nonneg_right (le_trans h2 h3)
      rw [hU]; norm_num
    have a2 : M ^ 2 * (1 + 3 * U) * (1 + 5 * U) ≤ (M * (1 + 1 / 2 ^ 48)) ^ 2 := by
      rw [hU]
      have : (M * (1 + 1 / 2 ^ 48)) ^ 2 - M ^ 2 * (1 + 3 * (1 / 2 ^ 53)) * (1 + 5 * (1 / 2 ^ 53))
          = M ^ 2 * ((1 + 1 / 2 ^ 48) ^ 2 - (1 + 3 * (1 / 2 ^ 53)) * (1 + 5 * (1 / 2 ^ 53))) := by
        ring
      have h0 : (0 : ℚ) ≤ (1 + 1 / 2 ^ 48) ^ 2 - (1 + 3 * (1 / 2 ^ 53)) * (1 + 5 * (1 / 2 ^ 53)) := by
        norm_num
      have := mul_nonneg hM2 h0
      linarith
    linarith
  have h6 : G ≤ M * (1 + 1 / 2 ^ 48) := by
    have hb : 0 ≤ M * (1 + 1 / 2 ^ 48) := mul_nonneg hM (by norm_num)
    exact abs_le_of_sq_le_sq' h5 hb |>.2
  rw [abs_le]
  constructor <;> [skip; skip]
  · have : 0 ≤ M / 2 ^ 48 := div_nonneg hM (by norm_num)
    linarith
  · have : M * (1 + 1 / 2 ^ 48) = M + M / 2 ^ 48 := by ring
    linarith

theorem rnd_eq_core (n d : Nat) :
    rnd n d = rndCore n (d * 2 ^ (blog (n / d) + 1 - 53)) * 2 ^ (blog (n / d) + 1 - 53) := by
  unfold rnd rndCore
  rfl

theorem rndCore_mul (k D d : Nat) (hd : 0 < d) : rndCore (k * d) (D * d) = rndCore k D := by
  unfold rndCore
  rw [Nat.mul_div_mul_right k D hd, Nat.mul_mod_mul_right]
  have e1 : (2 * (k % D * d) < D * d) ↔ 2 * (k % D) < D := by
    rw [← Nat.mul_assoc]; exact Nat.mul_lt_mul_right hd
  have e2 : (D * d < 2 * (k % D * d)) ↔ D < 2 * (k % D) := by
    rw [← Nat.mul_assoc]; exact Nat.mul_lt_mul_right hd
  simp only [e1, e2]

/-- Rounding a multiple of the divisor is rounding the quotient. -/
theorem rnd_mul_right (k d : Nat) (hd : 0 < d) : rnd (k * d) d = rnd k 1 := by
  rw [rnd_eq_core, rnd_eq_core, Nat.mul_div_cancel k hd, Nat.div_one, one_mul,
    mul_comm d (2 ^ _), rndCore_mul _ _ _ hd]

theorem blog_unique (m l : Nat) (h1 : 2 ^ l ≤ m) (h2 : m < 2 ^ (l + 1)) : blog m = l := by
  have hm : m ≠ 0 := by
    intro h0; rw [h0] at h1
    exact absurd h1 (not_le.mpr (pow_pos (by norm_num) _))
  have a1 := pow_blog_le hm
  have a2 := lt_pow_blog m
  have b1 : l < blog m + 1 := (Nat.pow_lt_pow_iff_right (by norm_num : 1 < 2)).mp
    (lt_of_le_of_lt h1 a2)
  have b2 : blog m < l + 1 := (Nat.pow_lt_pow_iff_right (by norm_num : 1 < 2)).mp
    (lt_of_le_of_lt a1 h2)
  omega

theorem rndCore_dvd (n D : Nat) (hD : 0 < D) (h : D ∣ n) : rndCore n D = n / D := by
  unfold rndCore
  rw [Nat.mod_eq_zero_of_dvd h]
  simp [hD]

/-- A number with at most 53 significant bits is its own rounding. -/
theorem rnd_of_rep (c t : Nat) (hc : c ≤ 2 ^ 53) : rnd (c * 2 ^ t) 1 = c * 2 ^ t := by
  by_cases h0 : c = 0
  · subst h0; rw [Nat.zero_mul]; exact rnd_zero 1 (by norm_num)
  have hpos : 0 < 2 ^ t := pow_pos (by norm_num) t
  have hne : c * 2 ^ t ≠ 0 := Nat.mul_ne_zero h0 (Nat.ne_of_gt hpos)
  have a1 := pow_blog_le hne
  have a2 := lt_pow_blog (c * 2 ^ t)
  have hdvd : 2 ^ (blog (c * 2 ^ t) + 1 - 53) ∣ c * 2 ^ t := by
    by_cases hs : blog (c * 2 ^ t) + 1 - 53 ≤ t
    · exact Dvd.dvd.mul_left (pow_dvd_pow 2 hs) c
    · have hL : t + 53 ≤ blog (c * 2 ^ t) := by omega
      have b1 : 2 ^ 53 * 2 ^ t ≤ c * 2 ^ t := by
        calc 2 ^ 53 * 2 ^ t = 2 ^ (t + 53) := by rw [pow_add]; ring
          _ ≤ 2 ^ blog (c * 2 ^ t) := Nat.pow_le_pow_right (by norm_num) hL
          _ ≤ c * 2 ^ t := a1
      have b2 : 2 ^ 53 ≤ c := Nat.le_of_mul_le_mul_right b1 hpos
      have hc2 : c = 2 ^ 53 := le_antisymm hc b2
      have e : c * 2 ^ t = 2 ^ (53 + t) := by rw [hc2, pow_add]
      have hb : blog (c * 2 ^ t) = 53 + t := by
        apply blog_unique
        · rw [e]
        · rw [e]; exact Nat.pow_lt_pow_right (by norm_num) (by omega)
      rw [hb, e]
      exact pow_dvd_pow 2 (by omega)
  rw [rnd_eq_core, Nat.div_one, one_mul, rndCore_dvd _ _ (pow_pos (by norm_num) _) hdvd]
  exact Nat.div_mul_cancel hdvd

theorem rndCore_le (n d : Nat) :
    rndCore n (d * 2 ^ (blog (n / d) + 1 - 53)) ≤ 2 ^ 53 := by
  have hm : n / (d * 2 ^ (blog (n / d) + 1 - 53)) < 2 ^ 53 := by
    rw [← Nat.div_div_eq_div_mul]
    rw [Nat.div_lt_iff_lt_mul (pow_pos (by norm_num) _)]
    have a2 := lt_pow_blog (n / d)
    have : 2 ^ (blog (n / d) + 1) ≤ 2 ^ 53 * 2 ^ (blog (n / d) + 1 - 53) := by
      rw [← pow_add]
      exact Nat.pow_le_pow_right (by norm_num) (by omega)
    exact lt_of_lt_of_le a2 this
  unfold rndCore
  split_ifs <;> omega

/-- Rounding is idempotent: a rounded value has at most 53 significant bits. -/
theorem rnd_idem (n d : Nat) : rnd (rnd n d) 1 = rnd n d := by
  rw [rnd_eq_core n d]
  exact rnd_of_rep _ _ (rndCore_le n d)

/-- Above `2^(52+a)` rounding to an integer and rounding to a multiple of `2^a` agree. -/
theorem rnd_scale (n a : Nat) (h : 2 ^ (52 + a) ≤ n) : rnd n 1 = rnd n (2 ^ a) * 2 ^ a := by
  have hn : n ≠ 0 := by
    intro h0; rw [h0] at h
    exact absurd h (not_le.mpr (pow_pos (by norm_num) _))
  have a1 := pow_blog_le hn
  have a2 := lt_pow_blog n
  have hL : 52 + a ≤ blog n := by
    have : 52 + a < blog n + 1 := (Nat.pow_lt_pow_iff_right (by norm_num : 1 < 2)).mp
      (lt_of_le_of_lt h a2)
    omega
  have hpa : 0 < 2 ^ a := pow_pos (by norm_num) a
  have hb : blog (n / 2 ^ a) = blog n - a := by
    apply blog_unique
    · rw [Nat.le_div_iff_mul_le hpa, ← pow_add]
      have : blog n - a + a = blog n := by omega
      rw [this]; exact a1
    · rw [Nat.div_lt_iff_lt_mul hpa, ← pow_add]
      have : blog n - a + 1 + a = blog n + 1 := by omega
      rw [this]; exact a2
  rw [rnd_eq_core n 1, rnd_eq_core n (2 ^ a), Nat.div_one, hb, one_mul]
  have e1 : blog n + 1 - 53 = (blog n - a + 1 - 53) + a := by omega
  rw [e1, pow_add, mul_comm (2 ^ (blog n - a + 1 - 53)) (2 ^ a), Nat.mul_assoc]
  rw [mul_comm (2 ^ (blog n - a + 1 - 53)) (2 ^ a)]

/-- Where the square is not subnormal, `math.Pow(x, 2)` and `x * x` are the same
`float64`. -/
theorem pow2_eq_mul (s : Bool) (k : Nat) (h : k = 0 ∨ 2 ^ 563 ≤ k) :
    pow2 (fin s k) = fin s k * fin s k := by
  rw [show fin s k * fin s k = pack (xor s s) (rnd (k * k) (2 ^ 1074)) from rfl,
    show pow2 (fin s k) = pack false (rnd (rnd (k * k) 1) (2 ^ 1074)) from rfl]
  have hs : xor s s = false := by cases s <;> rfl
  rw [hs]
  have hS : 0 < 2 ^ 1074 := pow_pos (by norm_num) _
  rcases h with h | h
  · subst h
    rw [Nat.mul_zero, rnd_zero 1 (by norm_num)]
  · have hn : 2 ^ (52 + 1074) ≤ k * k := by
      calc 2 ^ (52 + 1074) = 2 ^ 563 * 2 ^ 563 := by rw [← pow_add]
        _ ≤ k * k := Nat.mul_le_mul h h
    rw [rnd_scale (k * k) 1074 hn, rnd_mul_right _ _ hS, rnd_idem]

theorem neg_one_eq : (-1 : F64) = fin true (2 ^ 1074) := by decide!

theorem not_le_neg_one (a : F64) (h : (0 : F64) ≤ a) : ¬ a ≤ -1 := by
  rw [zero_eq] at h
  rw [neg_one_eq]
  have hS : 0 < 2 ^ 1074 := pow_pos (by norm_num) _
  generalize 2 ^ 1074 = S at hS
  cases a with
  | fin s k =>
    intro h2
    have h1 : toInt false 0 ≤ toInt s k := by
      have : le (fin false 0) (fin s k) = true := h
      simpa [le] using this
    have h3 : toInt s k ≤ toInt true S := by
      have : le (fin s k) (fin true S) = true := h2
      simpa [le] using this
    simp [toInt] at h1 h3
    omega
  | inf s =>
    intro h2
    have h1 : le (fin false 0) (inf s) = true := h
    have h3 : le (inf s) (fin true S) = true := h2
    simp [le] at h1 h3
    rw [h1] at h3
    exact absurd h3 (by decide)
  | nan =>
    have h1 : le (fin false 0) nan = true := h
    simp [le] at h1

theorem between_of_not (a : F64) (hn : a ≠ nan) (h1 : ¬ a ≤ -1) (h2 : ¬ (0 : F64) ≤ a) :
    lt (-1) a = true ∧ lt a 0 = true := by
  rw [zero_eq] at h2 ⊢
  rw [neg_one_eq] at h1 ⊢
  generalize 2 ^ 1074 = S at h1 ⊢
  cases a with
  | fin s k =>
    have h3 : ¬ toInt s k ≤ toInt true S := by
      intro hc; apply h1
      show le (fin s k) (fin true S) = true
      simpa [le] using hc
    have h4 : ¬ toInt false 0 ≤ toInt s k := by
      intro hc; apply h2
      show le (fin false 0) (fin s k) = true
      simpa [le] using hc
    constructor
    · simp only [lt, decide_eq_true_eq]; omega
    · simp only [lt, decide_eq_true_eq]; omega
  | inf s =>
    cases s with
    | false => exact absurd (show le (fin false 0) (inf false) = true from rfl) h2
    | true => exact absurd (show le (inf true) (fin true S) = true from rfl) h1
  | nan => exact absurd rfl hn

theorem abs_toRat (s : Bool) (k : Nat) : |toRat (fin s k)| = val k := by
  show |if s then -val k else val k| = val k
  cases s <;> simp [abs_of_nonneg (val_nonneg k)]

theorem squareSafe_val {s : Bool} {k : Nat} (h : SquareSafe (fin s k)) :
    k = 0 ∨ (1 / 2 ^ 510 ≤ val k ∧ val k ≤ 2 ^ 510) := by
  rcases h with h | ⟨h1, h2⟩
  · exact Or.inl h
  · exact Or.inr ⟨(inv_pow_le_val (a := 564) (b := 510) rfl).mpr h1,
      (val_le_pow (b := 510) (c := 1584) rfl).mpr h2⟩

theorem sub_self_fin (s : Bool) (k : Nat) : (fin s k : F64) - fin s k = fin false 0 := by
  show add (fin s k) (neg (fin s k)) = fin false 0
  show add (fin s k) (fin (!s) k) = fin false 0
  have : toInt s k + toInt (!s) k = 0 := by cases s <;> simp [toInt]
  show (if toInt s k + toInt (!s) k = 0 then fin (s && !s) 0
    else pack (decide (toInt s k + toInt (!s) k < 0)) (rnd (toInt s k + toInt (!s) k).natAbs 1))
      = fin false 0
  rw [if_pos this]
  cases s <;> rfl

theorem distance_near (s : Bool) (k : Nat) (h : SquareSafe (fin s k)) :
    ∃ d, sqrt (pow2 (fin s k)) = fin false d ∧ |val d - val k| ≤ val k / 2 ^ 49 := by
  obtain ⟨j, hj, hjn, _⟩ := pow2_zn s k (squareSafe_val h)
  rw [hj]
  by_cases hj0 : j = 0
  · subst hj0
    refine ⟨0, by decide!, ?_⟩
    rw [val_zero] at hjn
    have h1 := hjn.1
    have hk2 : val k ^ 2 ≤ 0 := by
      have hU : (0:ℚ) < 1 - 3 * U := by unfold U; norm_num
      by_contra hc
      push_neg at hc
      have := mul_pos hc hU
      linarith
    have hk0 : val k = 0 := by
      have := sq_nonneg (val k)
      exact pow_eq_zero_iff (two_ne_zero) |>.mp (le_antisymm hk2 this)
    rw [hk0, val_zero]; simp
  · obtain ⟨g, hg, _, hgn⟩ := sqrt_near j hj0
    refine ⟨g, hg, ?_⟩
    have hU : U = 1 / 2 ^ 53 := rfl
    have h9 : Near (9 * U) (val g ^ 2) (val k ^ 2) :=
      Near.trans (9 * U) hgn hjn (sq_nonneg _) (by rw [hU]; norm_num) (by rw [hU]; norm_num)
        (by rw [hU]; norm_num) (by rw [hU]; norm_num)
    have h10 : Near (9 * U) (val g) (val k) :=
      h9.of_sq (val_nonneg _) (val_nonneg _) (by rw [hU]; norm_num) (by rw [hU]; norm_num)
    have h11 := h10.abs_sub_le_mul
    have : 9 * U * val k ≤ val k / 2 ^ 49 := by
      rw [hU]
      have := val_nonneg k
      have e : val k / 2 ^ 49 = 16 * (1 / 2 ^ 53) * val k := by ring
      rw [e]
      exact mul_le_mul_of_nonneg_right (by norm_num) this
    linarith

theorem margin_arith (G J Jm M T : ℚ) (hG : 0 ≤ G) (hJ : 0 ≤ J)
    (h1 : G * (1 + 1 / 2 ^ 50) ≤ T) (h2 : T ^ 2 = M ^ 2) (h3 : J * (1 - 5 * U) ≤ G ^ 2)
    (h4 : M ^ 2 * (1 - 3 * U) ≤ Jm) : J ≤ Jm := by
  have hU : U = 1 / 2 ^ 53 := rfl
  rw [hU] at h3 h4
  have a0 : 0 ≤ G * (1 + 1 / 2 ^ 50) := mul_nonneg hG (by norm_num)
  have a1 : (G * (1 + 1 / 2 ^ 50)) ^ 2 ≤ M ^ 2 := by
    rw [← h2]
    exact pow_le_pow_left₀ a0 h1 2
  have a2 : (J * (1 - 5 * (1 / 2 ^ 53))) * ((1 + 1 / 2 ^ 50) ^ 2 * (1 - 3 * (1 / 2 ^ 53)))
      ≤ G ^ 2 * ((1 + 1 / 2 ^ 50) ^ 2 * (1 - 3 * (1 / 2 ^ 53))) :=
    mul_le_mul_of_nonneg_right h3 (by norm_num)
  have a3 : G ^ 2 * ((1 + 1 / 2 ^ 50) ^ 2 * (1 - 3 * (1 / 2 ^ 53)))
      = (G * (1 + 1 / 2 ^ 50)) ^ 2 * (1 - 3 * (1 / 2 ^ 53)) := by ring
  have a4 : (G * (1 + 1 / 2 ^ 50)) ^ 2 * (1 - 3 * (1 / 2 ^ 53))
      ≤ M ^ 2 * (1 - 3 * (1 / 2 ^ 53)) := mul_le_mul_of_nonneg_right a1 (by norm_num)
  have a5 : J * 1 ≤ (J * (1 - 5 * (1 / 2 ^ 53))) * ((1 + 1 / 2 ^ 50) ^ 2 * (1 - 3 * (1 / 2 ^ 53))) := by
    rw [mul_assoc]
    exact mul_le_mul_of_nonneg_left (by norm_num) hJ
  linarith

theorem toRat_eq (s : Bool) (k : Nat) : toRat (fin s k) = (toInt s k : ℚ) / 2 ^ 1074 := by
  cases s
  · show val k = ((k : Int) : ℚ) / 2 ^ 1074
    rw [Int.cast_natCast]; rfl
  · show -val k = ((-(k : Int) : Int) : ℚ) / 2 ^ 1074
    rw [Int.cast_neg, Int.cast_natCast, neg_div]; rfl

theorem natAbs_toInt (s : Bool) (k : Nat) : (toInt s k).natAbs = k := by
  cases s <;> simp [toInt]

/-- The sign and magnitude of a rounded non-zero integer, and its distance from the
integer. -/
theorem pack_int (i : Int) (s0 : Bool) (h : i.natAbs ≤ 2 ^ 2096) :
    ∃ s k, (if i = 0 then fin s0 0 else pack (decide (i < 0)) (rnd i.natAbs 1)) = fin s k ∧
      k ≤ 2 * i.natAbs ∧ (k = 0 ↔ i = 0) ∧
      |toRat (fin s k) - (i : ℚ) / 2 ^ 1074| ≤ U * |(i : ℚ) / 2 ^ 1074| := by
  by_cases hi : i = 0
  · subst hi
    refine ⟨s0, 0, by simp, by simp, by simp, ?_⟩
    rw [toRat_eq]
    have : toInt s0 0 = 0 := by cases s0 <;> simp [toInt]
    rw [this]; simp
  · have hn0 : i.natAbs ≠ 0 := Int.natAbs_ne_zero.mpr hi
    have hn := rnd_near i.natAbs 1 (by norm_num) (Or.inr (one_dvd _))
    have hlt : rnd i.natAbs 1 < 2 ^ 2098 :=
      rnd_lt _ _ 2096 (by norm_num) (Or.inr (one_dvd _)) (by rw [Nat.mul_one]; exact h)
        (by norm_num)
    have hle : rnd i.natAbs 1 ≤ 2 * i.natAbs := by
      have := rnd_mul_le i.natAbs 1 (by norm_num) (Or.inr (one_dvd _))
      rwa [Nat.mul_one] at this
    have hge : i.natAbs ≤ 2 * rnd i.natAbs 1 := by
      have := le_two_rnd_mul i.natAbs 1 (by norm_num) (Or.inr (one_dvd _))
      rwa [Nat.mul_one] at this
    refine ⟨decide (i < 0), rnd i.natAbs 1, ?_, hle, ?_, ?_⟩
    · rw [if_neg hi]; exact pack_of_lt hlt
    · constructor
      · intro h0; rw [h0] at hge; omega
      · intro h0; exact absurd h0 hi
    · simp only [Nat.cast_one, div_one] at hn
      have h1 := hn.1
      have h2 := hn.2
      have hS : (0 : ℚ) < 2 ^ 1074 := pow_pos (by norm_num) _
      have habs : |(i : ℚ)| = (i.natAbs : ℚ) := by
        rw [Nat.cast_natAbs, Int.cast_abs]
      rw [toRat_eq, ← sub_div, abs_div, abs_div, abs_of_pos hS, ← mul_div_assoc]
      generalize (2 : ℚ) ^ 1074 = S at hS
      apply div_le_div_of_nonneg_right _ (le_of_lt hS)
      rw [habs]
      rcases lt_or_gt_of_ne hi with hneg | hpos
      · have e1 : (i : ℚ) = -(i.natAbs : ℚ) := by
          rw [← habs, abs_of_neg (by exact_mod_cast hneg)]; ring
        have e2 : toInt (decide (i < 0)) (rnd i.natAbs 1) = -((rnd i.natAbs 1 : Nat) : Int) := by
          simp [toInt, hneg]
        rw [e2, e1, Int.cast_neg, Int.cast_natCast, abs_le]
        constructor <;> linarith
      · have e1 : (i : ℚ) = (i.natAbs : ℚ) := by
          rw [← habs, abs_of_pos (by exact_mod_cast hpos)]
        have e2 : toInt (decide (i < 0)) (rnd i.natAbs 1) = ((rnd i.natAbs 1 : Nat) : Int) := by
          have : ¬ i < 0 := not_lt.mpr (le_of_lt hpos)
          simp [toInt, this]
        rw [e2, e1, Int.cast_natCast, abs_le]
        constructor <;> linarith

theorem add_signed (s1 s2 : Bool) (k1 k2 : Nat) (h : k1 + k2 ≤ 2 ^ 2096) :
    ∃ s k, (fin s1 k1 : F64) + fin s2 k2 = fin s k ∧ k ≤ 2 * (k1 + k2) ∧
      (k = 0 ↔ toInt s1 k1 + toInt s2 k2 = 0) ∧
      |toRat (fin s k) - (toRat (fin s1 k1) + toRat (fin s2 k2))|
        ≤ U * |toRat (fin s1 k1) + toRat (fin s2 k2)| := by
  have hab : (toInt s1 k1 + toInt s2 k2).natAbs ≤ k1 + k2 := by
    have := Int.natAbs_add_le (toInt s1 k1) (toInt s2 k2)
    rwa [natAbs_toInt, natAbs_toInt] at this
  obtain ⟨s, k, e, hk, h0, hb⟩ := pack_int (toInt s1 k1 + toInt s2 k2) (s1 && s2)
    (le_trans hab h)
  refine ⟨s, k, e, le_trans hk (Nat.mul_le_mul_left _ hab), h0, ?_⟩
  rw [toRat_eq s1, toRat_eq s2, ← add_div, ← Int.cast_add]
  exact hb

theorem sub_signed (s1 s2 : Bool) (k1 k2 : Nat) (h : k1 + k2 ≤ 2 ^ 2096) :
    ∃ s k, (fin s1 k1 : F64) - fin s2 k2 = fin s k ∧ k ≤ 2 * (k1 + k2) ∧
      (k = 0 ↔ toInt s1 k1 = toInt s2 k2) ∧
      |toRat (fin s k) - (toRat (fin s1 k1) - toRat (fin s2 k2))|
        ≤ U * |toRat (fin s1 k1) - toRat (fin s2 k2)| := by
  obtain ⟨s, k, e, hk, h0, hb⟩ := add_signed s1 (!s2) k1 k2 h
  have hneg : toInt (!s2) k2 = -toInt s2 k2 := by cases s2 <;> simp [toInt]
  have hr : toRat (fin (!s2) k2) = -toRat (fin s2 k2) := by
    rw [toRat_eq, toRat_eq, hneg, Int.cast_neg, neg_div]
  refine ⟨s, k, e, hk, ?_, ?_⟩
  · rw [h0, hneg]; omega
  · rw [hr, ← sub_eq_add_neg] at hb
    exact hb

/-- Multiplication by `1` only rounds. -/
theorem mul_one_signed (s : Bool) (k : Nat) (h : k ≤ 2 ^ 2096) :
    ∃ j, (fin s k : F64) * 1 = fin s j ∧ j ≤ 2 * k ∧
      |toRat (fin s j) - toRat (fin s k)| ≤ U * |toRat (fin s k)| := by
  have hS : 0 < 2 ^ 1074 := pow_pos (by norm_num) _
  have e : (fin s k : F64) * 1 = pack s (rnd k 1) := by
    rw [one_eq]
    rw [show (fin s k : F64) * fin false (2 ^ 1074)
      = pack (xor s false) (rnd (k * 2 ^ 1074) (2 ^ 1074)) from rfl, rnd_mul_right _ _ hS,
      Bool.xor_false]
  by_cases hk : k = 0
  · subst hk
    refine ⟨0, ?_, by simp, ?_⟩
    · rw [e, rnd_zero 1 (by norm_num)]
      exact pack_of_lt (pow_pos (by norm_num) _)
    · rw [sub_self, abs_zero]
      exact mul_nonneg (le_of_lt U_pos) (abs_nonneg _)
  · have hn := rnd_near k 1 (by norm_num) (Or.inr (one_dvd _))
    have hlt : rnd k 1 < 2 ^ 2098 :=
      rnd_lt _ _ 2096 (by norm_num) (Or.inr (one_dvd _)) (by rw [Nat.mul_one]; exact h)
        (by norm_num)
    have hle : rnd k 1 ≤ 2 * k := by
      have := rnd_mul_le k 1 (by norm_num) (Or.inr (one_dvd _))
      rwa [Nat.mul_one] at this
    refine ⟨rnd k 1, ?_, hle, ?_⟩
    · rw [e]; exact pack_of_lt hlt
    · simp only [Nat.cast_one, div_one] at hn
      have h1 := hn.1
      have h2 := hn.2
      have hSq : (0 : ℚ) < 2 ^ 1074 := pow_pos (by norm_num) _
      have hkq : (0 : ℚ) ≤ k := Nat.cast_nonneg k
      cases s
      · show |val (rnd k 1) - val k| ≤ U * |val k|
        unfold val
        rw [← sub_div, abs_div, abs_div, abs_of_pos hSq, ← mul_div_assoc]
        generalize (2 : ℚ) ^ 1074 = S at hSq
        apply div_le_div_of_nonneg_right _ (le_of_lt hSq)
        rw [abs_of_nonneg hkq, abs_le]
        constructor <;> linarith
      · show |-val (rnd k 1) - -val k| ≤ U * |-val k|
        unfold val
        rw [abs_neg, ← neg_div, ← neg_div, ← sub_div, abs_div, abs_div, abs_of_pos hSq,
          ← mul_div_assoc]
        generalize (2 : ℚ) ^ 1074 = S at hSq
        apply div_le_div_of_nonneg_right _ (le_of_lt hSq)
        rw [abs_of_nonneg hkq, abs_le]
        constructor <;> linarith

theorem lerp_one_arith (A B D M R : ℚ) (h1 : |D - (B - A)| ≤ U * |B - A|)
    (h2 : |M - D| ≤ U * |D|) (h3 : |R - (A + M)| ≤ U * |A + M|) :
    |R - B| ≤ (|A| + |B|) / 2 ^ 50 := by
  have hU : U = 1 / 2 ^ 53 := rfl
  rw [hU] at h1 h2 h3
  have x1 : |B - A| ≤ |B| + |A| := abs_sub B A
  have x2 : |D| ≤ |D - (B - A)| + |B - A| := by
    have := abs_add (D - (B - A)) (B - A)
    rwa [sub_add_cancel] at this
  have x3 : |M| ≤ |M - D| + |D| := by
    have := abs_add (M - D) D
    rwa [sub_add_cancel] at this
  have x4 : |A + M| ≤ |A| + |M| := abs_add A M
  have x5 : |R - B| ≤ |R - (A + M)| + |M - D| + |D - (B - A)| := by
    have e : R - B = (R - (A + M)) + (M - D) + (D - (B - A)) := by ring
    rw [e]
    exact abs_add_three _ _ _
  have p1 := abs_nonneg A
  have p2 := abs_nonneg B
  have p3 := abs_nonneg (B - A)
  have p4 := abs_nonneg D
  have p5 := abs_nonneg M
  have p6 := abs_nonneg (A + M)
  have e50 : (|A| + |B|) / 2 ^ 50 = 8 * (1 / 2 ^ 53) * (|A| + |B|) := by ring
  rw [e50]
  norm_num at h1 h2 h3 ⊢
  linarith

theorem lerp_one (sa sb : Bool) (ka kb : Nat) (ha : ka ≤ 2 ^ 2090) (hb : kb ≤ 2 ^ 2090) :
    ∃ s k, linearInterpolate (fin sa ka) (fin sb kb) 1 = fin s k ∧
      |toRat (fin s k) - toRat (fin sb kb)|
        ≤ (|toRat (fin sa ka)| + |toRat (fin sb kb)|) / 2 ^ 50 := by
  have hP : 2 ^ 2096 = 64 * 2 ^ 2090 := by
    rw [show (2096 : Nat) = 6 + 2090 from rfl, pow_add, show (2 : Nat) ^ 6 = 64 from rfl]
  have g1 : kb + ka ≤ 2 ^ 2096 := by rw [hP]; omega
  obtain ⟨sd, kd, ed, hkd, _, hd⟩ := sub_signed sb sa kb ka g1
  have g2 : kd ≤ 2 ^ 2096 := by rw [hP]; omega
  obtain ⟨km, em, hkm, hm⟩ := mul_one_signed sd kd g2
  have g3 : ka + km ≤ 2 ^ 2096 := by rw [hP]; omega
  obtain ⟨s, k, er, _, _, hr⟩ := add_signed sa sd ka km g3
  refine ⟨s, k, ?_, ?_⟩
  · show (fin sa ka : F64) + (fin sb kb - fin sa ka) * 1 = fin s k
    rw [ed, em, er]
  · exact lerp_one_arith _ _ _ _ _ hd hm hr

theorem add_zero_beq (sa s0 : Bool) (ka : Nat) (ha : Valid (fin sa ka)) :
    ((fin sa ka : F64) + fin s0 0 == fin sa ka) = true := by
  have h0 : toInt s0 0 = 0 := by cases s0 <;> simp [toInt]
  rw [show (fin sa ka : F64) + fin s0 0 =
    if toInt sa ka + toInt s0 0 = 0 then fin (sa && s0) 0
    else pack (decide (toInt sa ka + toInt s0 0 < 0)) (rnd (toInt sa ka + toInt s0 0).natAbs 1)
    from rfl, h0, add_zero, natAbs_toInt]
  by_cases hk : ka = 0
  · subst hk
    have : toInt sa 0 = 0 := by cases sa <;> simp [toInt]
    rw [if_pos this, beq_fin]
    have h2 : toInt (sa && s0) 0 = 0 := by cases sa <;> cases s0 <;> simp [toInt]
    rw [h2, this]; rfl
  · have hne : toInt sa ka ≠ 0 := by
      intro hc
      have := natAbs_toInt sa ka
      rw [hc] at this
      exact hk this.symm
    have hs : decide (toInt sa ka < 0) = sa := by
      cases sa
      · simp [toInt]
      · simp [toInt]; omega
    rw [if_neg hne, hs, ha.2, pack_of_lt ha.1, beq_fin]
    simp

theorem lerp_zero (a b : F64) (ha : Valid a) (hd : (b - a).isFin = true) :
    (linearInterpolate a b 0 == a) = true := by
  show (a + (b - a) * 0 == a) = true
  cases a with
  | fin sa ka =>
    generalize b - fin sa ka = d at hd
    cases d with
    | fin sd kd =>
      rw [zero_eq, mul_zero_mag sd false kd 0 (Or.inr rfl)]
      exact add_zero_beq sa _ ka ha
    | inf s => exact absurd hd (by simp [isFin])
    | nan => exact absurd hd (by simp [isFin])
  | inf s => exact absurd ha (by simp [Valid])
  | nan => exact absurd ha (by simp [Valid])

theorem div_self_one (s : Bool) (q : Nat) (hq : q ≠ 0) : (fin s q : F64) / fin s q = 1 := by
  rw [show (fin s q : F64) / fin s q = if q = 0 then (if q = 0 then nan else inf (xor s s))
    else pack (xor s s) (rnd (q * 2 ^ 1074) q) from rfl, if_neg hq, mul_comm q,
    rnd_mul_right _ _ (Nat.pos_of_ne_zero hq)]
  have h1 := rnd_of_rep 1 1074 (by norm_num)
  rw [Nat.one_mul] at h1
  rw [h1, one_eq]
  have hs : xor s s = false := by cases s <;> rfl
  rw [hs]
  exact pack_of_lt (Nat.pow_lt_pow_right (by norm_num) (by norm_num))

theorem beq_fin_iff (s1 s2 : Bool) (k1 k2 : Nat) :
    ((fin s1 k1 : F64) == fin s2 k2) = true ↔ toInt s1 k1 = toInt s2 k2 := by
  rw [beq_fin]; simp

theorem map_at_min (value oldMin oldMax newMin newMax : F64) (hv : value.isFin = true)
    (ho : oldMin.isFin = true) (hO : oldMax.isFin = true) (hne : (oldMin == oldMax) = false)
    (he : (value == oldMin) = true) (hn : Valid newMin) (hd : (newMax - newMin).isFin = true) :
    (mapFloat value oldMin oldMax newMin newMax == newMin) = true := by
  show (newMin + (newMax - newMin) * ((value - oldMin) / (oldMax - oldMin)) == newMin) = true
  cases value with
  | fin sv kv =>
    cases oldMin with
    | fin so ko =>
      cases oldMax with
      | fin sO kO =>
        have he' : toInt sv kv = toInt so ko := (beq_fin_iff _ _ _ _).mp he
        have hne' : toInt so ko ≠ toInt sO kO := by
          intro hc
          rw [(beq_fin_iff _ _ _ _).mpr hc] at hne
          exact absurd hne (by decide)
        have hnum : ∃ s0, (fin sv kv : F64) - fin so ko = fin s0 0 := by
          have hi : toInt sv kv + toInt (!so) ko = 0 := by
            have : toInt (!so) ko = -toInt so ko := by cases so <;> simp [toInt]
            rw [this, he']; omega
          refine ⟨sv && !so, ?_⟩
          rw [show (fin sv kv : F64) - fin so ko =
            if toInt sv kv + toInt (!so) ko = 0 then fin (sv && !so) 0
            else pack (decide (toInt sv kv + toInt (!so) ko < 0))
              (rnd (toInt sv kv + toInt (!so) ko).natAbs 1) from rfl, if_pos hi]
        obtain ⟨s0, hnum⟩ := hnum
        have hden : (∃ s q, (fin sO kO : F64) - fin so ko = fin s q ∧ q ≠ 0) ∨
            ∃ s, (fin sO kO : F64) - fin so ko = inf s := by
          have hi : toInt sO kO + toInt (!so) ko ≠ 0 := by
            have : toInt (!so) ko = -toInt so ko := by cases so <;> simp [toInt]
            rw [this]; omega
          rw [show (fin sO kO : F64) - fin so ko =
            if toInt sO kO + toInt (!so) ko = 0 then fin (sO && !so) 0
            else pack (decide (toInt sO kO + toInt (!so) ko < 0))
              (rnd (toInt sO kO + toInt (!so) ko).natAbs 1) from rfl, if_neg hi]
          have hn0 : (toInt sO kO + toInt (!so) ko).natAbs ≠ 0 := Int.natAbs_ne_zero.mpr hi
          have hge := le_two_rnd_mul (toInt sO kO + toInt (!so) ko).natAbs 1 (by norm_num)
            (Or.inr (one_dvd _))
          rw [Nat.mul_one] at hge
          generalize rnd (toInt sO kO + toInt (!so) ko).natAbs 1 = R at hge
          generalize decide (toInt sO kO + toInt (!so) ko < 0) = sg
          by_cases hR : R < 2 ^ 2098
          · left; exact ⟨sg, R, pack_of_lt hR, by omega⟩
          · right; refine ⟨sg, ?_⟩
            unfold pack; rw [if_neg hR]
        have hq : ∃ s1, ((fin sv kv : F64) - fin so ko) / ((fin sO kO : F64) - fin so ko)
            = fin s1 0 := by
          rw [hnum]
          rcases hden with ⟨s, q, e, hq0⟩ | ⟨s, e⟩
          · rw [e]; exact ⟨_, div_zero_num s0 s q hq0⟩
          · rw [e]; exact ⟨_, rfl⟩
        obtain ⟨s1, hq⟩ := hq
        rw [hq]
        cases newMin with
        | fin sn kn =>
          generalize newMax - fin sn kn = d at hd
          cases d with
          | fin sd kd =>
            rw [mul_zero_mag sd s1 kd 0 (Or.inr rfl)]
            exact add_zero_beq sn _ kn hn
          | inf s => exact absurd hd (by simp [isFin])
          | nan => exact absurd hd (by simp [isFin])
        | inf s => exact absurd hn (by simp [Valid])
        | nan => exact absurd hn (by simp [Valid])
      | inf s => exact absurd hO (by simp [isFin])
      | nan => exact absurd hO (by simp [isFin])
    | inf s => exact absurd ho (by simp [isFin])
    | nan => exact absurd ho (by simp [isFin])
  | inf s => exact absurd hv (by simp [isFin])
  | nan => exact absurd hv (by simp [isFin])

theorem map_at_max (value oldMin oldMax newMin newMax : F64) (hv : value.NotHuge)
    (ho : oldMin.NotHuge) (hO : oldMax.NotHuge) (hn : newMin.NotHuge) (hN : newMax.NotHuge)
    (hne : (oldMin == oldMax) = false) (he : (value == oldMax) = true) :
    (mapFloat value oldMin oldMax newMin newMax).isFin = true ∧
      |(mapFloat value oldMin oldMax newMin newMax).toRat - newMax.toRat|
        ≤ (|newMin.toRat| + |newMax.toRat|) / 2 ^ 50 := by
  cases value with
  | fin sv kv =>
    cases oldMin with
    | fin so ko =>
      cases oldMax with
      | fin sO kO =>
        have he' : toInt sv kv = toInt sO kO := (beq_fin_iff _ _ _ _).mp he
        have hne' : toInt so ko ≠ toInt sO kO := by
          intro hc
          rw [(beq_fin_iff _ _ _ _).mpr hc] at hne
          exact absurd hne (by decide)
        have hP : 2 ^ 2096 = 64 * 2 ^ 2090 := by
          rw [show (2096 : Nat) = 6 + 2090 from rfl, pow_add, show (2 : Nat) ^ 6 = 64 from rfl]
        have hO' : kO ≤ 2 ^ 2090 := hO
        have ho' : ko ≤ 2 ^ 2090 := ho
        have g1 : kO + ko ≤ 2 ^ 2096 := by rw [hP]; omega
        obtain ⟨s, q, e, _, h0, _⟩ := sub_signed sO so kO ko g1
        have hq0 : q ≠ 0 := by
          intro hc
          exact hne' (h0.mp hc).symm
        have e2 : (fin sv kv : F64) - fin so ko = fin sO kO - fin so ko := by
          show add (fin sv kv) (neg (fin so ko)) = add (fin sO kO) (neg (fin so ko))
          show add (fin sv kv) (fin (!so) ko) = add (fin sO kO) (fin (!so) ko)
          have hi : toInt sO kO + toInt (!so) ko ≠ 0 := by
            have : toInt (!so) ko = -toInt so ko := by cases so <;> simp [toInt]
            rw [this]; omega
          show (if toInt sv kv + toInt (!so) ko = 0 then fin (sv && !so) 0
              else pack (decide (toInt sv kv + toInt (!so) ko < 0))
                (rnd (toInt sv kv + toInt (!so) ko).natAbs 1))
            = (if toInt sO kO + toInt (!so) ko = 0 then fin (sO && !so) 0
              else pack (decide (toInt sO kO + toInt (!so) ko < 0))
                (rnd (toInt sO kO + toInt (!so) ko).natAbs 1))
          rw [he', if_neg hi, if_neg hi]
        have e3 : mapFloat (fin sv kv) (fin so ko) (fin sO kO) newMin newMax
            = linearInterpolate newMin newMax 1 := by
          show newMin + (newMax - newMin) * ((fin sv kv - fin so ko) / (fin sO kO - fin so ko))
            = newMin + (newMax - newMin) * 1
          rw [e2, e, div_self_one s q hq0]
        rw [e3]
        cases newMin with
        | fin sn kn =>
          cases newMax with
          | fin sN kN =>
            obtain ⟨s', k', e', hb⟩ := lerp_one sn sN kn kN hn hN
            rw [e']
            exact ⟨rfl, hb⟩
          | inf s => exact absurd hN (by simp [NotHuge])
          | nan => exact absurd hN (by simp [NotHuge])
        | inf s => exact absurd hn (by simp [NotHuge])
        | nan => exact absurd hn (by simp [NotHuge])
      | inf s => exact absurd hO (by simp [NotHuge])
      | nan => exact absurd hO (by simp [NotHuge])
    | inf s => exact absurd ho (by simp [NotHuge])
    | nan => exact absurd ho (by simp [NotHuge])
  | inf s => exact absurd hv (by simp [NotHuge])
  | nan => exact absurd hv (by simp [NotHuge])

theorem cos_zero_eval : cosOf (reduce (fin false 0)) = 1 := by decide!

theorem cos_eighth_eval :
    cosOf (reduce (fin false (2 ^ 1071))) = ofDec 992197667229329 1000000000000000 := by
  decide!

theorem sin_eighth_eval :
    sinOf false (reduce (fin false (2 ^ 1071)))
      = ofDec 12467473338522769 100000000000000000 := by
  decide!

theorem cos_small (tr : F64 → Nat × F64) (s : Bool) (k : Nat)
    (h : le reduceThreshold (fin false k) = false) :
    Cos tr (fin s k) = cosOf (reduce (fin false k)) := by
  show cosOf (if le reduceThreshold (fin false k) then tr (fin false k)
    else reduce (fin false k)) = _
  rw [h]
  rfl

theorem sin_small (tr : F64 → Nat × F64) (s : Bool) (k : Nat) (hk : k ≠ 0)
    (h : le reduceThreshold (fin false k) = false) :
    Sin tr (fin s k) = sinOf s (reduce (fin false k)) := by
  show (if k = 0 then fin s k else sinOf s (if le reduceThreshold (fin false k)
    then tr (fin false k) else reduce (fin false k))) = _
  rw [if_neg hk, h]
  rfl

theorem fromRadians_zero (tr : F64 → Nat × F64) : FromRadians tr 0 = ⟨1, 0⟩ := by
  rw [zero_eq]
  show (⟨Cos tr (fin false 0), Sin tr (fin false 0)⟩ : Vector2D) = ⟨1, fin false 0⟩
  rw [cos_small tr false 0 (by decide!), cos_zero_eval]
  rfl

theorem fromRadians_eighth (tr : F64 → Nat × F64) :
    FromRadians tr (fin false (2 ^ 1071))
      = ⟨ofDec 992197667229329 1000000000000000,
          ofDec 12467473338522769 100000000000000000⟩ := by
  show (⟨Cos tr (fin false (2 ^ 1071)), Sin tr (fin false (2 ^ 1071))⟩ : Vector2D) = _
  rw [cos_small tr false _ (by decide!), sin_small tr false _ (by decide!) (by decide!),
    cos_eighth_eval, sin_eighth_eval]

/-- The absolute error of `rnd` in the general case: relative `2^-53` of the quotient
plus half a unit, in natural numbers. -/
theorem rnd_bounds_abs (n d : Nat) (hd : 0 < d) :
    (2 ^ 53 - 1) * n ≤ 2 ^ 53 * (rnd n d * d) + 2 ^ 52 * d ∧
      2 ^ 53 * (rnd n d * d) ≤ (2 ^ 53 + 1) * n + 2 ^ 52 * d := by
  by_cases hs : blog (n / d) + 1 - 53 = 0
  · obtain ⟨D, m, r, hD, hn, hr, hc⟩ := rnd_cases n d hd
    rw [hs, pow_zero, mul_one] at hD
    subst hD
    rcases hc with ⟨e, h2⟩ | ⟨e, h2⟩
    · rw [e]
      have e2 : m * D = n - r := by rw [hn, mul_comm D m, Nat.add_sub_cancel]
      rw [e2]
      constructor <;> omega
    · rw [e]
      have e2 : (m + 1) * D = n + (D - r) := by
        rw [hn]; ring_nf; omega
      rw [e2]
      constructor <;> omega
  · have hnorm : 2 ^ 52 * d ≤ n := by
      have hq : n / d ≠ 0 := by
        intro h0
        rw [h0, blog_eq] at hs
        exact hs (by simp [Nat.log2])
      have h1 := pow_blog_le hq
      have h2 : 52 ≤ blog (n / d) := by omega
      calc 2 ^ 52 * d ≤ 2 ^ blog (n / d) * d :=
            Nat.mul_le_mul_right _ (Nat.pow_le_pow_right (by norm_num) h2)
        _ ≤ (n / d) * d := Nat.mul_le_mul_right _ h1
        _ ≤ n := Nat.div_mul_le_self n d
    obtain ⟨h1, h2⟩ := rnd_bounds n d hd (Or.inl hnorm)
    constructor <;> omega

theorem rnd_lt_gen (n d : Nat) (hd : 0 < d) (hn : n ≤ 2 ^ 2096 * d) : rnd n d < 2 ^ 2098 := by
  have h2 := (rnd_bounds_abs n d hd).2
  have h3 : 2 ^ 53 * (rnd n d * d) ≤ 2 ^ 53 * (2 ^ 2097 * d + d) := by
    calc 2 ^ 53 * (rnd n d * d) ≤ (2 ^ 53 + 1) * n + 2 ^ 52 * d := h2
      _ ≤ (2 ^ 53 + 1) * (2 ^ 2096 * d) + 2 ^ 52 * d :=
          Nat.add_le_add_right (Nat.mul_le_mul_left _ hn) _
      _ ≤ 2 ^ 53 * (2 ^ 2097 * d + d) := by
          have e : (2 : Nat) ^ 2097 = 2 * 2 ^ 2096 := by rw [pow_succ]; ring
          rw [e]
          generalize (2 : Nat) ^ 2096 = P
          have hP : 0 ≤ P * d := Nat.zero_le _
          nlinarith [hP]
  have h4 : rnd n d * d ≤ (2 ^ 2097 + 1) * d := by
    have := Nat.le_of_mul_le_mul_left h3 (by norm_num : 0 < 2 ^ 53)
    calc rnd n d * d ≤ 2 ^ 2097 * d + d := this
      _ = (2 ^ 2097 + 1) * d := by ring
  have h5 : rnd n d ≤ 2 ^ 2097 + 1 := Nat.le_of_mul_le_mul_right h4 hd
  have h6 : 2 ^ 2097 + 1 < 2 ^ 2098 := by
    have e : (2 : Nat) ^ 2098 = 2 ^ 2097 + 2 ^ 2097 := by rw [pow_succ]; ring
    rw [e]
    have : 1 < 2 ^ 2097 := Nat.one_lt_two_pow (by norm_num)
    omega
  exact lt_of_le_of_lt h5 h6

/-- The absolute error of `rnd` over the rationals. -/
theorem rnd_abs (n d : Nat) (hd : 0 < d) :
    |(rnd n d : ℚ) - (n : ℚ) / d| ≤ U * ((n : ℚ) / d) + 1 / 2 := by
  obtain ⟨h1, h2⟩ := rnd_bounds_abs n d hd
  have hdq : (0 : ℚ) < d := by exact_mod_cast hd
  have q1 : ((2 ^ 53 - 1 : ℚ)) * n ≤ 2 ^ 53 * ((rnd n d : ℚ) * d) + 2 ^ 52 * d := by
    have : (((2 ^ 53 - 1 : Nat) * n : Nat) : ℚ) ≤ ((2 ^ 53 * (rnd n d * d) + 2 ^ 52 * d : Nat) : ℚ) := by
      exact_mod_cast h1
    push_cast at this
    linarith
  have q2 : (2 ^ 53 : ℚ) * ((rnd n d : ℚ) * d) ≤ (2 ^ 53 + 1) * n + 2 ^ 52 * d := by
    have : ((2 ^ 53 * (rnd n d * d) : Nat) : ℚ) ≤ (((2 ^ 53 + 1) * n + 2 ^ 52 * d : Nat) : ℚ) := by
      exact_mod_cast h2
    push_cast at this
    linarith
  have hU : U = 1 / 2 ^ 53 := rfl
  rw [abs_le, hU]
  have e : (n : ℚ) = ((n : ℚ) / d) * d := by field_simp
  generalize (n : ℚ) / d = z at e ⊢
  generalize (rnd n d : ℚ) = R at q1 q2 ⊢
  rw [e] at q1 q2
  have k1 : (2 ^ 53 - 1 : ℚ) * z ≤ 2 ^ 53 * R + 2 ^ 52 := by
    have : ((2 ^ 53 - 1 : ℚ) * z) * d ≤ (2 ^ 53 * R + 2 ^ 52) * d := by nlinarith
    exact le_of_mul_le_mul_right this hdq
  have k2 : (2 ^ 53 : ℚ) * R ≤ (2 ^ 53 + 1) * z + 2 ^ 52 := by
    have : ((2 ^ 53 : ℚ) * R) * d ≤ ((2 ^ 53 + 1) * z + 2 ^ 52) * d := by nlinarith
    exact le_of_mul_le_mul_right this hdq
  constructor <;> [skip; skip]
  · have : (2 : ℚ) ^ 53 * (-(1 / 2 ^ 53 * z + 1 / 2)) ≤ 2 ^ 53 * (R - z) := by
      have e1 : (2 : ℚ) ^ 53 * (-(1 / 2 ^ 53 * z + 1 / 2)) = -z - 2 ^ 52 := by norm_num; ring
      rw [e1]; linarith
    exact le_of_mul_le_mul_left this (by norm_num)
  · have : (2 : ℚ) ^ 53 * (R - z) ≤ 2 ^ 53 * (1 / 2 ^ 53 * z + 1 / 2) := by
      have e1 : (2 : ℚ) ^ 53 * (1 / 2 ^ 53 * z + 1 / 2) = z + 2 ^ 52 := by norm_num; ring
      rw [e1]; linarith
    exact le_of_mul_le_mul_left this (by norm_num)

theorem eta_eq : Eta = 1 / 2 / 2 ^ 1074 := by
  unfold Eta
  rw [show (1075 : Nat) = 1074 + 1 from rfl, pow_succ]
  generalize (2 : ℚ) ^ 1074 = S
  rw [div_div, mul_comm]

theorem eta_nonneg : 0 ≤ Eta := by
  unfold Eta
  exact div_nonneg zero_le_one (le_of_lt (pow_pos (by norm_num) _))

theorem abs_toRat_mul (s1 s2 : Bool) (k1 k2 : Nat) :
    |toRat (fin s1 k1) * toRat (fin s2 k2)| = val k1 * val k2 := by
  rw [abs_mul, abs_toRat, abs_toRat]

theorem toRat_xor_sub (s1 s2 : Bool) (j k1 k2 : Nat) :
    |toRat (fin (xor s1 s2) j) - toRat (fin s1 k1) * toRat (fin s2 k2)|
      = |val j - val k1 * val k2| := by
  cases s1 <;> cases s2
  · rfl
  · show |(-val j) - val k1 * (-val k2)| = _
    rw [show (-val j) - val k1 * (-val k2) = -(val j - val k1 * val k2) by ring, abs_neg]
  · show |(-val j) - (-val k1) * val k2| = _
    rw [show (-val j) - (-val k1) * val k2 = -(val j - val k1 * val k2) by ring, abs_neg]
  · show |val j - (-val k1) * (-val k2)| = _
    rw [show (-val k1) * (-val k2) = val k1 * val k2 by ring]

/-- The product of two finite values that cannot overflow: relative error `2^-53` plus
the absolute error `2^-1075` of a subnormal result. -/
theorem mul_abs (s1 s2 : Bool) (k1 k2 e1 e2 : Nat) (h1 : k1 ≤ 2 ^ e1) (h2 : k2 ≤ 2 ^ e2)
    (he : 1074 ≤ e1 + e2) (he' : e1 + e2 ≤ 3170) :
    ∃ j, (fin s1 k1 : F64) * fin s2 k2 = fin (xor s1 s2) j ∧ j ≤ 2 ^ (e1 + e2 + 2 - 1074) ∧
      |toRat (fin (xor s1 s2) j) - toRat (fin s1 k1) * toRat (fin s2 k2)|
        ≤ U * |toRat (fin s1 k1) * toRat (fin s2 k2)| + Eta := by
  have hS : 0 < 2 ^ 1074 := pow_pos (by norm_num) _
  have hprod : k1 * k2 ≤ 2 ^ (e1 + e2) := by
    rw [pow_add]; exact Nat.mul_le_mul h1 h2
  have hov : k1 * k2 ≤ 2 ^ 2096 * 2 ^ 1074 := by
    rw [← pow_add]
    exact le_trans hprod (Nat.pow_le_pow_right (by norm_num) he')
  refine ⟨rnd (k1 * k2) (2 ^ 1074), ?_, ?_, ?_⟩
  · rw [show (fin s1 k1 : F64) * fin s2 k2 = pack (xor s1 s2) (rnd (k1 * k2) (2 ^ 1074)) from rfl]
    exact pack_of_lt (rnd_lt_gen _ _ hS hov)
  · have hb := (rnd_bounds_abs (k1 * k2) (2 ^ 1074) hS).2
    have hS2 : 2 ^ 1074 ≤ 2 ^ (e1 + e2) := Nat.pow_le_pow_right (by norm_num) he
    have e3 : 2 ^ (e1 + e2 + 2 - 1074) * 2 ^ 1074 = 4 * 2 ^ (e1 + e2) := by
      rw [← pow_add]
      have : e1 + e2 + 2 - 1074 + 1074 = e1 + e2 + 2 := by omega
      rw [this, pow_add]; ring
    apply Nat.le_of_mul_le_mul_right _ hS
    rw [e3]
    generalize rnd (k1 * k2) (2 ^ 1074) * 2 ^ 1074 = R at hb ⊢
    generalize (2 : Nat) ^ 1074 = S at hb hS2
    generalize (2 : Nat) ^ (e1 + e2) = P at hprod hS2
    generalize k1 * k2 = n at hprod hb
    omega
  · rw [toRat_xor_sub, abs_toRat_mul, eta_eq]
    have hn := rnd_abs (k1 * k2) (2 ^ 1074) hS
    simp only [val, Nat.cast_mul, Nat.cast_pow, Nat.cast_ofNat] at hn ⊢
    have hSq : (0 : ℚ) < 2 ^ 1074 := pow_pos (by norm_num) _
    generalize (2 : ℚ) ^ 1074 = S at hn hSq ⊢
    generalize (rnd (k1 * k2) (2 ^ 1074) : ℚ) = R at hn ⊢
    have e : (k1 : ℚ) / S * (k2 / S) = (k1 : ℚ) * k2 / S / S := by
      field_simp
    rw [e]
    generalize (k1 : ℚ) * k2 / S = z at hn ⊢
    rw [← sub_div, abs_div, abs_of_pos hSq, ← mul_div_assoc, ← add_div]
    exact div_le_div_of_nonneg_right hn (le_of_lt hSq)

/-- The sum of two finite values that cannot overflow, with a bound on the result. -/
theorem add_abs (s1 s2 : Bool) (k1 k2 e : Nat) (h1 : k1 ≤ 2 ^ e) (h2 : k2 ≤ 2 ^ e)
    (he : e ≤ 2095) :
    ∃ s k, (fin s1 k1 : F64) + fin s2 k2 = fin s k ∧ k ≤ 2 ^ (e + 2) ∧
      |toRat (fin s k) - (toRat (fin s1 k1) + toRat (fin s2 k2))|
        ≤ U * |toRat (fin s1 k1) + toRat (fin s2 k2)| := by
  have e2 : 2 ^ (e + 2) = 4 * 2 ^ e := by rw [pow_add]; ring
  have hsum : k1 + k2 ≤ 2 ^ 2096 := by
    have : 2 ^ (e + 1) ≤ 2 ^ 2096 := Nat.pow_le_pow_right (by norm_num) (by omega)
    have e3 : 2 ^ (e + 1) = 2 * 2 ^ e := by rw [pow_succ]; ring
    rw [e3] at this
    omega
  obtain ⟨s, k, e1, hk, _, hb⟩ := add_signed s1 s2 k1 k2 hsum
  exact ⟨s, k, e1, by rw [e2]; omega, hb⟩

theorem sub_abs (s1 s2 : Bool) (k1 k2 e : Nat) (h1 : k1 ≤ 2 ^ e) (h2 : k2 ≤ 2 ^ e)
    (he : e ≤ 2095) :
    ∃ s k, (fin s1 k1 : F64) - fin s2 k2 = fin s k ∧ k ≤ 2 ^ (e + 2) ∧
      |toRat (fin s k) - (toRat (fin s1 k1) - toRat (fin s2 k2))|
        ≤ U * |toRat (fin s1 k1) - toRat (fin s2 k2)| := by
  have e2 : 2 ^ (e + 2) = 4 * 2 ^ e := by rw [pow_add]; ring
  have hsum : k1 + k2 ≤ 2 ^ 2096 := by
    have : 2 ^ (e + 1) ≤ 2 ^ 2096 := Nat.pow_le_pow_right (by norm_num) (by omega)
    have e3 : 2 ^ (e + 1) = 2 * 2 ^ e := by rw [pow_succ]; ring
    rw [e3] at this
    omega
  obtain ⟨s, k, e1, hk, _, hb⟩ := sub_signed s1 s2 k1 k2 hsum
  exact ⟨s, k, e1, by rw [e2]; omega, hb⟩

theorem two_eq : (2 : F64) = fin false (2 ^ 1075) := by decide!

theorem toRat_two : toRat (fin false (2 ^ 1075)) = 2 := by
  show val (2 ^ 1075) = 2
  unfold val
  rw [Nat.cast_pow, Nat.cast_ofNat, show (1075 : Nat) = 1074 + 1 from rfl, pow_succ]
  have hS : (0 : ℚ) < 2 ^ 1074 := pow_pos (by norm_num) _
  generalize (2 : ℚ) ^ 1074 = S at hS
  field_simp

/-- One `Reflect` on finite arguments that cannot overflow: the result is finite, its
size is bounded, and its components carry the rounding errors `ReflectErr`. -/
theorem reflect_step (sx sy sa sb : Bool) (kx ky ka kb E : Nat) (hE1 : 1074 ≤ E)
    (hE2 : E ≤ 1600) (hx : kx ≤ 2 ^ E) (hy : ky ≤ 2 ^ E) (ha : ka ≤ 2 ^ 1076)
    (hb : kb ≤ 2 ^ 1076) :
    ∃ sX kX sY kY, (⟨fin sx kx, fin sy ky⟩ : Vector2D).Reflect ⟨fin sa ka, fin sb kb⟩
        = ⟨fin sX kX, fin sY kY⟩ ∧ kX ≤ 2 ^ (E + 15) ∧ kY ≤ 2 ^ (E + 15) ∧
      ReflectErr (toRat (fin sx kx)) (toRat (fin sy ky)) (toRat (fin sa ka))
        (toRat (fin sb kb)) (toRat (fin sX kX)) (toRat (fin sY kY)) := by
  obtain ⟨j1, e1, b1, r1⟩ := mul_abs sx sa kx ka E 1076 hx ha (by omega) (by omega)
  obtain ⟨j2, e2, b2, r2⟩ := mul_abs sy sb ky kb E 1076 hy hb (by omega) (by omega)
  rw [show E + 1076 + 2 - 1074 = E + 4 by omega] at b1 b2
  obtain ⟨sd, kd, e3, b3, r3⟩ := add_abs (xor sx sa) (xor sy sb) j1 j2 (E + 4) b1 b2 (by omega)
  rw [show E + 4 + 2 = E + 6 by omega] at b3
  obtain ⟨jt, e4, b4, r4⟩ := mul_abs false sd (2 ^ 1075) kd 1075 (E + 6) le_rfl b3
    (by omega) (by omega)
  rw [show 1075 + (E + 6) + 2 - 1074 = E + 9 by omega] at b4
  rw [Bool.false_xor] at e4 r4
  rw [toRat_two] at r4
  obtain ⟨j5, e5, b5, r5⟩ := mul_abs sd sa jt ka (E + 9) 1076 b4 ha (by omega) (by omega)
  obtain ⟨j6, e6, b6, r6⟩ := mul_abs sd sb jt kb (E + 9) 1076 b4 hb (by omega) (by omega)
  rw [show E + 9 + 1076 + 2 - 1074 = E + 13 by omega] at b5 b6
  have hx' : kx ≤ 2 ^ (E + 13) := le_trans hx (Nat.pow_le_pow_right (by norm_num) (by omega))
  have hy' : ky ≤ 2 ^ (E + 13) := le_trans hy (Nat.pow_le_pow_right (by norm_num) (by omega))
  obtain ⟨sX, kX, e7, b7, r7⟩ := sub_abs sx (xor sd sa) kx j5 (E + 13) hx' b5 (by omega)
  obtain ⟨sY, kY, e8, b8, r8⟩ := sub_abs sy (xor sd sb) ky j6 (E + 13) hy' b6 (by omega)
  rw [show E + 13 + 2 = E + 15 by omega] at b7 b8
  refine ⟨sX, kX, sY, kY, ?_, b7, b8, ?_⟩
  · show (⟨fin sx kx - (2 * (fin sx kx * fin sa ka + fin sy ky * fin sb kb) * fin sa ka),
        fin sy ky - (2 * (fin sx kx * fin sa ka + fin sy ky * fin sb kb) * fin sb kb)⟩
          : Vector2D) = _
    rw [e1, e2, e3, two_eq, e4, e5, e6, e7, e8]
  · exact ⟨_, _, _, _, _, _, r1, r2, r3, r4, r5, r6, r7, r8⟩

theorem abs_le_sub_add (u v : ℚ) : |u| ≤ |u - v| + |v| := by
  have := abs_add (u - v) v
  rwa [sub_add_cancel] at this

theorem abs_mul_le_of {a A : ℚ} (h : |a| ≤ A) (u : ℚ) : |u * a| ≤ A * |u| := by
  rw [abs_mul, mul_comm]
  exact mul_le_mul_of_nonneg_right h (abs_nonneg u)

theorem abs_dot_le {a b A : ℚ} (ha : |a| ≤ A) (hb : |b| ≤ A) (u v : ℚ) :
    |u * a + v * b| ≤ A * (|u| + |v|) := by
  have h1 := abs_add (u * a) (v * b)
  have h2 := abs_mul_le_of ha u
  have h3 := abs_mul_le_of hb v
  linarith

/-- The error of one component of a reflection, from the errors of its operations. -/
theorem reflect_comp_arith (x y a b c z p1 p2 d t q X η : ℚ) (ha : |a| ≤ 5 / 4)
    (hb : |b| ≤ 5 / 4) (hc : |c| ≤ 5 / 4) (hη : 0 ≤ η) (hz : |z| ≤ |x| + |y|)
    (h1 : |p1 - x * a| ≤ U * |x * a| + η) (h2 : |p2 - y * b| ≤ U * |y * b| + η)
    (h3 : |d - (p1 + p2)| ≤ U * |p1 + p2|) (h4 : |t - 2 * d| ≤ U * |2 * d| + η)
    (h5 : |q - t * c| ≤ U * |t * c| + η) (h6 : |X - (z - q)| ≤ U * |z - q|) :
    |X - (z - 2 * (x * a + y * b) * c)| ≤ 20 * U * (|x| + |y|) + 8 * η := by
  have hU : U = 1 / 2 ^ 53 := rfl
  rw [hU] at h1 h2 h3 h4 h5 h6 ⊢
  have a1 := abs_mul_le_of ha x
  have a2 := abs_mul_le_of hb y
  have b1 := abs_le_sub_add p1 (x * a)
  have b2 := abs_le_sub_add p2 (y * b)
  have b3 := abs_add p1 p2
  have b4 := abs_le_sub_add d (p1 + p2)
  have b5 : |2 * d| = 2 * |d| := by rw [abs_mul]; norm_num
  rw [b5] at h4
  have b6 := abs_le_sub_add t (2 * d)
  rw [b5] at b6
  have a3 := abs_mul_le_of hc t
  have b7 := abs_le_sub_add q (t * c)
  have b8 : |z - q| ≤ |z| + |q| := abs_sub z q
  have c1 := abs_mul_le_of hc (t - 2 * d)
  have c2 := abs_mul_le_of hc (d - (p1 + p2))
  have c3 := abs_mul_le_of hc ((p1 - x * a) + (p2 - y * b))
  have c4 := abs_add (p1 - x * a) (p2 - y * b)
  have e : X - (z - 2 * (x * a + y * b) * c)
      = (X - (z - q)) + -(q - t * c) + -((t - 2 * d) * c) + -(2 * ((d - (p1 + p2)) * c))
        + -(2 * (((p1 - x * a) + (p2 - y * b)) * c)) := by ring
  have f := abs_add_three (X - (z - q)) (-(q - t * c)) (-((t - 2 * d) * c))
  have g1 := abs_add ((X - (z - q)) + -(q - t * c) + -((t - 2 * d) * c))
    (-(2 * ((d - (p1 + p2)) * c)))
  have g2 := abs_add ((X - (z - q)) + -(q - t * c) + -((t - 2 * d) * c)
    + -(2 * ((d - (p1 + p2)) * c))) (-(2 * (((p1 - x * a) + (p2 - y * b)) * c)))
  rw [← e] at g2
  simp only [abs_neg] at f g1 g2
  have k1 : |2 * ((d - (p1 + p2)) * c)| = 2 * |(d - (p1 + p2)) * c| := by
    rw [abs_mul]; norm_num
  have k2 : |2 * (((p1 - x * a) + (p2 - y * b)) * c)|
      = 2 * |((p1 - x * a) + (p2 - y * b)) * c| := by
    rw [abs_mul]; norm_num
  rw [k1] at g1
  rw [k2] at g2
  have n1 := abs_nonneg x
  have n2 := abs_nonneg y
  have n3 := abs_nonneg (x * a)
  have n4 := abs_nonneg (y * b)
  have n5 := abs_nonneg (p1 + p2)
  have n6 := abs_nonneg d
  have n7 := abs_nonneg t
  have n8 := abs_nonneg (t * c)
  have n9 := abs_nonneg q
  have n10 := abs_nonneg (z - q)
  have n11 := abs_nonneg z
  norm_num at h1 h2 h3 h4 h5 h6 ⊢
  linarith

/-- A normal whose computed `Dot(n, n)` is `1` has components of absolute value at most
`5/4` and exact squared length within `4 U` of `1`. -/
theorem unit_arith (a b pa pb η : ℚ) (hη' : η ≤ 1 / 2 ^ 56)
    (h1 : |pa - a * a| ≤ U * |a * a| + η) (h2 : |pb - b * b| ≤ U * |b * b| + η)
    (h3 : |1 - (pa + pb)| ≤ U * |pa + pb|) :
    |a * a + b * b - 1| ≤ 4 * U ∧ |a| ≤ 5 / 4 ∧ |b| ≤ 5 / 4 := by
  have hU : U = 1 / 2 ^ 53 := rfl
  rw [hU] at h1 h2 h3 ⊢
  have na : 0 ≤ a * a := mul_self_nonneg a
  have nb : 0 ≤ b * b := mul_self_nonneg b
  rw [abs_of_nonneg na] at h1
  rw [abs_of_nonneg nb] at h2
  rw [abs_le] at h1 h2
  have hP : 0 ≤ pa + pb := by
    by_contra hc
    push_neg at hc
    rw [abs_of_neg hc, abs_of_pos (by linarith)] at h3
    norm_num at h3
    linarith
  rw [abs_of_nonneg hP, abs_le] at h3
  norm_num at h1 h2 h3 hη' ⊢
  have hN : |a * a + b * b - 1| ≤ 4 / 9007199254740992 := by
    rw [abs_le]
    constructor <;> linarith
  refine ⟨by linarith, ?_, ?_⟩
  · have h4 := (abs_le.mp hN).2
    have : a * a ≤ (5 / 4) ^ 2 := by linarith
    exact abs_le_of_sq_le_sq' (by rw [sq]; exact this) (by norm_num) |> abs_le.mpr
  · have h4 := (abs_le.mp hN).2
    have : b * b ≤ (5 / 4) ^ 2 := by linarith
    exact abs_le_of_sq_le_sq' (by rw [sq]; exact this) (by norm_num) |> abs_le.mpr

/-- The exact reflection of a bounded vector is bounded. -/
theorem reflect_exact_bound (x y a b c z : ℚ) (ha : |a| ≤ 5 / 4) (hb : |b| ≤ 5 / 4)
    (hc : |c| ≤ 5 / 4) :
    |z - 2 * (x * a + y * b) * c| ≤ |z| + 25 / 8 * (|x| + |y|) := by
  have h1 := abs_dot_le ha hb x y
  have h2 := abs_mul_le_of hc (x * a + y * b)
  have h3 : |2 * (x * a + y * b) * c| = 2 * |(x * a + y * b) * c| := by
    rw [mul_assoc, abs_mul]; norm_num
  have h4 := abs_sub z (2 * (x * a + y * b) * c)
  rw [h3] at h4
  have := abs_nonneg (x * a + y * b)
  linarith

/-- The defect of the exact double reflection, for a normal of squared length near `1`. -/
theorem defect_bound (x y a b c : ℚ) (ha : |a| ≤ 5 / 4) (hb : |b| ≤ 5 / 4)
    (hc : |c| ≤ 5 / 4) (hN : |a * a + b * b - 1| ≤ 4 * U) :
    |4 * (x * a + y * b) * (1 - (a * a + b * b)) * c| ≤ 25 * U * (|x| + |y|) := by
  have h1 := abs_dot_le ha hb x y
  have hN' : |1 - (a * a + b * b)| ≤ 4 * U := by rw [abs_sub_comm]; exact hN
  have hm : 0 ≤ |x| + |y| := add_nonneg (abs_nonneg _) (abs_nonneg _)
  have hU : 0 ≤ U := le_of_lt U_pos
  have e : |4 * (x * a + y * b) * (1 - (a * a + b * b)) * c|
      = 4 * (|x * a + y * b| * |1 - (a * a + b * b)| * |c|) := by
    rw [abs_mul, abs_mul, abs_mul]; norm_num; ring
  rw [e]
  have k1 : |x * a + y * b| * |1 - (a * a + b * b)| ≤ (5 / 4 * (|x| + |y|)) * (4 * U) :=
    mul_le_mul h1 hN' (abs_nonneg _) (by positivity)
  have k2 : |x * a + y * b| * |1 - (a * a + b * b)| * |c|
      ≤ (5 / 4 * (|x| + |y|)) * (4 * U) * (5 / 4) :=
    mul_le_mul k1 hc (abs_nonneg _) (by positivity)
  have e2 : (5 / 4 * (|x| + |y|)) * (4 * U) * (5 / 4) = 25 / 4 * U * (|x| + |y|) := by ring
  rw [e2] at k2
  linarith

/-- One component of the double reflection, from the errors of the two steps. -/
theorem double_comp_arith (x y a b c z u v w X2 η : ℚ) (ha : |a| ≤ 5 / 4) (hb : |b| ≤ 5 / 4)
    (hc : |c| ≤ 5 / 4) (hN : |a * a + b * b - 1| ≤ 4 * U)
    (hη' : η ≤ U * (|x| + |y|))
    (h1u : |u - (x - 2 * (x * a + y * b) * a)| ≤ 20 * U * (|x| + |y|) + 8 * η)
    (h1v : |v - (y - 2 * (x * a + y * b) * b)| ≤ 20 * U * (|x| + |y|) + 8 * η)
    (hw : |w - (z - 2 * (x * a + y * b) * c)| ≤ 20 * U * (|x| + |y|) + 8 * η)
    (h2 : |X2 - (w - 2 * (u * a + v * b) * c)| ≤ 20 * U * (|u| + |v|) + 8 * η) :
    |X2 - z| ≤ (|x| + |y|) / 2 ^ 44 := by
  have hU : U = 1 / 2 ^ 53 := rfl
  have bu := reflect_exact_bound x y a b a x ha hb ha
  have bv := reflect_exact_bound x y a b b y ha hb hb
  have tu := abs_le_sub_add u (x - 2 * (x * a + y * b) * a)
  have tv := abs_le_sub_add v (y - 2 * (x * a + y * b) * b)
  have d1 := defect_bound x y a b c ha hb hc hN
  have p3 := abs_dot_le ha hb (u - (x - 2 * (x * a + y * b) * a))
    (v - (y - 2 * (x * a + y * b) * b))
  have p4 := abs_mul_le_of hc ((u - (x - 2 * (x * a + y * b) * a)) * a
    + (v - (y - 2 * (x * a + y * b) * b)) * b)
  have e : X2 - z = (X2 - (w - 2 * (u * a + v * b) * c))
      + (w - (z - 2 * (x * a + y * b) * c))
      + -(2 * (((u - (x - 2 * (x * a + y * b) * a)) * a
        + (v - (y - 2 * (x * a + y * b) * b)) * b) * c))
      + -(4 * (x * a + y * b) * (1 - (a * a + b * b)) * c) := by ring
  have f := abs_add_three (X2 - (w - 2 * (u * a + v * b) * c))
    (w - (z - 2 * (x * a + y * b) * c))
    (-(2 * (((u - (x - 2 * (x * a + y * b) * a)) * a
        + (v - (y - 2 * (x * a + y * b) * b)) * b) * c)))
  have g := abs_add ((X2 - (w - 2 * (u * a + v * b) * c))
      + (w - (z - 2 * (x * a + y * b) * c))
      + -(2 * (((u - (x - 2 * (x * a + y * b) * a)) * a
        + (v - (y - 2 * (x * a + y * b) * b)) * b) * c)))
    (-(4 * (x * a + y * b) * (1 - (a * a + b * b)) * c))
  rw [← e] at g
  simp only [abs_neg] at f g
  have k1 : |2 * (((u - (x - 2 * (x * a + y * b) * a)) * a
        + (v - (y - 2 * (x * a + y * b) * b)) * b) * c)|
      = 2 * |((u - (x - 2 * (x * a + y * b) * a)) * a
        + (v - (y - 2 * (x * a + y * b) * b)) * b) * c| := by
    rw [abs_mul]; norm_num
  rw [k1] at f
  have n1 := abs_nonneg x
  have n2 := abs_nonneg y
  have n3 := abs_nonneg u
  have n4 := abs_nonneg v
  have e44 : (|x| + |y|) / 2 ^ 44 = 512 * (1 / 2 ^ 53) * (|x| + |y|) := by ring
  rw [e44]
  rw [hU] at hη' h1u h1v hw h2 d1
  norm_num at hη' h1u h1v hw h2 d1 ⊢
  linarith

theorem sq_sum_le (x y : ℚ) : (|x| + |y|) * (|x| + |y|) ≤ 2 * (x * x + y * y) := by
  have h1 := mul_self_nonneg (|x| - |y|)
  have h2 : |x| * |x| = x * x := abs_mul_abs_self x
  have h3 : |y| * |y| = y * y := abs_mul_abs_self y
  nlinarith

/-- The difference of the squares of a value and its approximation. -/
theorem sq_diff_bound (u X1 m : ℚ) (hm : 0 ≤ m) (h1 : |u - X1| ≤ 28 * U * m)
    (h2 : |X1| ≤ 33 / 8 * m) : |u * u - X1 * X1| ≤ 232 * U * (m * m) := by
  have hU : U = 1 / 2 ^ 53 := rfl
  have e : u * u - X1 * X1 = (u - X1) * ((u - X1) + 2 * X1) := by ring
  rw [e, abs_mul]
  have k1 : |(u - X1) + 2 * X1| ≤ 28 * U * m + 33 / 4 * m := by
    have := abs_add (u - X1) (2 * X1)
    have e2 : |2 * X1| = 2 * |X1| := by rw [abs_mul]; norm_num
    rw [e2] at this
    linarith
  have k2 : |u - X1| * |(u - X1) + 2 * X1| ≤ (28 * U * m) * (28 * U * m + 33 / 4 * m) :=
    mul_le_mul h1 k1 (abs_nonneg _) (by rw [hU]; positivity)
  have e3 : (28 * U * m) * (28 * U * m + 33 / 4 * m) = 28 * U * (28 * U + 33 / 4) * (m * m) := by
    ring
  rw [e3] at k2
  have k3 : 28 * U * (28 * U + 33 / 4) * (m * m) ≤ 232 * U * (m * m) := by
    apply mul_le_mul_of_nonneg_right _ (mul_self_nonneg m)
    rw [hU]; norm_num
  linarith

/-- The exact reflection changes the squared length by the defect of the normal only. -/
theorem defect_sq_bound (x y a b : ℚ) (ha : |a| ≤ 5 / 4) (hb : |b| ≤ 5 / 4)
    (hN : |a * a + b * b - 1| ≤ 4 * U) :
    |(x - 2 * (x * a + y * b) * a) * (x - 2 * (x * a + y * b) * a)
        + (y - 2 * (x * a + y * b) * b) * (y - 2 * (x * a + y * b) * b) - (x * x + y * y)|
      ≤ 25 * U * ((|x| + |y|) * (|x| + |y|)) := by
  have h1 := abs_dot_le ha hb x y
  have hN' : |1 - (a * a + b * b)| ≤ 4 * U := by rw [abs_sub_comm]; exact hN
  have hm : 0 ≤ |x| + |y| := add_nonneg (abs_nonneg _) (abs_nonneg _)
  have hU : 0 ≤ U := le_of_lt U_pos
  have e : (x - 2 * (x * a + y * b) * a) * (x - 2 * (x * a + y * b) * a)
        + (y - 2 * (x * a + y * b) * b) * (y - 2 * (x * a + y * b) * b) - (x * x + y * y)
      = -(4 * ((x * a + y * b) * (x * a + y * b) * (1 - (a * a + b * b)))) := by ring
  rw [e, abs_neg]
  have e2 : |4 * ((x * a + y * b) * (x * a + y * b) * (1 - (a * a + b * b)))|
      = 4 * (|x * a + y * b| * |x * a + y * b| * |1 - (a * a + b * b)|) := by
    rw [abs_mul, abs_mul, abs_mul]; norm_num
  rw [e2]
  have k1 : |x * a + y * b| * |x * a + y * b| ≤ (5 / 4 * (|x| + |y|)) * (5 / 4 * (|x| + |y|)) :=
    mul_le_mul h1 h1 (abs_nonneg _) (by positivity)
  have k2 : |x * a + y * b| * |x * a + y * b| * |1 - (a * a + b * b)|
      ≤ (5 / 4 * (|x| + |y|)) * (5 / 4 * (|x| + |y|)) * (4 * U) :=
    mul_le_mul k1 hN' (abs_nonneg _) (by positivity)
  have e3 : (5 / 4 * (|x| + |y|)) * (5 / 4 * (|x| + |y|)) * (4 * U)
      = 25 / 4 * U * ((|x| + |y|) * (|x| + |y|)) := by ring
  rw [e3] at k2
  linarith

/-- The squared length after one computed reflection, from the errors of the step and
of the two computations of the squared length. -/
theorem mag_arith (x y a b u v J J1 η : ℚ) (ha : |a| ≤ 5 / 4) (hb : |b| ≤ 5 / 4)
    (hN : |a * a + b * b - 1| ≤ 4 * U) (hη : 0 ≤ η) (hη1 : η ≤ U * (|x| + |y|))
    (hη2 : η ≤ U * (x * x + y * y))
    (h1u : |u - (x - 2 * (x * a + y * b) * a)| ≤ 20 * U * (|x| + |y|) + 8 * η)
    (h1v : |v - (y - 2 * (x * a + y * b) * b)| ≤ 20 * U * (|x| + |y|) + 8 * η)
    (hJ : |J - (x * x + y * y)| ≤ 5 * U * (x * x + y * y) + 3 * η)
    (hJ1 : |J1 - (u * u + v * v)| ≤ 5 * U * (u * u + v * v) + 3 * η) :
    |J1 - J| ≤ (x * x + y * y) / 2 ^ 43 := by
  have hU : U = 1 / 2 ^ 53 := rfl
  have hm : 0 ≤ |x| + |y| := add_nonneg (abs_nonneg _) (abs_nonneg _)
  have hs := sq_sum_le x y
  have bu := reflect_exact_bound x y a b a x ha hb ha
  have bv := reflect_exact_bound x y a b b y ha hb hb
  have n1 := abs_nonneg x
  have n2 := abs_nonneg y
  have eu : |u - (x - 2 * (x * a + y * b) * a)| ≤ 28 * U * (|x| + |y|) := by linarith
  have ev : |v - (y - 2 * (x * a + y * b) * b)| ≤ 28 * U * (|x| + |y|) := by linarith
  have su := sq_diff_bound u _ (|x| + |y|) hm eu (by linarith)
  have sv := sq_diff_bound v _ (|x| + |y|) hm ev (by linarith)
  have dd := defect_sq_bound x y a b ha hb hN
  generalize x - 2 * (x * a + y * b) * a = X1 at su dd
  generalize y - 2 * (x * a + y * b) * b = Y1 at sv dd
  generalize (|x| + |y|) * (|x| + |y|) = M2 at hs su sv dd
  generalize x * x + y * y = s at hs hη2 hJ dd ⊢
  have e : J1 - J = (J1 - (u * u + v * v)) + (u * u - X1 * X1) + (v * v - Y1 * Y1)
      + (X1 * X1 + Y1 * Y1 - s) + -(J - s) := by ring
  have f1 := abs_add_three (J1 - (u * u + v * v)) (u * u - X1 * X1) (v * v - Y1 * Y1)
  have f2 := abs_add_three ((J1 - (u * u + v * v)) + (u * u - X1 * X1) + (v * v - Y1 * Y1))
    (X1 * X1 + Y1 * Y1 - s) (-(J - s))
  rw [← e, abs_neg] at f2
  have uv : u * u + v * v = s + (u * u - X1 * X1) + (v * v - Y1 * Y1)
      + (X1 * X1 + Y1 * Y1 - s) := by ring
  have auv : u * u + v * v ≤ s + |u * u - X1 * X1| + |v * v - Y1 * Y1|
      + |X1 * X1 + Y1 * Y1 - s| := by
    have a1 := le_abs_self (u * u - X1 * X1)
    have a2 := le_abs_self (v * v - Y1 * Y1)
    have a3 := le_abs_self (X1 * X1 + Y1 * Y1 - s)
    linarith
  have e43 : s / 2 ^ 43 = 1024 * (1 / 2 ^ 53) * s := by ring
  rw [e43]
  rw [hU] at hη2 hJ hJ1 su sv dd
  norm_num at hη2 hJ hJ1 su sv dd ⊢
  have n3 := abs_nonneg (u * u - X1 * X1)
  have n4 := abs_nonneg (v * v - Y1 * Y1)
  have n5 := abs_nonneg (X1 * X1 + Y1 * Y1 - s)
  linarith

theorem eta_le_56 : Eta ≤ 1 / 2 ^ 56 := by
  unfold Eta
  exact one_div_le_one_div_of_le (pow_pos (by norm_num) _)
    (pow_le_pow_right₀ (by norm_num) (by norm_num))

theorem eta_le_253 : Eta ≤ U * (1 / 2 ^ 200) := by
  unfold Eta U
  rw [div_mul_div_comm, one_mul, ← pow_add]
  exact one_div_le_one_div_of_le (pow_pos (by norm_num) _)
    (pow_le_pow_right₀ (by norm_num) (by norm_num))

theorem eta_le_153 : Eta ≤ U * (1 / 2 ^ 100) := by
  unfold Eta U
  rw [div_mul_div_comm, one_mul, ← pow_add]
  exact one_div_le_one_div_of_le (pow_pos (by norm_num) _)
    (pow_le_pow_right₀ (by norm_num) (by norm_num))

theorem toRat_mul_self (s : Bool) (k : Nat) :
    toRat (fin s k) * toRat (fin s k) = val k * val k := by
  have := toRat_sq s k
  rw [sq, sq] at this
  exact this

theorem toRat_zero (s : Bool) : toRat (fin s 0) = 0 := by
  cases s
  · exact val_zero
  · show -val 0 = 0
    rw [val_zero, neg_zero]

/-- The computed square `math.Pow(x, 2)` of a finite value that cannot overflow. -/
theorem pow2_abs (s : Bool) (k e : Nat) (hk : k ≤ 2 ^ e) (he1 : 537 ≤ e) (he2 : e ≤ 1500) :
    ∃ j, pow2 (fin s k) = fin false j ∧ j ≤ 2 ^ (2 * e + 3 - 1074) ∧
      |val j - val k * val k| ≤ 3 * U * (val k * val k) + Eta := by
  have hS : 0 < 2 ^ 1074 := pow_pos (by norm_num) _
  have hP : k * k ≤ 2 ^ (2 * e) := by
    rw [two_mul, pow_add]; exact Nat.mul_le_mul hk hk
  have hn1 := rnd_near (k * k) 1 (by norm_num) (Or.inr (one_dvd _))
  have hle1 : rnd (k * k) 1 ≤ 2 * (k * k) := by
    have := rnd_mul_le (k * k) 1 (by norm_num) (Or.inr (one_dvd _))
    rwa [Nat.mul_one] at this
  have hSP : 2 ^ 1074 ≤ 2 ^ (2 * e) := Nat.pow_le_pow_right (by norm_num) (by omega)
  have hov : rnd (k * k) 1 ≤ 2 ^ 2096 * 2 ^ 1074 := by
    rw [← pow_add]
    have : 2 ^ (2 * e + 1) ≤ 2 ^ (2096 + 1074) := Nat.pow_le_pow_right (by norm_num) (by omega)
    have e3 : 2 ^ (2 * e + 1) = 2 * 2 ^ (2 * e) := by rw [pow_succ]; ring
    rw [e3] at this
    omega
  refine ⟨rnd (rnd (k * k) 1) (2 ^ 1074), ?_, ?_, ?_⟩
  · rw [show pow2 (fin s k) = pack false (rnd (rnd (k * k) 1) (2 ^ 1074)) from rfl]
    exact pack_of_lt (rnd_lt_gen _ _ hS hov)
  · have hb := (rnd_bounds_abs (rnd (k * k) 1) (2 ^ 1074) hS).2
    have e3 : 2 ^ (2 * e + 3 - 1074) * 2 ^ 1074 = 8 * 2 ^ (2 * e) := by
      rw [← pow_add]
      have : 2 * e + 3 - 1074 + 1074 = 2 * e + 3 := by omega
      rw [this, pow_add]; ring
    apply Nat.le_of_mul_le_mul_right _ hS
    rw [e3]
    generalize rnd (rnd (k * k) 1) (2 ^ 1074) * 2 ^ 1074 = R at hb ⊢
    generalize rnd (k * k) 1 = n1 at hb hle1
    generalize (2 : Nat) ^ 1074 = S at hb hSP
    generalize (2 : Nat) ^ (2 * e) = P at hP hSP
    generalize k * k = n at hP hle1
    omega
  · have hn := rnd_abs (rnd (k * k) 1) (2 ^ 1074) hS
    rw [eta_eq]
    simp only [val, Nat.cast_mul, Nat.cast_pow, Nat.cast_ofNat, Nat.cast_one, div_one]
      at hn hn1 ⊢
    have hSq : (0 : ℚ) < 2 ^ 1074 := pow_pos (by norm_num) _
    generalize (2 : ℚ) ^ 1074 = S at hn hSq ⊢
    generalize (rnd (rnd (k * k) 1) (2 ^ 1074) : ℚ) = R at hn ⊢
    generalize (rnd (k * k) 1 : ℚ) = n1 at hn hn1
    have hk0 : (0 : ℚ) ≤ (k : ℚ) * k := mul_nonneg (Nat.cast_nonneg k) (Nat.cast_nonneg k)
    have e : (k : ℚ) / S * (k / S) = (k : ℚ) * k / S / S := by
      field_simp
    rw [e]
    generalize (k : ℚ) * k = n at hn1 hk0 ⊢
    have hU : U = 1 / 2 ^ 53 := rfl
    have h1 := hn1.1
    have h2 := hn1.2
    have key : |R - n / S| ≤ 3 * U * (n / S) + 1 / 2 := by
      have t1 := abs_add (R - n1 / S) (n1 / S - n / S)
      rw [sub_add_sub_cancel] at t1
      have t2 : |n1 / S - n / S| ≤ U * (n / S) := by
        rw [← sub_div, abs_div, abs_of_pos hSq, ← mul_div_assoc]
        apply div_le_div_of_nonneg_right _ (le_of_lt hSq)
        rw [abs_le]
        constructor <;> linarith
      have t3 : n1 / S ≤ (n / S) * (1 + U) := by
        rw [div_mul_eq_mul_div]
        exact div_le_div_of_nonneg_right h2 (le_of_lt hSq)
      have t4 : 0 ≤ n / S := div_nonneg hk0 (le_of_lt hSq)
      rw [hU] at hn t2 t3 ⊢
      norm_num at hn t2 t3 ⊢
      linarith
    generalize n / S = z at key ⊢
    rw [← sub_div, abs_div, abs_of_pos hSq, ← mul_div_assoc, ← add_div]
    exact div_le_div_of_nonneg_right key (le_of_lt hSq)

/-- The computed `MagnitudeSquared` of a finite vector that cannot overflow. -/
theorem magSq_abs (sx sy : Bool) (kx ky e : Nat) (hx : kx ≤ 2 ^ e) (hy : ky ≤ 2 ^ e)
    (he1 : 537 ≤ e) (he2 : e ≤ 1500) :
    ∃ s j, (⟨fin sx kx, fin sy ky⟩ : Vector2D).MagnitudeSquared = fin s j ∧
      |toRat (fin s j) - (toRat (fin sx kx) * toRat (fin sx kx)
          + toRat (fin sy ky) * toRat (fin sy ky))|
        ≤ 5 * U * (toRat (fin sx kx) * toRat (fin sx kx)
          + toRat (fin sy ky) * toRat (fin sy ky)) + 3 * Eta := by
  obtain ⟨jx, ex, bx, rx⟩ := pow2_abs sx kx e hx he1 he2
  obtain ⟨jy, ey, bY, ry⟩ := pow2_abs sy ky e hy he1 he2
  obtain ⟨s, j, ea, _, ra⟩ := add_abs false false jx jy (2 * e + 3 - 1074) bx bY (by omega)
  refine ⟨s, j, ?_, ?_⟩
  · show pow2 (fin sx kx) + pow2 (fin sy ky) = fin s j
    rw [ex, ey, ea]
  · rw [toRat_mul_self, toRat_mul_self]
    have hU : U = 1 / 2 ^ 53 := rfl
    have hη := eta_nonneg
    have px : toRat (fin false jx) = val jx := rfl
    have py : toRat (fin false jy) = val jy := rfl
    rw [px, py] at ra
    have nx : 0 ≤ val kx * val kx := mul_self_nonneg _
    have ny : 0 ≤ val ky * val ky := mul_self_nonneg _
    generalize val kx * val kx = X2 at rx nx ⊢
    generalize val ky * val ky = Y2 at ry ny ⊢
    generalize toRat (fin s j) = J at ra ⊢
    generalize val jx = p at rx ra
    generalize val jy = q at ry ra
    generalize Eta = η at rx ry hη ⊢
    have t1 := abs_add (J - (p + q)) ((p - X2) + (q - Y2))
    have e1 : J - (p + q) + ((p - X2) + (q - Y2)) = J - (X2 + Y2) := by ring
    rw [e1] at t1
    have t2 := abs_add (p - X2) (q - Y2)
    have t3 : |p + q| ≤ |p - X2| + |q - Y2| + (X2 + Y2) := by
      have := abs_add ((p - X2) + (q - Y2)) (X2 + Y2)
      have e2 : (p - X2) + (q - Y2) + (X2 + Y2) = p + q := by ring
      rw [e2, abs_of_nonneg (add_nonneg nx ny)] at this
      linarith
    rw [hU] at rx ry ra ⊢
    norm_num at rx ry ra ⊢
    have n1 := abs_nonneg (p - X2)
    have n2 := abs_nonneg (q - Y2)
    linarith

/-- Reflecting the zero vector gives a zero vector, exactly. -/
theorem reflect_zero (sx sy sa sb : Bool) (ka kb : Nat) :
    ∃ s1 s2, (⟨fin sx 0, fin sy 0⟩ : Vector2D).Reflect ⟨fin sa ka, fin sb kb⟩
      = ⟨fin s1 0, fin s2 0⟩ := by
  have hadd : ∀ s1 s2 : Bool, (fin s1 0 : F64) + fin s2 0 = fin (s1 && s2) 0 := by
    intro s1 s2
    have h0 : toInt s1 0 + toInt s2 0 = 0 := by cases s1 <;> cases s2 <;> simp [toInt]
    rw [show (fin s1 0 : F64) + fin s2 0 =
      if toInt s1 0 + toInt s2 0 = 0 then fin (s1 && s2) 0
      else pack (decide (toInt s1 0 + toInt s2 0 < 0)) (rnd (toInt s1 0 + toInt s2 0).natAbs 1)
      from rfl, if_pos h0]
  have hsub : ∀ s1 s2 : Bool, (fin s1 0 : F64) - fin s2 0 = fin (s1 && !s2) 0 := by
    intro s1 s2
    exact hadd s1 (!s2)
  show ∃ s1 s2, (⟨fin sx 0 - (2 * (fin sx 0 * fin sa ka + fin sy 0 * fin sb kb) * fin sa ka),
        fin sy 0 - (2 * (fin sx 0 * fin sa ka + fin sy 0 * fin sb kb) * fin sb kb)⟩
          : Vector2D) = ⟨fin s1 0, fin s2 0⟩
  rw [mul_zero_mag sx sa 0 ka (Or.inl rfl), mul_zero_mag sy sb 0 kb (Or.inl rfl), hadd,
    two_eq, mul_zero_mag false _ (2 ^ 1075) 0 (Or.inr rfl),
    mul_zero_mag _ sa 0 ka (Or.inl rfl), mul_zero_mag _ sb 0 kb (Or.inl rfl), hsub, hsub]
  exact ⟨_, _, rfl⟩

theorem pack_cases (s : Bool) (j : Nat) :
    (pack s j = fin s j ∧ j < 2 ^ 2098) ∨ pack s j = inf s := by
  by_cases h : j < 2 ^ 2098
  · left; exact ⟨pack_of_lt h, h⟩
  · right; unfold pack; rw [if_neg h]

theorem beq_one_fin (s : Bool) (k : Nat) (h : ((fin s k : F64) == 1) = true) :
    k = 2 ^ 1074 ∧ toRat (fin s k) = 1 := by
  rw [one_eq] at h
  have h1 := (beq_fin_iff _ _ _ _).mp h
  have h2 : toRat (fin s k) = 1 := by
    rw [toRat_eq, h1, ← toRat_eq]
    exact val_one
  refine ⟨?_, h2⟩
  have hS : 0 < 2 ^ 1074 := pow_pos (by norm_num) _
  generalize 2 ^ 1074 = S at h1 hS
  cases s
  · simp [toInt] at h1
    exact h1
  · simp [toInt] at h1
    omega

theorem not_inf_beq_one (s : Bool) : ((inf s : F64) == 1) = false := by
  rw [one_eq]; rfl

theorem not_nan_beq_one : ((nan : F64) == 1) = false := by
  rw [one_eq]; rfl

theorem mul_self_pack (s : Bool) (k : Nat) :
    (fin s k : F64) * fin s k = pack false (rnd (k * k) (2 ^ 1074)) := by
  rw [show (fin s k : F64) * fin s k = pack (xor s s) (rnd (k * k) (2 ^ 1074)) from rfl]
  cases s <;> rfl

theorem pack_add_inf (j : Nat) : pack false j + inf false = inf false := by
  rcases pack_cases false j with ⟨h, _⟩ | h <;> rw [h] <;> rfl

theorem inf_add_pack (j : Nat) : inf false + pack false j = inf false := by
  rcases pack_cases false j with ⟨h, _⟩ | h <;> rw [h] <;> rfl

/-- A square that rounds to at most `2^1075` units is at most `2^2150`. -/
theorem sq_le_of_rnd_le (k : Nat) (h : rnd (k * k) (2 ^ 1074) ≤ 2 ^ 1075) : k ≤ 2 ^ 1075 := by
  have hS : 0 < 2 ^ 1074 := pow_pos (by norm_num) _
  have hkk : k * k ≤ 2 ^ 1075 * 2 ^ 1075 := by
    by_cases hnorm : 2 ^ 52 * 2 ^ 1074 ≤ k * k
    · have h1 := le_two_rnd_mul (k * k) (2 ^ 1074) hS (Or.inl hnorm)
      calc k * k ≤ 2 * (rnd (k * k) (2 ^ 1074) * 2 ^ 1074) := h1
        _ ≤ 2 * (2 ^ 1075 * 2 ^ 1074) := Nat.mul_le_mul_left _ (Nat.mul_le_mul_right _ h)
        _ = 2 ^ 1075 * 2 ^ 1075 := by
            rw [show (1075 : Nat) = 1074 + 1 from rfl, pow_succ]; ring
    · have h1 : k * k < 2 ^ 52 * 2 ^ 1074 := not_le.mp hnorm
      have h2 : 2 ^ 52 * 2 ^ 1074 ≤ 2 ^ 1075 * 2 ^ 1075 := by
        rw [← pow_add, ← pow_add]
        exact Nat.pow_le_pow_right (by norm_num) (by norm_num)
      exact le_of_lt (lt_of_lt_of_le h1 h2)
  exact Nat.mul_self_le_mul_self_iff.mp hkk

theorem sum_le_of_beq_one (jP jQ : Nat)
    (hn : ((fin false jP : F64) + fin false jQ == 1) = true) : jP + jQ ≤ 2 ^ 1075 := by
  rw [show (fin false jP : F64) + fin false jQ =
    if ((jP : Int) + (jQ : Int)) = 0 then fin (false && false) 0
    else pack (decide ((jP : Int) + (jQ : Int) < 0)) (rnd ((jP : Int) + (jQ : Int)).natAbs 1)
    from rfl] at hn
  have hS : 0 < 2 ^ 1074 := pow_pos (by norm_num) _
  by_cases hi : ((jP : Int) + (jQ : Int)) = 0
  · rw [if_pos hi] at hn
    have := (beq_one_fin _ _ hn).1
    omega
  · rw [if_neg hi] at hn
    have habs : ((jP : Int) + (jQ : Int)).natAbs = jP + jQ := by omega
    rw [habs] at hn
    rcases pack_cases (decide ((jP : Int) + (jQ : Int) < 0)) (rnd (jP + jQ) 1) with ⟨h, _⟩ | h
    · rw [h] at hn
      have h1 := (beq_one_fin _ _ hn).1
      have h2 := le_two_rnd_mul (jP + jQ) 1 (by norm_num) (Or.inr (one_dvd _))
      rw [Nat.mul_one, h1] at h2
      rw [show (1075 : Nat) = 1074 + 1 from rfl, pow_succ]
      omega
    · rw [h, not_inf_beq_one] at hn
      exact absurd hn (by decide)

/-- A finite normal whose computed `Dot(n, n)` is `1` has components of size at most
`2`. -/
theorem dot_unit_size (sa sb : Bool) (ka kb : Nat)
    (hn : ((⟨fin sa ka, fin sb kb⟩ : Vector2D).Dot ⟨fin sa ka, fin sb kb⟩ == 1) = true) :
    ka ≤ 2 ^ 1075 ∧ kb ≤ 2 ^ 1075 := by
  have hd : (⟨fin sa ka, fin sb kb⟩ : Vector2D).Dot ⟨fin sa ka, fin sb kb⟩
      = pack false (rnd (ka * ka) (2 ^ 1074)) + pack false (rnd (kb * kb) (2 ^ 1074)) := by
    show (fin sa ka : F64) * fin sa ka + fin sb kb * fin sb kb = _
    rw [mul_self_pack, mul_self_pack]
  rw [hd] at hn
  rcases pack_cases false (rnd (ka * ka) (2 ^ 1074)) with ⟨hP, _⟩ | hP
  · rcases pack_cases false (rnd (kb * kb) (2 ^ 1074)) with ⟨hQ, _⟩ | hQ
    · rw [hP, hQ] at hn
      have h := sum_le_of_beq_one _ _ hn
      exact ⟨sq_le_of_rnd_le ka (by omega), sq_le_of_rnd_le kb (by omega)⟩
    · rw [hP, hQ, show (fin false (rnd (ka * ka) (2 ^ 1074)) : F64) + inf false = inf false
        from rfl, not_inf_beq_one] at hn
      exact absurd hn (by decide)
  · rw [hP, inf_add_pack, not_inf_beq_one] at hn
    exact absurd hn (by decide)

/-- A normal whose computed `Dot(n, n)` is `1` is finite, its components have absolute
value at most `5/4`, and its exact squared length is within `4 U` of `1`. -/
theorem unit_normal (n : Vector2D) (hn : (n.Dot n == 1) = true) :
    ∃ sa sb ka kb, n = ⟨fin sa ka, fin sb kb⟩ ∧ ka ≤ 2 ^ 1076 ∧ kb ≤ 2 ^ 1076 ∧
      |toRat (fin sa ka)| ≤ 5 / 4 ∧ |toRat (fin sb kb)| ≤ 5 / 4 ∧
      |toRat (fin sa ka) * toRat (fin sa ka) + toRat (fin sb kb) * toRat (fin sb kb) - 1|
        ≤ 4 * U := by
  obtain ⟨x, y⟩ := n
  have hn' : (x * x + y * y == 1) = true := hn
  cases x with
  | fin sa ka =>
    cases y with
    | fin sb kb =>
      obtain ⟨ha, hb⟩ := dot_unit_size sa sb ka kb hn
      obtain ⟨jP, eP, bP, rP⟩ := mul_abs sa sa ka ka 1075 1075 ha ha (by norm_num) (by norm_num)
      obtain ⟨jQ, eQ, bQ, rQ⟩ := mul_abs sb sb kb kb 1075 1075 hb hb (by norm_num) (by norm_num)
      obtain ⟨s, k, eS, _, rS⟩ := add_abs (xor sa sa) (xor sb sb) jP jQ
        (1075 + 1075 + 2 - 1074) bP bQ (by norm_num)
      rw [eP, eQ, eS] at hn'
      rw [(beq_one_fin s k hn').2] at rS
      obtain ⟨h1, h2, h3⟩ := unit_arith _ _ _ _ Eta eta_le_56 rP rQ rS
      have hmono : (2 : Nat) ^ 1075 ≤ 2 ^ 1076 := Nat.pow_le_pow_right (by norm_num) (by norm_num)
      exact ⟨sa, sb, ka, kb, rfl, le_trans ha hmono, le_trans hb hmono, h2, h3, h1⟩
    | inf s =>
      exfalso
      rw [mul_self_pack, show (inf s : F64) * inf s = inf false by cases s <;> rfl,
        pack_add_inf, not_inf_beq_one] at hn'
      exact absurd hn' (by decide)
    | nan =>
      exfalso
      rw [mul_self_pack, show (nan : F64) * nan = nan from rfl] at hn'
      have : pack false (rnd (ka * ka) (2 ^ 1074)) + nan = nan := by
        rcases pack_cases false (rnd (ka * ka) (2 ^ 1074)) with ⟨h, _⟩ | h <;> rw [h] <;> rfl
      rw [this, not_nan_beq_one] at hn'
      exact absurd hn' (by decide)
  | inf s =>
    exfalso
    rw [show (inf s : F64) * inf s = inf false by cases s <;> rfl] at hn'
    cases y with
    | fin sb kb =>
      rw [mul_self_pack, inf_add_pack, not_inf_beq_one] at hn'
      exact absurd hn' (by decide)
    | inf s2 =>
      rw [show (inf s2 : F64) * inf s2 = inf false by cases s2 <;> rfl,
        show (inf false : F64) + inf false = inf false from rfl, not_inf_beq_one] at hn'
      exact absurd hn' (by decide)
    | nan =>
      rw [show (nan : F64) * nan = nan from rfl, show (inf false : F64) + nan = nan from rfl,
        not_nan_beq_one] at hn'
      exact absurd hn' (by decide)
  | nan =>
    exfalso
    rw [show (nan : F64) * nan = nan from rfl] at hn'
    have : (nan : F64) + y * y = nan := by
      generalize y * y = q
      cases q <;> rfl
    rw [this, not_nan_beq_one] at hn'
    exact absurd hn' (by decide)

theorem moderate_le {k : Nat} (h : Moderate k) : k ≤ 2 ^ 1174 := by
  rcases h with h | ⟨_, h⟩
  · rw [h]; exact Nat.zero_le _
  · exact h

/-- The sum of the absolute values and the sum of the squares of a non-zero vector with
moderate components dominate the absolute error `Eta`. -/
theorem eta_absorb (kx ky : Nat) (hx : Moderate kx) (hy : Moderate ky)
    (hne : ¬ (kx = 0 ∧ ky = 0)) :
    Eta ≤ U * (val kx + val ky) ∧ Eta ≤ U * (val kx * val kx + val ky * val ky) := by
  have hU : 0 ≤ U := le_of_lt U_pos
  have nx := val_nonneg kx
  have ny := val_nonneg ky
  have key : ∀ k : Nat, Moderate k → k ≠ 0 →
      (1 : ℚ) / 2 ^ 100 ≤ val k ∧ (1 : ℚ) / 2 ^ 200 ≤ val k * val k := by
    intro k hk h0
    rcases hk.val with h | ⟨h1, _⟩
    · exact absurd h h0
    · refine ⟨h1, ?_⟩
      have : (1 : ℚ) / 2 ^ 200 = (1 / 2 ^ 100) * (1 / 2 ^ 100) := by norm_num
      rw [this]
      exact mul_le_mul h1 h1 (by norm_num) (val_nonneg k)
  have hcase : kx ≠ 0 ∨ ky ≠ 0 := by
    by_contra hc
    push_neg at hc
    exact hne hc
  have sx := mul_self_nonneg (val kx)
  have sy := mul_self_nonneg (val ky)
  rcases hcase with h | h
  · obtain ⟨k1, k2⟩ := key kx hx h
    constructor
    · calc Eta ≤ U * (1 / 2 ^ 100) := eta_le_153
        _ ≤ U * (val kx + val ky) := mul_le_mul_of_nonneg_left (by linarith) hU
    · calc Eta ≤ U * (1 / 2 ^ 200) := eta_le_253
        _ ≤ U * (val kx * val kx + val ky * val ky) :=
            mul_le_mul_of_nonneg_left (by linarith) hU
  · obtain ⟨k1, k2⟩ := key ky hy h
    constructor
    · calc Eta ≤ U * (1 / 2 ^ 100) := eta_le_153
        _ ≤ U * (val kx + val ky) := mul_le_mul_of_nonneg_left (by linarith) hU
    · calc Eta ≤ U * (1 / 2 ^ 200) := eta_le_253
        _ ≤ U * (val kx * val kx + val ky * val ky) :=
            mul_le_mul_of_nonneg_left (by linarith) hU

/-- Reflecting twice off a unit normal returns the vector, and reflecting once keeps the
squared length, up to rounding. -/
theorem reflect_twice_near (sx sy sa sb : Bool) (kx ky ka kb : Nat) (hx : Moderate kx)
    (hy : Moderate ky) (ha : ka ≤ 2 ^ 1076) (hb : kb ≤ 2 ^ 1076)
    (hA : |toRat (fin sa ka)| ≤ 5 / 4) (hB : |toRat (fin sb kb)| ≤ 5 / 4)
    (hN : |toRat (fin sa ka) * toRat (fin sa ka) + toRat (fin sb kb) * toRat (fin sb kb) - 1|
      ≤ 4 * U) :
    ∃ s1 k1 s2 k2 s3 k3 s4 k4,
      (((⟨fin sx kx, fin sy ky⟩ : Vector2D).Reflect ⟨fin sa ka, fin sb kb⟩).Reflect
        ⟨fin sa ka, fin sb kb⟩) = ⟨fin s1 k1, fin s2 k2⟩ ∧
      ((⟨fin sx kx, fin sy ky⟩ : Vector2D).Reflect ⟨fin sa ka, fin sb kb⟩).MagnitudeSquared
        = fin s3 k3 ∧
      (⟨fin sx kx, fin sy ky⟩ : Vector2D).MagnitudeSquared = fin s4 k4 ∧
      |toRat (fin s1 k1) - toRat (fin sx kx)|
        ≤ (|toRat (fin sx kx)| + |toRat (fin sy ky)|) / 2 ^ 44 ∧
      |toRat (fin s2 k2) - toRat (fin sy ky)|
        ≤ (|toRat (fin sx kx)| + |toRat (fin sy ky)|) / 2 ^ 44 ∧
      |toRat (fin s3 k3) - toRat (fin s4 k4)|
        ≤ (toRat (fin sx kx) * toRat (fin sx kx) + toRat (fin sy ky) * toRat (fin sy ky))
          / 2 ^ 43 := by
  by_cases hz : kx = 0 ∧ ky = 0
  · obtain ⟨h1, h2⟩ := hz
    subst h1; subst h2
    obtain ⟨t1, t2, e1⟩ := reflect_zero sx sy sa sb ka kb
    obtain ⟨t3, t4, e2⟩ := reflect_zero t1 t2 sa sb ka kb
    have m0 : ∀ s1 s2 : Bool, (⟨fin s1 0, fin s2 0⟩ : Vector2D).MagnitudeSquared = fin false 0 := by
      intro s1 s2
      show pow2 (fin s1 0) + pow2 (fin s2 0) = fin false 0
      rw [pow2_zero, pow2_zero]
      rfl
    refine ⟨t3, 0, t4, 0, false, 0, false, 0, ?_, ?_, m0 sx sy, ?_, ?_, ?_⟩
    · rw [e1, e2]
    · rw [e1, m0]
    · rw [toRat_zero, toRat_zero, toRat_zero]; norm_num
    · rw [toRat_zero, toRat_zero, toRat_zero]; norm_num
    · rw [toRat_zero, toRat_zero, toRat_zero]; norm_num
  · have hη := eta_absorb kx ky hx hy hz
    rw [← abs_toRat sx kx, ← abs_toRat sy ky] at hη
    have hη2 := hη.2
    rw [abs_mul_abs_self, abs_mul_abs_self] at hη2
    obtain ⟨sX, kX, sY, kY, eR, bX, bY, p1, p2, d, t, q1, q2, r1, r2, r3, r4, r5, r6, r7, r8⟩ :=
      reflect_step sx sy sa sb kx ky ka kb 1174 (by norm_num) (by norm_num) (moderate_le hx)
        (moderate_le hy) ha hb
    obtain ⟨s1, k1, s2, k2, eRR, _, _, p1', p2', d', t', q1', q2', r1', r2', r3', r4', r5', r6',
        r7', r8'⟩ :=
      reflect_step sX sY sa sb kX kY ka kb (1174 + 15) (by norm_num) (by norm_num) bX bY ha hb
    obtain ⟨s4, k4, eJ, rJ⟩ := magSq_abs sx sy kx ky 1174 (moderate_le hx) (moderate_le hy)
      (by norm_num) (by norm_num)
    obtain ⟨s3, k3, eJ1, rJ1⟩ := magSq_abs sX sY kX kY (1174 + 15) bX bY (by norm_num)
      (by norm_num)
    have n1 := abs_nonneg (toRat (fin sx kx))
    have n2 := abs_nonneg (toRat (fin sy ky))
    have n3 := abs_nonneg (toRat (fin sX kX))
    have n4 := abs_nonneg (toRat (fin sY kY))
    have h1u := reflect_comp_arith _ _ _ _ _ _ _ _ _ _ _ _ Eta hA hB hA eta_nonneg
      (by linarith) r1 r2 r3 r4 r5 r7
    have h1v := reflect_comp_arith _ _ _ _ _ _ _ _ _ _ _ _ Eta hA hB hB eta_nonneg
      (by linarith) r1 r2 r3 r4 r6 r8
    have h2u := reflect_comp_arith _ _ _ _ _ _ _ _ _ _ _ _ Eta hA hB hA eta_nonneg
      (by linarith) r1' r2' r3' r4' r5' r7'
    have h2v := reflect_comp_arith _ _ _ _ _ _ _ _ _ _ _ _ Eta hA hB hB eta_nonneg
      (by linarith) r1' r2' r3' r4' r6' r8'
    refine ⟨s1, k1, s2, k2, s3, k3, s4, k4, ?_, ?_, eJ, ?_, ?_, ?_⟩
    · rw [eR, eRR]
    · rw [eR, eJ1]
    · exact double_comp_arith _ _ _ _ _ _ _ _ _ _ Eta hA hB hA hN hη.1 h1u h1v h1u h2u
    · exact double_comp_arith _ _ _ _ _ _ _ _ _ _ Eta hA hB hB hN hη.1 h1u h1v h1v h2v
    · exact mag_arith _ _ _ _ _ _ _ _ Eta hA hB hN eta_nonneg hη.1 hη2 h1u h1v rJ rJ1

end F64

/-! ## Claims -/

section

open F64

/-- C1 (amended): for every vector `v` whose components are `0` or of absolute value
between `2^-100` and `2^100` and whose magnitude is not `0`, `Normalize(v)` is `v` itself
when `Magnitude(v) == 1` and `v` divided componentwise by `Magnitude(v)` otherwise, and
it has magnitude `1` up to rounding: the magnitude is finite and within `2^-48` of `1`. -/
theorem C1_normalize_magnitude_near_one (v : F64.Vector2D) (hx : v.X.IsModerate)
    (hy : v.Y.IsModerate) (h : (v.Magnitude == 0) = false) :
    v.Normalize = (if (v.Magnitude == 1) = true then v
        else ⟨v.X / v.Magnitude, v.Y / v.Magnitude⟩) ∧
      v.Normalize.Magnitude.isFin = true ∧ |v.Normalize.Magnitude.toRat - 1| ≤ 1 / 2 ^ 48 := by
  refine ⟨?_, ?_⟩
  · show (if (v.Magnitude == 0 || v.Magnitude == 1) = true then v.Copy
      else v.DivideScalar v.Magnitude) = _
    rw [h, Bool.false_or]
    rfl
  obtain ⟨x, y⟩ := v
  cases x with
  | fin sx kx =>
    cases y with
    | fin sy ky =>
      have hne : kx ≠ 0 ∨ ky ≠ 0 := by
        by_contra hc
        push_neg at hc
        obtain ⟨h1, h2⟩ := hc
        subst h1; subst h2
        rw [mag_zero_of_zero, zero_eq] at h
        exact absurd h (by decide)
      obtain ⟨r, hr, hn⟩ := normalize_mag_near sx sy kx ky hx hy hne
      rw [hr]
      refine ⟨rfl, ?_⟩
      show |val r - 1| ≤ 1 / 2 ^ 48
      exact le_trans hn.abs_sub_le U28
    | inf s => exact absurd hy (by simp [IsModerate])
    | nan => exact absurd hy (by simp [IsModerate])
  | inf s => exact absurd hx (by simp [IsModerate])
  | nan => exact absurd hx (by simp [IsModerate])

/-- Witness of the amended C1 at `v = (9, 40)`. -/
theorem C1_normalize_magnitude_near_one_witness :
    (⟨9, 40⟩ : F64.Vector2D).Normalize.Magnitude.isFin = true ∧
      |(⟨9, 40⟩ : F64.Vector2D).Normalize.Magnitude.toRat - 1| ≤ 1 / 2 ^ 48 :=
  (C1_normalize_magnitude_near_one ⟨9, 40⟩ (by decide!) (by decide!) (by decide!)).2

/-- C1, as stated, fails: `Normalize((9, 40))` has magnitude `0.9999999999999999`, not
`1`, and `Normalize((2^600, 0))` is `(0, 0)`, of magnitude `0`. -/
theorem C1_normalize_magnitude_one_counterexample :
    ((⟨9, 40⟩ : F64.Vector2D).Magnitude == 0) = false ∧
      (⟨9, 40⟩ : F64.Vector2D).Normalize.Magnitude
        = ofDec 9999999999999999 10000000000000000 ∧
      ((⟨9, 40⟩ : F64.Vector2D).Normalize.Magnitude == 1) = false ∧
      ((⟨fin false (2 ^ 1674), 0⟩ : F64.Vector2D).Magnitude == 0) = false ∧
      (⟨fin false (2 ^ 1674), 0⟩ : F64.Vector2D).Normalize = ⟨0, 0⟩ ∧
      (⟨fin false (2 ^ 1674), 0⟩ : F64.Vector2D).Normalize.Magnitude = 0 := by
  decide!

end

section

variable {F : Type} [LinearOrderedField F]

open Vector2D

/-- C2: `Normalize(Zero())` is `Zero()`, and a vector `v` with `Magnitude(v) == 1` is
returned unchanged by `Normalize`, both components being those of `v`. This holds
whatever `math.Sqrt` computes. -/
theorem C2_normalize_guarded (m : MathPkg F) (v : Vector2D F) (h : v.Magnitude m = 1) :
    (Zero : Vector2D F).Normalize m = Zero ∧
      v.Normalize m = v ∧ (v.Normalize m).X = v.X ∧ (v.Normalize m).Y = v.Y := by
  have hz : (Zero : Vector2D F).Normalize m = Zero := by
    unfold Normalize
    by_cases hc : (Zero : Vector2D F).Magnitude m = 0 ∨ (Zero : Vector2D F).Magnitude m = 1
    · rw [if_pos hc, copy_eq]
    · rw [if_neg hc]
      simp only [DivideScalar, Zero, zero_div]
  have hv : v.Normalize m = v := by
    unfold Normalize
    simp only [h, or_true, if_true, copy_eq]
  exact ⟨hz, hv, by rw [hv], by rw [hv]⟩

/-- Witness of C2 at `v = (1, 0)` over the reals. -/
theorem C2_normalize_guarded_witness :
    (⟨1, 0⟩ : Vector2D ℝ).Magnitude realMath = 1 ∧
      (Zero : Vector2D ℝ).Normalize realMath = Zero ∧
      (⟨1, 0⟩ : Vector2D ℝ).Normalize realMath = ⟨1, 0⟩ :=
  have h : (⟨1, 0⟩ : Vector2D ℝ).Magnitude realMath = 1 := by
    simp [Magnitude, MagnitudeSquared, realMath]
  ⟨h, (C2_normalize_guarded realMath ⟨1, 0⟩ h).1, (C2_normalize_guarded realMath ⟨1, 0⟩ h).2.1⟩

end

section

open F64

/-- C3 (amended): for every vector `v` and every scalar `max` with
`MagnitudeSquared(v) <= math.Pow(max, 2)`, the comparison the code makes,
`Limit(v, max)` returns `v` unchanged (otherwise it returns `Normalize(v) * max`); in
particular it returns `v` unchanged whenever the components of `v` and `max` are `0` or
of absolute value between `2^-100` and `2^100` and
`Magnitude(v) · (1 + 2^-50) <= max`. -/
theorem C3_limit_unchanged_guard :
    (∀ (v : F64.Vector2D) (max : F64), v.MagnitudeSquared ≤ pow2 max → v.Limit max = v) ∧
    (∀ (v : F64.Vector2D) (max : F64), ¬ v.MagnitudeSquared ≤ pow2 max →
        v.Limit max = v.Normalize.MultiplyScalar max) ∧
    (∀ (v : F64.Vector2D) (max : F64), v.X.IsModerate → v.Y.IsModerate → max.IsModerate →
        v.Magnitude.toRat * (1 + 1 / 2 ^ 50) ≤ max.toRat → v.Limit max = v) := by
  refine ⟨?_, ?_, ?_⟩
  · intro v max h
    unfold Vector2D.Limit
    simp only
    rw [if_pos h]
    rfl
  · intro v max h
    unfold Vector2D.Limit
    simp only
    rw [if_neg h]
  · intro v max hx hy hm h
    obtain ⟨x, y⟩ := v
    cases x with
    | fin sx kx =>
      cases y with
      | fin sy ky =>
        cases max with
        | fin sm km =>
          obtain ⟨j, g, jm, hj, hg, hjm, hgj, hjmn, hbr⟩ :=
            limit_near sx sy sm kx ky km hx hy hm
          rcases hbr with ⟨_, hcopy⟩ | ⟨hlt, _⟩
          · exact hcopy
          · exfalso
            rw [hg] at h
            have h' : val g * (1 + 1 / 2 ^ 50) ≤ toRat (fin sm km) := h
            have := margin_arith (val g) (val j) (val jm) (val km) (toRat (fin sm km))
              (val_nonneg _) (val_nonneg _) h' (toRat_sq sm km) hgj.1 hjmn.1
            exact absurd (val_le_val.mp this) (by omega)
        | inf s => exact absurd hm (by simp [IsModerate])
        | nan => exact absurd hm (by simp [IsModerate])
      | inf s => exact absurd hy (by simp [IsModerate])
      | nan => exact absurd hy (by simp [IsModerate])
    | inf s => exact absurd hx (by simp [IsModerate])
    | nan => exact absurd hx (by simp [IsModerate])

/-- Witness of the amended C3: `(3, 4)` with `max = 5` passes the guard, and `(3, 4)`
with `max = 6` has the margin. -/
theorem C3_limit_unchanged_guard_witness :
    (⟨3, 4⟩ : F64.Vector2D).Limit 5 = ⟨3, 4⟩ ∧ (⟨3, 4⟩ : F64.Vector2D).Limit 6 = ⟨3, 4⟩ :=
  ⟨C3_limit_unchanged_guard.1 ⟨3, 4⟩ 5 (by decide!),
   C3_limit_unchanged_guard.2.2 ⟨3, 4⟩ 6 (by decide!) (by decide!) (by decide!)
    (by rw [show (⟨3, 4⟩ : F64.Vector2D).Magnitude = fin false (5 * 2 ^ 1074) by decide!,
          show (6 : F64) = fin false (6 * 2 ^ 1074) by decide!]
        show val (5 * 2 ^ 1074) * (1 + 1 / 2 ^ 50) ≤ val (6 * 2 ^ 1074)
        unfold val
        rw [Nat.cast_mul, Nat.cast_mul, Nat.cast_pow]
        generalize hS : (2 : ℚ) ^ 1074 = S
        have hS0 : 0 < S := by rw [← hS]; exact pow_pos (by norm_num) _
        rw [Nat.cast_ofNat, mul_div_assoc, mul_div_assoc, div_self (ne_of_gt hS0)]
        norm_num)⟩

/-- C3, as stated, fails: for `v = (2, 5)` and `max = Magnitude(v) = 5.385164807134504`
the comparison `Magnitude(v) <= max` holds, but `math.Pow(max, 2)` is
`28.999999999999996 < 29`, so `Limit(v, max)` is `(1.9999999999999998, 5)`, not `v`. -/
theorem C3_limit_unchanged_counterexample :
    (⟨2, 5⟩ : F64.Vector2D).Magnitude = ofDec 5385164807134504 1000000000000000 ∧
      F64.le (⟨2, 5⟩ : F64.Vector2D).Magnitude (ofDec 5385164807134504 1000000000000000)
        = true ∧
      (⟨2, 5⟩ : F64.Vector2D).Limit (ofDec 5385164807134504 1000000000000000)
        = ⟨ofDec 19999999999999998 10000000000000000, 5⟩ ∧
      (((⟨2, 5⟩ : F64.Vector2D).Limit (ofDec 5385164807134504 1000000000000000)).X == 2)
        = false := by
  decide!

/-- C4 (amended): for every vector `v` and every scalar `max >= 0` whose components and
value are `0` or of absolute value between `2^-100` and `2^100`, if `Magnitude(v) > max`
then the vector returned by `Limit(v, max)` has magnitude `max` up to rounding: the
magnitude is finite and differs from `max` by at most `max · 2^-48`. -/
theorem C4_limit_magnitude_near (v : F64.Vector2D) (max : F64) (hx : v.X.IsModerate)
    (hy : v.Y.IsModerate) (hm : max.IsModerate) (h0 : (0 : F64) ≤ max)
    (h : F64.lt max v.Magnitude = true) :
    (v.Limit max).Magnitude.isFin = true ∧
      |(v.Limit max).Magnitude.toRat - max.toRat| ≤ max.toRat / 2 ^ 48 := by
  obtain ⟨x, y⟩ := v
  cases x with
  | fin sx kx =>
    cases y with
    | fin sy ky =>
      cases max with
      | fin sm km =>
        obtain ⟨j, g, jm, hj, hg, hjm, hgj, hjmn, hbr⟩ := limit_near sx sy sm kx ky km hx hy hm
        obtain ⟨hr0, hi0⟩ := toRat_of_nonneg sm km h0
        rw [hr0]
        have hMn : 0 ≤ val km := val_nonneg _
        rcases hbr with ⟨hle, hcopy⟩ | ⟨hlt, jl, r, hjl, hr, hn1, hn2⟩
        · rw [hcopy, hg]
          refine ⟨rfl, ?_⟩
          show |val g - val km| ≤ val km / 2 ^ 48
          rw [hg] at h
          have hkg : km < g := by
            have h1 : toInt sm km < toInt false g := by simpa [lt] using h
            rw [hi0] at h1
            simpa [toInt] using h1
          have hlt : val km < val g := by
            rcases lt_or_le (val km) (val g) with h2 | h2
            · exact h2
            · exact absurd (val_le_val.mp h2) (by omega)
          exact copy_bound (val g) (val j) (val jm) (val km) hMn
            hgj.2 (val_le_val.mpr hle) hjmn.2 hlt
        · rw [hr]
          refine ⟨rfl, ?_⟩
          show |val r - val km| ≤ val km / 2 ^ 48
          have h1 : Near (32 * U) (val r) (val km) :=
            hn2.of_sq (val_nonneg _) hMn (by unfold U; norm_num) (by unfold U; norm_num)
          have h2 := h1.abs_sub_le_mul
          rw [U32] at h2
          calc |val r - val km| ≤ 1 / 2 ^ 48 * val km := h2
            _ = val km / 2 ^ 48 := by ring
      | inf s => exact absurd hm (by simp [IsModerate])
      | nan => exact absurd hm (by simp [IsModerate])
    | inf s => exact absurd hy (by simp [IsModerate])
    | nan => exact absurd hy (by simp [IsModerate])
  | inf s => exact absurd hx (by simp [IsModerate])
  | nan => exact absurd hx (by simp [IsModerate])

/-- Witness of the amended C4 at `v = (1, 1)`, `max = 1`. -/
theorem C4_limit_magnitude_near_witness :
    ((⟨1, 1⟩ : F64.Vector2D).Limit 1).Magnitude.isFin = true ∧
      |((⟨1, 1⟩ : F64.Vector2D).Limit 1).Magnitude.toRat - (1 : F64).toRat|
        ≤ (1 : F64).toRat / 2 ^ 48 :=
  C4_limit_magnitude_near ⟨1, 1⟩ 1 (by decide!) (by decide!) (by decide!) (by decide!)
    (by decide!)

/-- C4, as stated, fails: with `v = (1, 0)` and `max = -2`, `Magnitude(v) = 1 > max`
but `Limit(v, max)` is `v`, of magnitude `1`, not `-2`; and with `v = (1, 1)`, `max = 1`
the magnitude of `Limit(v, max)` is `0.9999999999999999`, not `1`. -/
theorem C4_limit_any_sign_counterexample :
    F64.lt (-2) (⟨1, 0⟩ : F64.Vector2D).Magnitude = true ∧
      (⟨1, 0⟩ : F64.Vector2D).Limit (-2) = ⟨1, 0⟩ ∧
      ((⟨1, 0⟩ : F64.Vector2D).Limit (-2)).Magnitude = 1 ∧
      (((⟨1, 0⟩ : F64.Vector2D).Limit (-2)).Magnitude == -2) = false ∧
      F64.lt 1 (⟨1, 1⟩ : F64.Vector2D).Magnitude = true ∧
      ((⟨1, 1⟩ : F64.Vector2D).Limit 1).Magnitude
        = ofDec 9999999999999999 10000000000000000 ∧
      (((⟨1, 1⟩ : F64.Vector2D).Limit 1).Magnitude == 1) = false := by
  decide!

/-- C5 (amended): for every vector `v`, `Magnitude(v)` is
`math.Sqrt(MagnitudeSquared(v))`, the `float64` square root of
`math.Pow(x, 2) + math.Pow(y, 2)`; when each component is `0` or of absolute value
between `2^-510` and `2^510` it is the Euclidean length `sqrt(x² + y²)` up to rounding:
finite, non-negative, and with a square within `(x² + y²) · 2^-49` of `x² + y²`. In
particular `Magnitude((3, 4)) = 5`. -/
theorem C5_magnitude_rounded :
    (∀ v : F64.Vector2D, v.Magnitude = F64.sqrt v.MagnitudeSquared ∧
        v.MagnitudeSquared = pow2 v.X + pow2 v.Y) ∧
    (∀ v : F64.Vector2D, v.X.SquareSafe → v.Y.SquareSafe →
        v.Magnitude.isFin = true ∧ 0 ≤ v.Magnitude.toRat ∧
        |v.Magnitude.toRat ^ 2 - (v.X.toRat ^ 2 + v.Y.toRat ^ 2)|
          ≤ (v.X.toRat ^ 2 + v.Y.toRat ^ 2) / 2 ^ 49) ∧
    (⟨3, 4⟩ : F64.Vector2D).Magnitude = 5 := by
  refine ⟨fun v => ⟨rfl, rfl⟩, ?_, by decide!⟩
  intro v hx hy
  obtain ⟨x, y⟩ := v
  cases x with
  | fin sx kx =>
    cases y with
    | fin sy ky =>
      obtain ⟨j, g, _, hg, hjn, hgn, _⟩ :=
        mag_all sx sy kx ky (squareSafe_val hx) (squareSafe_val hy)
      rw [hg]
      refine ⟨rfl, val_nonneg g, ?_⟩
      show |val g ^ 2 - (toRat (fin sx kx) ^ 2 + toRat (fin sy ky) ^ 2)|
        ≤ (toRat (fin sx kx) ^ 2 + toRat (fin sy ky) ^ 2) / 2 ^ 49
      rw [toRat_sq, toRat_sq]
      have hU : U = 1 / 2 ^ 53 := rfl
      have hs : 0 ≤ val kx ^ 2 + val ky ^ 2 := add_nonneg (sq_nonneg _) (sq_nonneg _)
      have h11 : Near (11 * U) (val g ^ 2) (val kx ^ 2 + val ky ^ 2) :=
        Near.trans (11 * U) hgn hjn hs (by rw [hU]; norm_num) (by rw [hU]; norm_num)
          (by rw [hU]; norm_num) (by rw [hU]; norm_num)
      have h12 := h11.abs_sub_le_mul
      have : 11 * U * (val kx ^ 2 + val ky ^ 2) ≤ (val kx ^ 2 + val ky ^ 2) / 2 ^ 49 := by
        rw [hU]
        have e : (val kx ^ 2 + val ky ^ 2) / 2 ^ 49
            = 16 * (1 / 2 ^ 53) * (val kx ^ 2 + val ky ^ 2) := by ring
        rw [e]
        exact mul_le_mul_of_nonneg_right (by norm_num) hs
      linarith
    | inf s => exact absurd hy (by simp [SquareSafe])
    | nan => exact absurd hy (by simp [SquareSafe])
  | inf s => exact absurd hx (by simp [SquareSafe])
  | nan => exact absurd hx (by simp [SquareSafe])

/-- Witness of the amended C5 at `v = (1, 1)`. -/
theorem C5_magnitude_rounded_witness :
    (⟨1, 1⟩ : F64.Vector2D).Magnitude.isFin = true ∧
      0 ≤ (⟨1, 1⟩ : F64.Vector2D).Magnitude.toRat ∧
      |(⟨1, 1⟩ : F64.Vector2D).Magnitude.toRat ^ 2 - ((1 : F64).toRat ^ 2 + (1 : F64).toRat ^ 2)|
        ≤ ((1 : F64).toRat ^ 2 + (1 : F64).toRat ^ 2) / 2 ^ 49 :=
  C5_magnitude_rounded.2.1 ⟨1, 1⟩ (by decide!) (by decide!)

/-- C5, as stated, fails: `Magnitude((2^600, 2^600))` is `+Inf` because the squares
overflow, although the Euclidean length `2^600 · sqrt 2` is far below the largest
`float64`; and `Magnitude((1, 1))`, multiplied by itself, is `2.0000000000000004`, not
`2 = x² + y²`. -/
theorem C5_magnitude_euclidean_counterexample :
    (⟨fin false (2 ^ 1674), fin false (2 ^ 1674)⟩ : F64.Vector2D).Magnitude = inf false ∧
      (⟨1, 1⟩ : F64.Vector2D).Magnitude * (⟨1, 1⟩ : F64.Vector2D).Magnitude
        = ofDec 20000000000000004 10000000000000000 ∧
      ((⟨1, 1⟩ : F64.Vector2D).Magnitude * (⟨1, 1⟩ : F64.Vector2D).Magnitude == 2)
        = false := by
  decide!

end

section

variable {F : Type} [LinearOrderedField F]

open Vector2D

/-- C6: for `min <= max`, each component of `ClampToScalars(v, min, max)` lies in
`[min, max]`, equals the input component when that already lies in `[min, max]`, and is
`max(min, min(component, max))`; clamping `(5,5)` to `0..10` gives `(5,5)` and
`(-1,20)` to `0..10` gives `(0,10)`. -/
theorem C6_clampToScalars_ordered (v : Vector2D F) (lo hi : F) (h : lo ≤ hi) :
    (lo ≤ (v.ClampToScalars lo hi).X ∧ (v.ClampToScalars lo hi).X ≤ hi) ∧
      (lo ≤ (v.ClampToScalars lo hi).Y ∧ (v.ClampToScalars lo hi).Y ≤ hi) ∧
      (lo ≤ v.X → v.X ≤ hi → (v.ClampToScalars lo hi).X = v.X) ∧
      (lo ≤ v.Y → v.Y ≤ hi → (v.ClampToScalars lo hi).Y = v.Y) ∧
      (v.ClampToScalars lo hi).X = Max.max lo (Min.min v.X hi) ∧
      (v.ClampToScalars lo hi).Y = Max.max lo (Min.min v.Y hi) ∧
      (⟨5, 5⟩ : Vector2D F).ClampToScalars 0 10 = ⟨5, 5⟩ ∧
      (⟨-1, 20⟩ : Vector2D F).ClampToScalars 0 10 = ⟨0, 10⟩ := by
  refine ⟨clampFloat_mem v.X lo hi h, clampFloat_mem v.Y lo hi h,
    clampFloat_of_mem v.X lo hi, clampFloat_of_mem v.Y lo hi,
    clampFloat_eq_max_min v.X lo hi h, clampFloat_eq_max_min v.Y lo hi h, ?_, ?_⟩
  · simp only [ClampToScalars]
    rw [clampFloat_of_mem (5 : F) 0 10 (by norm_num) (by norm_num)]
  · simp only [ClampToScalars, clampFloat]
    norm_num

/-- Witness of C6 at `v = (-1, 20)`, `min = 0`, `max = 10` over the rationals. -/
theorem C6_clampToScalars_ordered_witness :
    (0 : ℚ) ≤ 10 ∧
      ((0 : ℚ) ≤ ((⟨-1, 20⟩ : Vector2D ℚ).ClampToScalars 0 10).X ∧
        ((⟨-1, 20⟩ : Vector2D ℚ).ClampToScalars 0 10).X ≤ 10) ∧
      (⟨-1, 20⟩ : Vector2D ℚ).ClampToScalars 0 10 = ⟨0, 10⟩ :=
  ⟨by norm_num, (C6_clampToScalars_ordered (⟨-1, 20⟩ : Vector2D ℚ) 0 10 (by norm_num)).1,
    (C6_clampToScalars_ordered (⟨-1, 20⟩ : Vector2D ℚ) 0 10 (by norm_num)).2.2.2.2.2.2.2⟩

/-- C7: for `min > max` the comparison `<= min` wins first: a component `<= min` (also
one above `max`) becomes `min`, a component `> min` becomes `max`, and a component is
returned unchanged only if it equals `min`. -/
theorem C7_clampToScalars_swapped (v : Vector2D F) (lo hi : F) (h : lo > hi) :
    (v.X ≤ lo → (v.ClampToScalars lo hi).X = lo) ∧
      (v.Y ≤ lo → (v.ClampToScalars lo hi).Y = lo) ∧
      (hi < v.X → v.X ≤ lo → (v.ClampToScalars lo hi).X = lo) ∧
      (hi < v.Y → v.Y ≤ lo → (v.ClampToScalars lo hi).Y = lo) ∧
      (v.X > lo → (v.ClampToScalars lo hi).X = hi) ∧
      (v.Y > lo → (v.ClampToScalars lo hi).Y = hi) ∧
      ((v.ClampToScalars lo hi).X = v.X → v.X = lo) ∧
      ((v.ClampToScalars lo hi).Y = v.Y → v.Y = lo) := by
  have hx := clampFloat_swapped v.X lo hi h
  have hy := clampFloat_swapped v.Y lo hi h
  exact ⟨hx.1, hy.1, fun _ => hx.1, fun _ => hy.1, hx.2.1, hy.2.1, hx.2.2, hy.2.2⟩

/-- Witness of C7 at `v = (5, 20)`, `min = 10`, `max = 0` over the rationals: the
component `5`, which exceeds `max`, becomes `min`, and `20` becomes `max`. -/
theorem C7_clampToScalars_swapped_witness :
    (10 : ℚ) > 0 ∧ ((⟨5, 20⟩ : Vector2D ℚ).ClampToScalars 10 0).X = 10 ∧
      ((⟨5, 20⟩ : Vector2D ℚ).ClampToScalars 10 0).Y = 0 :=
  ⟨by norm_num,
    (C7_clampToScalars_swapped (⟨5, 20⟩ : Vector2D ℚ) 10 0 (by norm_num)).2.2.1
      (by norm_num) (by norm_num),
    (C7_clampToScalars_swapped (⟨5, 20⟩ : Vector2D ℚ) 10 0 (by norm_num)).2.2.2.2.2.1
      (by norm_num)⟩

/-- C8: `Reflect(v, normal)` is `v - 2*(v·normal)*normal` componentwise, and reflecting
`(1,-1)` off the normal `(0,1)` yields `(1,1)`. -/
theorem C8_reflect_formula (v normal : Vector2D F) :
    v.Reflect normal = v.SubtractVector (normal.MultiplyScalar (2 * v.Dot normal)) ∧
      (v.Reflect normal).X = v.X - 2 * (v.X * normal.X + v.Y * normal.Y) * normal.X ∧
      (v.Reflect normal).Y = v.Y - 2 * (v.X * normal.X + v.Y * normal.Y) * normal.Y ∧
      (⟨1, -1⟩ : Vector2D F).Reflect ⟨0, 1⟩ = ⟨1, 1⟩ := by
  refine ⟨?_, rfl, rfl, ?_⟩
  · simp only [Reflect, SubtractVector, MultiplyScalar, Dot, Vector2D.mk.injEq]
    constructor <;> ring
  · simp only [Reflect, Dot, Vector2D.mk.injEq]
    constructor <;> norm_num

end

section

open F64

/-- C9 (amended): for every vector `v` with finite components, `Distance(v, v) == 0`,
where `Distance(v, v2)` is `math.Sqrt(math.Pow((x - x2) + (y - y2), 2))` in `float64`
arithmetic; this is the absolute value of the computed sum of the componentwise
differences up to rounding (within `|sum| · 2^-49`) when that sum is `0` or of absolute
value between `2^-510` and `2^510`. -/
theorem C9_distance_self_finite :
    (∀ v : F64.Vector2D, v.X.isFin = true → v.Y.isFin = true → v.Distance v = 0) ∧
    (∀ v v2 : F64.Vector2D,
        v.Distance v2 = F64.sqrt (pow2 ((v.X - v2.X) + (v.Y - v2.Y)))) ∧
    (∀ v v2 : F64.Vector2D, ((v.X - v2.X) + (v.Y - v2.Y)).SquareSafe →
        (v.Distance v2).isFin = true ∧
        |(v.Distance v2).toRat - abs ((v.X - v2.X) + (v.Y - v2.Y)).toRat|
          ≤ abs ((v.X - v2.X) + (v.Y - v2.Y)).toRat / 2 ^ 49) := by
  refine ⟨?_, fun v v2 => rfl, ?_⟩
  · intro v hx hy
    obtain ⟨x, y⟩ := v
    cases x with
    | fin sx kx =>
      cases y with
      | fin sy ky =>
        show F64.sqrt (pow2 ((fin sx kx - fin sx kx) + (fin sy ky - fin sy ky))) = 0
        rw [sub_self_fin, sub_self_fin]
        decide!
      | inf s => exact absurd hy (by simp [isFin])
      | nan => exact absurd hy (by simp [isFin])
    | inf s => exact absurd hx (by simp [isFin])
    | nan => exact absurd hx (by simp [isFin])
  · intro v v2 h
    show (F64.sqrt (pow2 ((v.X - v2.X) + (v.Y - v2.Y)))).isFin = true ∧
      |(F64.sqrt (pow2 ((v.X - v2.X) + (v.Y - v2.Y)))).toRat
          - abs ((v.X - v2.X) + (v.Y - v2.Y)).toRat|
        ≤ abs ((v.X - v2.X) + (v.Y - v2.Y)).toRat / 2 ^ 49
    generalize (v.X - v2.X) + (v.Y - v2.Y) = a at h ⊢
    cases a with
    | fin s k =>
      obtain ⟨d, hd, hb⟩ := distance_near s k h
      rw [hd, abs_toRat]
      exact ⟨rfl, hb⟩
    | inf s => exact absurd h (by simp [SquareSafe])
    | nan => exact absurd h (by simp [SquareSafe])

/-- Witness of the amended C9 at `v = (1, 2)` and at `(1, 2)`, `(4, 6)`. -/
theorem C9_distance_self_finite_witness :
    (⟨1, 2⟩ : F64.Vector2D).Distance ⟨1, 2⟩ = 0 ∧
      (((⟨1, 2⟩ : F64.Vector2D).Distance ⟨4, 6⟩).isFin = true ∧
        |((⟨1, 2⟩ : F64.Vector2D).Distance ⟨4, 6⟩).toRat
            - abs (((1 : F64) - 4) + ((2 : F64) - 6)).toRat|
          ≤ abs (((1 : F64) - 4) + ((2 : F64) - 6)).toRat / 2 ^ 49) :=
  ⟨C9_distance_self_finite.1 ⟨1, 2⟩ (by decide!) (by decide!),
   C9_distance_self_finite.2.2 ⟨1, 2⟩ ⟨4, 6⟩ (by decide!)⟩

/-- C9, as stated, fails: `Distance((2^600, 0), (-2^600, 0))` is `+Inf` although the sum
of the componentwise differences is the finite `2^601`, and
`Distance((2^-600, 0), (0, 0))` is `0` although that sum is `2^-600`. -/
theorem C9_distance_abs_counterexample :
    (⟨fin false (2 ^ 1674), 0⟩ : F64.Vector2D).Distance ⟨fin true (2 ^ 1674), 0⟩
        = inf false ∧
      (fin false (2 ^ 1674) - fin true (2 ^ 1674)) + ((0 : F64) - 0) = fin false (2 ^ 1675) ∧
      (⟨fin false (2 ^ 474), 0⟩ : F64.Vector2D).Distance ⟨0, 0⟩ = 0 ∧
      (fin false (2 ^ 474) - 0) + ((0 : F64) - 0) = fin false (2 ^ 474) := by
  decide!

/-- C10 (amended): for every angle `r`, `FromRadians(r)` is
`(math.Cos(r), math.Sin(r))`; in particular `FromRadians(0) == (1, 0)`, a unit vector
(its `MagnitudeSquared` is `1`). For other angles the `MagnitudeSquared` is `1` only up
to the rounding of `math.Cos`, `math.Sin` and the squares. -/
theorem C10_fromRadians_components :
    (∀ (tr : F64 → Nat × F64) (r : F64), FromRadians tr r = ⟨F64.Cos tr r, F64.Sin tr r⟩) ∧
    (∀ tr : F64 → Nat × F64, FromRadians tr 0 = ⟨1, 0⟩) ∧
    (∀ tr : F64 → Nat × F64, (FromRadians tr 0).MagnitudeSquared = 1) := by
  refine ⟨fun _ _ => rfl, fromRadians_zero, fun tr => ?_⟩
  rw [fromRadians_zero]
  decide!

/-- C10, as stated, fails: `FromRadians(0.125)` is
`(0.992197667229329, 0.12467473338522769)`, whose `MagnitudeSquared` is
`0.9999999999999999`, not `1`. -/
theorem C10_fromRadians_unit_counterexample :
    FromRadians trNaN (ofDec 125 1000)
        = ⟨ofDec 992197667229329 1000000000000000,
            ofDec 12467473338522769 100000000000000000⟩ ∧
      (FromRadians trNaN (ofDec 125 1000)).MagnitudeSquared
        = ofDec 9999999999999999 10000000000000000 ∧
      ((FromRadians trNaN (ofDec 125 1000)).MagnitudeSquared == 1) = false := by
  decide!

/-- C11 (amended): for every `v`, `v2` and `amount` (not restricted to `[0, 1]`), each
component of `LinearInterpolateToVector(v, v2, amount)` is
`start + (end - start) * amount` in `float64` arithmetic, so amount `0` returns a value
equal to `start` (when `start` is finite and `end - start` does not overflow), amount
`1` returns `end` up to rounding (within `(|start| + |end|) · 2^-50`, for components of
absolute value at most `2^1016`), and interpolating `(0, 0)` to `(10, 10)` by `0.5`
gives `(5, 5)`. -/
theorem C11_linearInterpolate_rounded :
    (∀ (v v2 : F64.Vector2D) (amount : F64),
        v.LinearInterpolateToVector v2 amount
          = ⟨F64.linearInterpolate v.X v2.X amount, F64.linearInterpolate v.Y v2.Y amount⟩) ∧
    (∀ start stop amount : F64,
        F64.linearInterpolate start stop amount = start + (stop - start) * amount) ∧
    (∀ start stop : F64, start.Valid → (stop - start).isFin = true →
        (F64.linearInterpolate start stop 0 == start) = true) ∧
    (∀ start stop : F64, start.NotHuge → stop.NotHuge →
        (F64.linearInterpolate start stop 1).isFin = true ∧
        |(F64.linearInterpolate start stop 1).toRat - stop.toRat|
          ≤ (|start.toRat| + |stop.toRat|) / 2 ^ 50) ∧
    (⟨0, 0⟩ : F64.Vector2D).LinearInterpolateToVector ⟨10, 10⟩ (ofDec 1 2) = ⟨5, 5⟩ := by
  refine ⟨fun _ _ _ => rfl, fun _ _ _ => rfl, lerp_zero, ?_, by decide!⟩
  intro start stop h1 h2
  cases start with
  | fin sa ka =>
    cases stop with
    | fin sb kb =>
      obtain ⟨s, k, e, hb⟩ := lerp_one sa sb ka kb h1 h2
      rw [e]
      exact ⟨rfl, hb⟩
    | inf s => exact absurd h2 (by simp [NotHuge])
    | nan => exact absurd h2 (by simp [NotHuge])
  | inf s => exact absurd h1 (by simp [NotHuge])
  | nan => exact absurd h1 (by simp [NotHuge])

/-- Witness of the amended C11: amount `0` and amount `1` from `0.2` towards `0.9`. -/
theorem C11_linearInterpolate_rounded_witness :
    (F64.linearInterpolate (ofDec 2 10) (ofDec 9 10) 0 == ofDec 2 10) = true ∧
      ((F64.linearInterpolate (ofDec 2 10) (ofDec 9 10) 1).isFin = true ∧
        |(F64.linearInterpolate (ofDec 2 10) (ofDec 9 10) 1).toRat - (ofDec 9 10).toRat|
          ≤ (|(ofDec 2 10).toRat| + |(ofDec 9 10).toRat|) / 2 ^ 50) :=
  ⟨C11_linearInterpolate_rounded.2.2.1 (ofDec 2 10) (ofDec 9 10) (by decide!) (by decide!),
   C11_linearInterpolate_rounded.2.2.2.1 (ofDec 2 10) (ofDec 9 10) (by decide!)
      (by decide!)⟩

/-- C11, as stated, fails: interpolating `(0.2, 0.2)` to `(0.9, 0.9)` by amount `1`
gives `(0.8999999999999999, 0.8999999999999999)`, not `v2`, and
`linearInterpolate(2^60, 1, 1)` is `0`, not `1`. -/
theorem C11_linearInterpolate_one_counterexample :
    (⟨ofDec 2 10, ofDec 2 10⟩ : F64.Vector2D).LinearInterpolateToVector
        ⟨ofDec 9 10, ofDec 9 10⟩ 1
        = ⟨ofDec 8999999999999999 10000000000000000,
            ofDec 8999999999999999 10000000000000000⟩ ∧
      (((⟨ofDec 2 10, ofDec 2 10⟩ : F64.Vector2D).LinearInterpolateToVector
        ⟨ofDec 9 10, ofDec 9 10⟩ 1).X == ofDec 9 10) = false ∧
      F64.linearInterpolate (fin false (2 ^ 1134)) 1 1 = 0 := by
  decide!

/-- C12 (amended): for every vector `v` and every `oldMin != oldMax`, each component of
`MapToScalars(v, oldMin, oldMax, newMin, newMax)` is
`newMin + (newMax-newMin) * ((value-oldMin)/(oldMax-oldMin))` in `float64` arithmetic,
so a component equal to `oldMin` maps to a value equal to `newMin` (for finite
arguments with `newMax - newMin` not overflowing) and one equal to `oldMax` maps to
`newMax` up to rounding (within `(|newMin| + |newMax|) · 2^-50`, for arguments of
absolute value at most `2^1016`); in particular mapping `(5, 5)` from `0..10` to
`0..100` gives `(50, 50)`. -/
theorem C12_mapToScalars_rounded :
    (∀ (v : F64.Vector2D) (oldMin oldMax newMin newMax : F64),
        v.MapToScalars oldMin oldMax newMin newMax
          = ⟨F64.mapFloat v.X oldMin oldMax newMin newMax,
              F64.mapFloat v.Y oldMin oldMax newMin newMax⟩) ∧
    (∀ value oldMin oldMax newMin newMax : F64,
        F64.mapFloat value oldMin oldMax newMin newMax
          = newMin + (newMax - newMin) * ((value - oldMin) / (oldMax - oldMin))) ∧
    (∀ value oldMin oldMax newMin newMax : F64, value.isFin = true → oldMin.isFin = true →
        oldMax.isFin = true → (oldMin == oldMax) = false → (value == oldMin) = true →
        newMin.Valid → (newMax - newMin).isFin = true →
        (F64.mapFloat value oldMin oldMax newMin newMax == newMin) = true) ∧
    (∀ value oldMin oldMax newMin newMax : F64, value.NotHuge → oldMin.NotHuge →
        oldMax.NotHuge → newMin.NotHuge → newMax.NotHuge →
        (oldMin == oldMax) = false → (value == oldMax) = true →
        (F64.mapFloat value oldMin oldMax newMin newMax).isFin = true ∧
        |(F64.mapFloat value oldMin oldMax newMin newMax).toRat - newMax.toRat|
          ≤ (|newMin.toRat| + |newMax.toRat|) / 2 ^ 50) ∧
    (⟨5, 5⟩ : F64.Vector2D).MapToScalars 0 10 0 100 = ⟨50, 50⟩ := by
  exact ⟨fun _ _ _ _ _ => rfl, fun _ _ _ _ _ => rfl, map_at_min, map_at_max, by decide!⟩

/-- Witness of the amended C12: the ends of `0..10` mapped to `0.2..0.9`. -/
theorem C12_mapToScalars_rounded_witness :
    (F64.mapFloat 0 0 10 (ofDec 2 10) (ofDec 9 10) == ofDec 2 10) = true ∧
      ((F64.mapFloat 10 0 10 (ofDec 2 10) (ofDec 9 10)).isFin = true ∧
        |(F64.mapFloat 10 0 10 (ofDec 2 10) (ofDec 9 10)).toRat - (ofDec 9 10).toRat|
          ≤ (|(ofDec 2 10).toRat| + |(ofDec 9 10).toRat|) / 2 ^ 50) :=
  ⟨C12_mapToScalars_rounded.2.2.1 0 0 10 (ofDec 2 10) (ofDec 9 10) (by decide!) (by decide!)
      (by decide!) (by decide!) (by decide!) (by decide!) (by decide!),
   C12_mapToScalars_rounded.2.2.2.1 10 0 10 (ofDec 2 10) (ofDec 9 10) (by decide!)
      (by decide!) (by decide!) (by decide!) (by decide!) (by decide!) (by decide!)⟩

/-- C12, as stated, fails: with `oldMin = 0 != oldMax = 10`, the component `10`
(equal to `oldMax`) maps into `0.2..0.9` as `0.8999999999999999`, not `newMax = 0.9`. -/
theorem C12_mapToScalars_max_counterexample :
    ((0 : F64) == 10) = false ∧
      (⟨10, 10⟩ : F64.Vector2D).MapToScalars 0 10 (ofDec 2 10) (ofDec 9 10)
        = ⟨ofDec 8999999999999999 10000000000000000,
            ofDec 8999999999999999 10000000000000000⟩ ∧
      (((⟨10, 10⟩ : F64.Vector2D).MapToScalars 0 10 (ofDec 2 10) (ofDec 9 10)).X
        == ofDec 9 10) = false := by
  decide!

/-- C13 (amended): for every vector `v` whose components are not finite, `0`, or of
absolute value at least `2^-511` (so that no square is subnormal),
`MagnitudeSquared(v)` equals `Dot(v, v)`. -/
theorem C13_magnitudeSquared_eq_dot_normal (v : F64.Vector2D) (hx : v.X.SquareNormal)
    (hy : v.Y.SquareNormal) : v.MagnitudeSquared = v.Dot v := by
  obtain ⟨x, y⟩ := v
  have key : ∀ a : F64, a.SquareNormal → pow2 a = a * a := by
    intro a ha
    cases a with
    | fin s k => exact pow2_eq_mul s k ha
    | inf s => cases s <;> rfl
    | nan => rfl
  show pow2 x + pow2 y = x * x + y * y
  rw [key x hx, key y hy]

/-- Witness of the amended C13 at `v = (0.1, 3)`. -/
theorem C13_magnitudeSquared_eq_dot_normal_witness :
    (⟨ofDec 1 10, 3⟩ : F64.Vector2D).MagnitudeSquared
      = (⟨ofDec 1 10, 3⟩ : F64.Vector2D).Dot ⟨ofDec 1 10, 3⟩ :=
  C13_magnitudeSquared_eq_dot_normal ⟨ofDec 1 10, 3⟩ (by decide!) (by decide!)

/-- C13, as stated, fails: at `x = 113416303 · 2^-540` the value `math.Pow(x, 2)` is
`200988402909184 · 2^-1074` (rounded twice) while `x * x` is
`200988402909185 · 2^-1074`, so `MagnitudeSquared((x, 0))` differs from
`Dot((x, 0), (x, 0))`. -/
theorem C13_magnitudeSquared_eq_dot_counterexample :
    (⟨fin false (113416303 * 2 ^ 534), 0⟩ : F64.Vector2D).MagnitudeSquared
        = fin false 200988402909184 ∧
      (⟨fin false (113416303 * 2 ^ 534), 0⟩ : F64.Vector2D).Dot
        ⟨fin false (113416303 * 2 ^ 534), 0⟩ = fin false 200988402909185 ∧
      ((⟨fin false (113416303 * 2 ^ 534), 0⟩ : F64.Vector2D).MagnitudeSquared
        == (⟨fin false (113416303 * 2 ^ 534), 0⟩ : F64.Vector2D).Dot
          ⟨fin false (113416303 * 2 ^ 534), 0⟩) = false ∧
      F64.Valid (fin false (113416303 * 2 ^ 534)) := by
  decide!

end

section

variable {F : Type} [LinearOrderedField F]

open Vector2D

/-- C14: for every pair of vectors `v` and `v2`, `Dot(v, v2)` equals `Dot(v2, v)`. -/
theorem C14_dot_comm (v v2 : Vector2D F) : v.Dot v2 = v2.Dot v := by
  unfold Dot
  ring

/-- C15: for every vector `v`, `v.AddVector(Zero())`, `v.MultiplyScalar(1)` and
`v.Copy()` are each structurally equal to `v`. -/
theorem C15_identities (v : Vector2D F) :
    v.AddVector Zero = v ∧ v.MultiplyScalar 1 = v ∧ v.Copy = v := by
  refine ⟨?_, ?_, rfl⟩
  · simp [AddVector, Zero]
  · simp [MultiplyScalar]

/-- C16, as stated, fails where it says that `Rotate(v, 0)` is not `v`: for
`v = (1, 0)` the result `(x, -y)` is `(1, 0)`, which is `v`. -/
theorem C16_rotate_zero_counterexample :
    (⟨1, 0⟩ : Vector2D ℝ).Rotate realMath 0 = ⟨1, 0⟩ ∧
      ¬ ((⟨1, 0⟩ : Vector2D ℝ).Rotate realMath 0 ≠ ⟨1, 0⟩) := by
  have h : (⟨1, 0⟩ : Vector2D ℝ).Rotate realMath 0 = ⟨1, 0⟩ := by
    simp [Rotate, realMath]
  exact ⟨h, fun hne => hne h⟩

/-- C16 (amended): for every vector `v = (x, y)` and every angle `a`, `Rotate(v, a)`
returns `(x·cos a − y·sin a, x·sin a − y·cos a)`; in particular, `math.Cos(0)` being `1`
and `math.Sin(0)` being `0`, `Rotate(v, 0)` is `(x, −y)` for every `v`, which is not `v`
whenever `y != 0` (and is `v` when `y == 0`). -/
theorem C16_rotate_formula :
    (∀ (m : MathPkg F) (v : Vector2D F) (a : F),
        v.Rotate m a = ⟨v.X * m.Cos a - v.Y * m.Sin a, v.X * m.Sin a - v.Y * m.Cos a⟩) ∧
    (∀ (m : MathPkg F) (v : Vector2D F), m.Cos 0 = 1 → m.Sin 0 = 0 →
        v.Rotate m 0 = ⟨v.X, -v.Y⟩ ∧ (v.Y ≠ 0 → v.Rotate m 0 ≠ v) ∧
          (v.Y = 0 → v.Rotate m 0 = v)) := by
  refine ⟨fun _ _ _ => rfl, fun m v hc hs => ?_⟩
  have h0 : v.Rotate m 0 = ⟨v.X, -v.Y⟩ := by
    unfold Rotate
    rw [hc, hs]
    simp
  refine ⟨h0, fun hy e => hy ?_, fun hy => ?_⟩
  · rw [h0] at e
    have ey : -v.Y = v.Y := congrArg Vector2D.Y e
    linarith
  · rw [h0]
    cases v with
    | mk x y =>
      simp only at hy
      subst hy
      simp

/-- Witness of the amended C16 at `v = (0, 1)` over the reals. -/
theorem C16_rotate_formula_witness :
    (⟨0, 1⟩ : Vector2D ℝ).Rotate realMath 0 = ⟨0, -1⟩ ∧
      (⟨0, 1⟩ : Vector2D ℝ).Rotate realMath 0 ≠ ⟨0, 1⟩ :=
  ⟨((C16_rotate_formula (F := ℝ)).2 realMath ⟨0, 1⟩ Real.cos_zero Real.sin_zero).1,
    ((C16_rotate_formula (F := ℝ)).2 realMath ⟨0, 1⟩ Real.cos_zero Real.sin_zero).2.1
      one_ne_zero⟩

end

section

open F64

/-- C17 (amended): for every pair of vectors `v`, `v2`, with
`raw = (Dot(v, v2) / Magnitude(v)) * Magnitude(v2)`, `AngleBetween(v, v2)` returns π
when `raw <= -1`, returns `0` when `raw >= 0`, and returns `raw` otherwise; hence,
unless `raw` is `NaN`, the result is π, `0`, or a value strictly between `-1` and `0`,
and when `raw` is `NaN` the result is `NaN`. -/
theorem C17_angleBetween_cases :
    (∀ v v2 : F64.Vector2D, v.Dot v2 / v.Magnitude * v2.Magnitude ≤ -1 →
        v.AngleBetween v2 = F64.Pi) ∧
    (∀ v v2 : F64.Vector2D, (0 : F64) ≤ v.Dot v2 / v.Magnitude * v2.Magnitude →
        v.AngleBetween v2 = 0) ∧
    (∀ v v2 : F64.Vector2D, ¬ v.Dot v2 / v.Magnitude * v2.Magnitude ≤ -1 →
        ¬ (0 : F64) ≤ v.Dot v2 / v.Magnitude * v2.Magnitude →
        v.AngleBetween v2 = v.Dot v2 / v.Magnitude * v2.Magnitude) ∧
    (∀ v v2 : F64.Vector2D, v.Dot v2 / v.Magnitude * v2.Magnitude ≠ nan →
        v.AngleBetween v2 = F64.Pi ∨ v.AngleBetween v2 = 0 ∨
          (F64.lt (-1) (v.AngleBetween v2) = true ∧ F64.lt (v.AngleBetween v2) 0 = true)) ∧
    (∀ v v2 : F64.Vector2D, v.Dot v2 / v.Magnitude * v2.Magnitude = nan →
        v.AngleBetween v2 = nan) := by
  have e : ∀ v v2 : F64.Vector2D, v.AngleBetween v2 =
      if v.Dot v2 / v.Magnitude * v2.Magnitude ≤ -1 then F64.Pi
      else if (0 : F64) ≤ v.Dot v2 / v.Magnitude * v2.Magnitude then 0
      else v.Dot v2 / v.Magnitude * v2.Magnitude := fun v v2 => rfl
  refine ⟨?_, ?_, ?_, ?_, ?_⟩
  · intro v v2 h
    rw [e, if_pos h]
  · intro v v2 h
    rw [e, if_neg (not_le_neg_one _ h), if_pos h]
  · intro v v2 h1 h2
    rw [e, if_neg h1, if_neg h2]
  · intro v v2 hn
    rw [e]
    by_cases h1 : v.Dot v2 / v.Magnitude * v2.Magnitude ≤ -1
    · left; rw [if_pos h1]
    · by_cases h2 : (0 : F64) ≤ v.Dot v2 / v.Magnitude * v2.Magnitude
      · right; left; rw [if_neg h1, if_pos h2]
      · right; right
        rw [if_neg h1, if_neg h2]
        exact between_of_not _ hn h1 h2
  · intro v v2 h
    rw [e, h]
    decide!

/-- Witness of the amended C17: `(1, 0)` against `(-2, 0)` gives π, against `(2, 0)`
gives `0`, and against `(-0.5, 0)` gives the raw value `-0.5`. -/
theorem C17_angleBetween_cases_witness :
    (⟨1, 0⟩ : F64.Vector2D).AngleBetween ⟨-2, 0⟩ = F64.Pi ∧
      (⟨1, 0⟩ : F64.Vector2D).AngleBetween ⟨2, 0⟩ = 0 ∧
      (⟨1, 0⟩ : F64.Vector2D).AngleBetween ⟨-(ofDec 1 2), 0⟩
        = (⟨1, 0⟩ : F64.Vector2D).Dot ⟨-(ofDec 1 2), 0⟩ / (⟨1, 0⟩ : F64.Vector2D).Magnitude
          * (⟨-(ofDec 1 2), 0⟩ : F64.Vector2D).Magnitude :=
  ⟨C17_angleBetween_cases.1 ⟨1, 0⟩ ⟨-2, 0⟩ (by decide!),
   C17_angleBetween_cases.2.1 ⟨1, 0⟩ ⟨2, 0⟩ (by decide!),
   C17_angleBetween_cases.2.2.1 ⟨1, 0⟩ ⟨-(ofDec 1 2), 0⟩ (by decide!) (by decide!)⟩

/-- C17, as stated, fails: `AngleBetween((0, 0), (1, 0))` is `NaN` (`0 / 0`), and so is
`AngleBetween((1, 0), (0, 2^600))` (`0 · +Inf`, the magnitude of `v2` overflows); `NaN`
is neither π, nor `0`, nor strictly between `-1` and `0`. -/
theorem C17_angleBetween_nan_counterexample :
    (⟨0, 0⟩ : F64.Vector2D).AngleBetween ⟨1, 0⟩ = nan ∧
      (⟨1, 0⟩ : F64.Vector2D).Magnitude = 1 ∧
      (⟨1, 0⟩ : F64.Vector2D).AngleBetween ⟨0, fin false (2 ^ 1674)⟩ = nan ∧
      (nan == F64.Pi) = false ∧ (nan == (0 : F64)) = false ∧
      F64.lt (-1) nan = false ∧ F64.lt nan 0 = false := by
  decide!

/-- C18 (amended): for every vector `v` and every scalar `max` (of any sign) whose
components and value are `0` or of absolute value between `2^-100` and `2^100`,
`MagnitudeSquared(Limit(v, max))` is finite and at most `max² · (1 + 2^-48)`: the limited
vector is longer than `|max|` by rounding only. -/
theorem C18_limit_bound_rounded (v : F64.Vector2D) (max : F64) (hx : v.X.IsModerate)
    (hy : v.Y.IsModerate) (hm : max.IsModerate) :
    (v.Limit max).MagnitudeSquared.isFin = true ∧
      (v.Limit max).MagnitudeSquared.toRat ≤ max.toRat ^ 2 * (1 + 1 / 2 ^ 48) := by
  obtain ⟨x, y⟩ := v
  cases x with
  | fin sx kx =>
    cases y with
    | fin sy ky =>
      cases max with
      | fin sm km =>
        obtain ⟨j, g, jm, hj, hg, hjm, hgj, hjmn, hbr⟩ := limit_near sx sy sm kx ky km hx hy hm
        rw [toRat_sq]
        have hM2 : 0 ≤ val km ^ 2 := sq_nonneg _
        have hU : U = 1 / 2 ^ 53 := rfl
        rcases hbr with ⟨hle, hcopy⟩ | ⟨hlt, jl, r, hjl, hr, hn1, hn2⟩
        · rw [hcopy, hj]
          refine ⟨rfl, ?_⟩
          show val j ≤ val km ^ 2 * (1 + 1 / 2 ^ 48)
          have h1 : val j ≤ val jm := val_le_val.mpr hle
          have h2 := hjmn.2
          rw [hU] at h2
          have h3 : val km ^ 2 * (1 + 3 * (1 / 2 ^ 53)) ≤ val km ^ 2 * (1 + 1 / 2 ^ 48) :=
            mul_le_mul_of_nonneg_left (by norm_num) hM2
          linarith
        · rw [hjl]
          refine ⟨rfl, ?_⟩
          show val jl ≤ val km ^ 2 * (1 + 1 / 2 ^ 48)
          have h2 := hn1.2
          rw [hU] at h2
          have h3 : val km ^ 2 * (1 + 26 * (1 / 2 ^ 53)) ≤ val km ^ 2 * (1 + 1 / 2 ^ 48) :=
            mul_le_mul_of_nonneg_left (by norm_num) hM2
          linarith
      | inf s => exact absurd hm (by simp [IsModerate])
      | nan => exact absurd hm (by simp [IsModerate])
    | inf s => exact absurd hy (by simp [IsModerate])
    | nan => exact absurd hy (by simp [IsModerate])
  | inf s => exact absurd hx (by simp [IsModerate])
  | nan => exact absurd hx (by simp [IsModerate])

/-- Witness of the amended C18 at `v = (5, 12)`, `max = 1`. -/
theorem C18_limit_bound_rounded_witness :
    ((⟨5, 12⟩ : F64.Vector2D).Limit 1).MagnitudeSquared.isFin = true ∧
      ((⟨5, 12⟩ : F64.Vector2D).Limit 1).MagnitudeSquared.toRat
        ≤ (1 : F64).toRat ^ 2 * (1 + 1 / 2 ^ 48) :=
  C18_limit_bound_rounded ⟨5, 12⟩ 1 (by decide!) (by decide!) (by decide!)

/-- C18, as stated, fails: `MagnitudeSquared(Limit((5, 12), 1))` is
`1.0000000000000002`, which is not `<= 1 = max²`. -/
theorem C18_limit_bound_counterexample :
    ((⟨5, 12⟩ : F64.Vector2D).Limit 1).MagnitudeSquared
        = ofDec 10000000000000002 10000000000000000 ∧
      F64.le ((⟨5, 12⟩ : F64.Vector2D).Limit 1).MagnitudeSquared (1 * 1) = false ∧
      F64.le ((⟨5, 12⟩ : F64.Vector2D).Limit 1).MagnitudeSquared (F64.pow2 1) = false := by
  decide!

end

section

variable {F : Type} [LinearOrderedField F]

open Vector2D

/-- C19: `Distance` does not separate points: the different vectors `(0,0)` and
`(1,-1)` have `Distance` `0`; and `Distance(v, v2) == Distance(v2, v)` for every `v`
and `v2` (with `math.Sqrt` the exact square root). -/
theorem C19_distance_not_separating (m : MathPkg F) (hm : ExactSqrt m) :
    ((⟨0, 0⟩ : Vector2D F) ≠ ⟨1, -1⟩ ∧
        (⟨0, 0⟩ : Vector2D F).Distance m ⟨1, -1⟩ = 0) ∧
      (∃ v v2 : Vector2D F, v ≠ v2 ∧ v.Distance m v2 = 0) ∧
      ∀ v v2 : Vector2D F, v.Distance m v2 = v2.Distance m v := by
  have hne : (⟨0, 0⟩ : Vector2D F) ≠ ⟨1, -1⟩ := by
    intro e
    have ex : (0 : F) = 1 := congrArg Vector2D.X e
    exact zero_ne_one ex
  have hd : (⟨0, 0⟩ : Vector2D F).Distance m ⟨1, -1⟩ = 0 := by
    unfold Distance
    rw [hm.sqrt_sq_eq_abs]
    norm_num
  refine ⟨⟨hne, hd⟩, ⟨_, _, hne, hd⟩, fun v v2 => ?_⟩
  unfold Distance
  congr 1
  ring

/-- Witness of C19 over the reals. -/
theorem C19_distance_not_separating_witness :
    (⟨0, 0⟩ : Vector2D ℝ).Distance realMath ⟨1, -1⟩ = 0 ∧
      (⟨3, 4⟩ : Vector2D ℝ).Distance realMath ⟨1, 7⟩
        = (⟨1, 7⟩ : Vector2D ℝ).Distance realMath ⟨3, 4⟩ :=
  ⟨(C19_distance_not_separating realMath realMath_exactSqrt).1.2,
   (C19_distance_not_separating realMath realMath_exactSqrt).2.2 ⟨3, 4⟩ ⟨1, 7⟩⟩

end

section

open F64

/-- C20 (amended): for every vector `v` whose components are `0` or of absolute value
between `2^-100` and `2^100` and every normal `n` of unit length (`Dot(n, n) == 1`),
reflecting twice returns the original vector up to rounding (each component of
`Reflect(Reflect(v, n), n)` is finite and within `(|x| + |y|) · 2^-44` of that of `v`),
and reflection preserves length up to rounding (`MagnitudeSquared(Reflect(v, n))` is
finite and within `(x² + y²) · 2^-43` of `MagnitudeSquared(v)`). -/
theorem C20_reflect_rounded (v n : F64.Vector2D) (hx : v.X.IsModerate) (hy : v.Y.IsModerate)
    (hn : (n.Dot n == 1) = true) :
    ((v.Reflect n).Reflect n).X.isFin = true ∧ ((v.Reflect n).Reflect n).Y.isFin = true ∧
      |((v.Reflect n).Reflect n).X.toRat - v.X.toRat| ≤ (|v.X.toRat| + |v.Y.toRat|) / 2 ^ 44 ∧
      |((v.Reflect n).Reflect n).Y.toRat - v.Y.toRat| ≤ (|v.X.toRat| + |v.Y.toRat|) / 2 ^ 44 ∧
      (v.Reflect n).MagnitudeSquared.isFin = true ∧
      |(v.Reflect n).MagnitudeSquared.toRat - v.MagnitudeSquared.toRat|
        ≤ (v.X.toRat * v.X.toRat + v.Y.toRat * v.Y.toRat) / 2 ^ 43 := by
  obtain ⟨sa, sb, ka, kb, en, ha, hb, hA, hB, hN⟩ := unit_normal n hn
  subst en
  obtain ⟨x, y⟩ := v
  cases x with
  | fin sx kx =>
    cases y with
    | fin sy ky =>
      obtain ⟨s1, k1, s2, k2, s3, k3, s4, k4, e1, e2, e3, b1, b2, b3⟩ :=
        reflect_twice_near sx sy sa sb kx ky ka kb hx hy ha hb hA hB hN
      rw [e1, e2, e3]
      exact ⟨rfl, rfl, b1, b2, rfl, b3⟩
    | inf s => exact absurd hy (by simp [IsModerate])
    | nan => exact absurd hy (by simp [IsModerate])
  | inf s => exact absurd hx (by simp [IsModerate])
  | nan => exact absurd hx (by simp [IsModerate])

/-- Witness of the amended C20 at `v = (1, 2)` and the unit normal `n = (0.6, 0.8)`. -/
theorem C20_reflect_rounded_witness :
    (((⟨1, 2⟩ : F64.Vector2D).Reflect ⟨ofDec 6 10, ofDec 8 10⟩).Reflect
        ⟨ofDec 6 10, ofDec 8 10⟩).X.isFin = true ∧
      (((⟨1, 2⟩ : F64.Vector2D).Reflect ⟨ofDec 6 10, ofDec 8 10⟩).Reflect
        ⟨ofDec 6 10, ofDec 8 10⟩).Y.isFin = true ∧
      |(((⟨1, 2⟩ : F64.Vector2D).Reflect ⟨ofDec 6 10, ofDec 8 10⟩).Reflect
        ⟨ofDec 6 10, ofDec 8 10⟩).X.toRat - (1 : F64).toRat|
        ≤ (|(1 : F64).toRat| + |(2 : F64).toRat|) / 2 ^ 44 ∧
      |(((⟨1, 2⟩ : F64.Vector2D).Reflect ⟨ofDec 6 10, ofDec 8 10⟩).Reflect
        ⟨ofDec 6 10, ofDec 8 10⟩).Y.toRat - (2 : F64).toRat|
        ≤ (|(1 : F64).toRat| + |(2 : F64).toRat|) / 2 ^ 44 ∧
      ((⟨1, 2⟩ : F64.Vector2D).Reflect ⟨ofDec 6 10, ofDec 8 10⟩).MagnitudeSquared.isFin
        = true ∧
      |((⟨1, 2⟩ : F64.Vector2D).Reflect ⟨ofDec 6 10, ofDec 8 10⟩).MagnitudeSquared.toRat
          - (⟨1, 2⟩ : F64.Vector2D).MagnitudeSquared.toRat|
        ≤ ((1 : F64).toRat * (1 : F64).toRat + (2 : F64).toRat * (2 : F64).toRat) / 2 ^ 43 :=
  C20_reflect_rounded ⟨1, 2⟩ ⟨ofDec 6 10, ofDec 8 10⟩ (by decide!) (by decide!) (by decide!)

/-- C20, as stated, fails: for the unit normal `n = (0.6, 0.8)`, where `Dot(n, n) == 1`
holds, `MagnitudeSquared(Reflect((1, 2), n))` is `5.000000000000002`, not
`MagnitudeSquared((1, 2)) = 5`, and the first component of
`Reflect(Reflect((0, 1), n), n)` is `2^-52`, not `0`. -/
theorem C20_reflect_involution_counterexample :
    ((⟨ofDec 6 10, ofDec 8 10⟩ : F64.Vector2D).Dot ⟨ofDec 6 10, ofDec 8 10⟩ == 1) = true ∧
      ((⟨1, 2⟩ : F64.Vector2D).Reflect ⟨ofDec 6 10, ofDec 8 10⟩).MagnitudeSquared
        = ofDec 5000000000000002 1000000000000000 ∧
      (⟨1, 2⟩ : F64.Vector2D).MagnitudeSquared = 5 ∧
      (((⟨1, 2⟩ : F64.Vector2D).Reflect ⟨ofDec 6 10, ofDec 8 10⟩).MagnitudeSquared
        == (⟨1, 2⟩ : F64.Vector2D).MagnitudeSquared) = false ∧
      (((⟨0, 1⟩ : F64.Vector2D).Reflect ⟨ofDec 6 10, ofDec 8 10⟩).Reflect
        ⟨ofDec 6 10, ofDec 8 10⟩).X = fin false (2 ^ 1022) ∧
      ((((⟨0, 1⟩ : F64.Vector2D).Reflect ⟨ofDec 6 10, ofDec 8 10⟩).Reflect
        ⟨ofDec 6 10, ofDec 8 10⟩).X == 0) = false := by
  decide!

end

end vector2d
